import Mathlib

/-!
Verification of the GSD (General Simulation Data) on-disk container engine,
a shallow embedding of src/gsd/gsd.c.

The file is modelled structurally: the header, the index block and the
namelist block are kept as structured values at their (tracked) byte
locations, while payload regions live in a byte map indexed by absolute
offset.  Machine-integer overflow is modelled explicitly (mod 2^64) in the
chunk-size computation, where a single call can overflow in C; counters that
move by one per call are kept as plain naturals.  C strings (chunk names)
are byte lists; NULL pointers are modelled with Option.
-/

namespace Gsd

/-- Magic value identifying a GSD file (gsd.c line 37). -/
def GSD_MAGIC_ID : Nat := 0x65DF65DF65DF65DF

/-- Initial index size, in entries (gsd.c line 42). -/
def GSD_INITIAL_INDEX_SIZE : Nat := 128

/-- Initial namelist size, in entries (gsd.c line 48). -/
def GSD_INITIAL_NAMELIST_SIZE : Nat := 65535

/-- Size in bytes of struct gsd_header. -/
def gsd_header_size : Nat := 256

/-- Size in bytes of struct gsd_index_entry. -/
def gsd_index_entry_size : Nat := 64

/-- Size in bytes of struct gsd_namelist_entry. -/
def gsd_namelist_entry_size : Nat := 64

/-- Modulus for 64-bit machine arithmetic. -/
def u64_mod : Nat := 2 ^ 64

/-- Modulus for 16-bit machine arithmetic (uint16_t ids). -/
def u16_mod : Nat := 2 ^ 16

/-- Byte sizes of the primitive GSD types, by enum code.  The enum codes
(1 = u8 .. 10 = double) are those of enum gsd_type in the public header;
an unknown code yields 0, exactly as gsd_sizeof_type does (gsd.c 1429-1477). -/
def gsd_sizeof_type (t : Nat) : Nat :=
  if t = 1 then 1
  else if t = 2 then 2
  else if t = 3 then 4
  else if t = 4 then 8
  else if t = 5 then 1
  else if t = 6 then 2
  else if t = 7 then 4
  else if t = 8 then 8
  else if t = 9 then 4
  else if t = 10 then 8
  else 0

/-- gsd_make_version (gsd.c 913-916): major << 16 | minor, as uint32_t. -/
def gsd_make_version (major minor : Nat) : Nat :=
  (major <<< 16 ||| minor) % 2 ^ 32

/-- Error codes returned by the C API (negative ints in C). -/
inductive GsdError where
  | IOFail
  | NotAGsdFile
  | InvalidGsdFileVersion
  | FileCorrupt
  | MemoryAllocationFailed
  | InvalidArgument
  | FileMustBeWritable
  | FileMustBeReadable
  | NamelistFull
deriving DecidableEq, Repr

/-- Open mode of a handle (enum gsd_open_flag). -/
inductive GsdOpenFlag where
  | readwrite
  | readonly
  | append
deriving DecidableEq, Repr

/-- One struct gsd_index_entry (64 bytes on disk).  The C field "type" is
spelled typ here. -/
structure GsdIndexEntry where
  frame : Nat
  N : Nat
  location : Nat
  M : Nat
  id : Nat
  typ : Nat
  flags : Nat
deriving DecidableEq, Repr

/-- An all-zero index entry; location = 0 marks an unused slot. -/
def zeroEntry : GsdIndexEntry := ⟨0, 0, 0, 0, 0, 0, 0⟩

instance : Inhabited GsdIndexEntry := ⟨zeroEntry⟩

/-- The fixed 256-byte file header (struct gsd_header), structurally. -/
structure GsdHeader where
  magic : Nat
  index_location : Nat
  namelist_location : Nat
  index_allocated_entries : Nat
  namelist_allocated_entries : Nat
  schema_version : Nat
  gsd_version : Nat
  application : List Nat
  schema : List Nat
deriving DecidableEq, Repr

/-- One entry of the in-memory sorted name cache (struct gsd_name_id_pair).
In C the name field is a pointer into the namelist buffer; here the (already
truncated) byte string is stored by value. -/
structure GsdNameIdPair where
  name : List Nat
  id : Nat
deriving DecidableEq, Repr

instance : Inhabited GsdNameIdPair := ⟨⟨[], 0⟩⟩

/-- The on-disk state of a GSD file.  The header, the index block (the 64-byte
entries starting at header.index_location) and the namelist block are stored
structurally; payload bytes live in the data map.  size is the byte length of
the file (what lseek SEEK_END returns). -/
structure GsdFile where
  header : GsdHeader
  indexBlock : List GsdIndexEntry
  namelistBlock : List (List Nat)
  data : Nat → Nat
  size : Nat

/-- The in-memory state of an open handle (struct gsd_handle).  In read-write
mode index is the whole heap-resident index; in read-only mode it is the
mapped view of the on-disk index block; in append mode it is the small cache
holding only entries not yet written by gsd_end_frame.  The C capacity field
names_allocated_size is bookkeeping for realloc and is not modelled. -/
structure GsdHandle where
  header : GsdHeader
  index : List GsdIndexEntry
  namelist : List (List Nat)
  names : List GsdNameIdPair
  namelist_num_entries : Nat
  namelist_written_entries : Nat
  index_num_entries : Nat
  index_written_entries : Nat
  append_index_size : Nat
  cur_frame : Nat
  file_size : Nat
  open_flags : GsdOpenFlag
deriving Repr

/-- Write a list of bytes into a byte map at an absolute offset. -/
def writeBytes (d : Nat → Nat) (off : Nat) (bs : List Nat) : Nat → Nat :=
  fun a => if off ≤ a ∧ a < off + bs.length then bs.getD (a - off) 0 else d a

/-- Read n bytes from a byte map at an absolute offset. -/
def readBytes (d : Nat → Nat) (off n : Nat) : List Nat :=
  (List.range n).map fun j => d (off + j)

/-- Overwrite the slice of a list starting at position i with xs (positioned
write into a fixed-size block). -/
def listWriteAt {α : Type} (l : List α) (i : Nat) (xs : List α) : List α :=
  l.take i ++ xs ++ l.drop (i + xs.length)

/-- strncmp(a, b, strlen(a)) on byte strings: compare a against the first
length-of-a bytes of b, as strncmp does (gsd_find_name's comparator). -/
def strncmpPref : List Nat → List Nat → Ordering
  | [], _ => .eq
  | _ :: _, [] => .gt
  | a :: as, b :: bs =>
    if a < b then .lt else if b < a then .gt else strncmpPref as bs

/-- strcmp on byte strings (the qsort comparator gsd_cmp_name_id_pair). -/
def strcmpList : List Nat → List Nat → Ordering
  | [], [] => .eq
  | [], _ :: _ => .lt
  | _ :: _, [] => .gt
  | a :: as, b :: bs =>
    if a < b then .lt else if b < a then .gt else strcmpList as bs

/-- Boolean comparator used for sorting name/id pairs by strcmp order. -/
def gsd_cmp_name_id_pair (p q : GsdNameIdPair) : Bool :=
  match strcmpList p.name q.name with
  | .gt => false
  | _ => true

/-- Insert an element into a sorted list, keeping it sorted by le. -/
def insertSorted {α : Type} (le : α → α → Bool) (a : α) : List α → List α
  | [] => [a]
  | b :: l => if le a b then a :: b :: l else b :: insertSorted le a l

/-- Insertion sort by a boolean comparator. -/
def insertionSort {α : Type} (le : α → α → Bool) : List α → List α
  | [] => []
  | a :: l => insertSorted le a (insertionSort le l)

/-- gsd_sort_name_id_pairs (gsd.c 348-354): sort the cache by name.  qsort is
modelled by an insertion sort with the same comparator. -/
def gsd_sort_name_id_pairs (l : List GsdNameIdPair) : List GsdNameIdPair :=
  insertionSort gsd_cmp_name_id_pair l

/-- Truncation performed by strncpy into a 64-byte slot (63 chars + NUL). -/
def truncName63 (n : List Nat) : List Nat := n.take 63

/-- Name stored at position i of the cache (reads of handle->names[i].name). -/
def nameAt (h : GsdHandle) (i : Nat) : List Nat :=
  (h.names.getD i default).name

/-- The do-while loop of gsd_find_name (gsd.c 392-409).  L and R are the
current window bounds; each iteration probes m = (L+R)/2 and narrows, and the
loop exits (not found) when R - L ≤ 1 after the update.  The loop runs at
most R - L times (the window shrinks strictly), so it is written structurally
over a fuel argument that every caller instantiates with R - L + 1; the
fuel-exhausted branch is unreachable. -/
def gsd_find_name_loop (h : GsdHandle) (name : List Nat) :
    Nat → Nat → Nat → Option Nat
  | 0, _, _ => none
  | fuel + 1, L, R =>
    let m := (L + R) / 2
    match strncmpPref name (nameAt h m) with
    | .eq => some m
    | .lt => if m - L > 1 then gsd_find_name_loop h name fuel L m else none
    | .gt => if R - m > 1 then gsd_find_name_loop h name fuel m R else none

/-- gsd_find_name (gsd.c 366-412): binary search of the sorted cache by a
prefix compare of length strlen(name).  Only the committed window
[0, namelist_written_entries) is searched. -/
def gsd_find_name (h : GsdHandle) (name : List Nat) : Option Nat :=
  if h.namelist_written_entries = 0 then none
  else
    match strncmpPref name (nameAt h 0) with
    | .lt => none
    | .eq => some 0
    | .gt =>
      gsd_find_name_loop h name (h.namelist_written_entries + 1) 0
        h.namelist_written_entries

/-- gsd_get_id (gsd.c 478-488): resolve a name to the id stored in the cache;
UINT16_MAX (not found) is modelled as none. -/
def gsd_get_id (h : GsdHandle) (name : List Nat) : Option Nat :=
  (gsd_find_name h name).map fun i => (h.names.getD i default).id

/-- gsd_append_name (gsd.c 427-468): copy the (truncated) name into the next
namelist slot and extend the cache tail with the new (name, id) pair.  The
returned Nat is the assigned id (namelist_num_entries before the call). -/
def gsd_append_name (h : GsdHandle) (name : List Nat) :
    Except GsdError (GsdHandle × Nat) :=
  if h.open_flags = .readonly then .error .FileMustBeWritable
  else if h.namelist_num_entries = h.header.namelist_allocated_entries then
    .error .NamelistFull
  else
    let nm := truncName63 name
    let id := h.namelist_num_entries
    .ok ({ h with
            namelist := h.namelist.set id nm
            names := h.names.take id ++ [⟨nm, id⟩]
            namelist_num_entries := id + 1 }, id)

/-- Size in bytes of a chunk, N * M * sizeof(type), computed in size_t
arithmetic as the C does (gsd.c 591, 1262, 1404). -/
def chunk_size (e : GsdIndexEntry) : Nat :=
  (e.N * e.M * gsd_sizeof_type e.typ) % u64_mod

/-- gsd_is_entry_valid (gsd.c 580-616). -/
def gsd_is_entry_valid (h : GsdHandle) (e : GsdIndexEntry) : Bool :=
  if gsd_sizeof_type e.typ = 0 then false
  else if h.file_size < e.location + chunk_size e then false
  else if h.header.index_allocated_entries ≤ e.frame then false
  else if h.namelist_num_entries ≤ e.id then false
  else if e.flags ≠ 0 then false
  else true

/-- gsd_initialize_file (gsd.c 498-571): truncate, then write a fresh header,
an all-zero initial index block and an all-zero initial namelist block.  In
the model the writes always succeed, so the resulting file state is returned
directly. -/
def gsd_initialize_file (application schema : List Nat) (schema_version : Nat) :
    GsdFile :=
  let header : GsdHeader :=
    { magic := GSD_MAGIC_ID
      gsd_version := gsd_make_version 1 0
      application := truncName63 application
      schema := truncName63 schema
      schema_version := schema_version
      index_location := gsd_header_size
      index_allocated_entries := GSD_INITIAL_INDEX_SIZE
      namelist_location :=
        gsd_header_size + gsd_index_entry_size * GSD_INITIAL_INDEX_SIZE
      namelist_allocated_entries := GSD_INITIAL_NAMELIST_SIZE }
  { header := header
    indexBlock := List.replicate GSD_INITIAL_INDEX_SIZE zeroEntry
    namelistBlock := List.replicate GSD_INITIAL_NAMELIST_SIZE []
    data := fun _ => 0
    size := gsd_header_size + gsd_index_entry_size * GSD_INITIAL_INDEX_SIZE
            + gsd_namelist_entry_size * GSD_INITIAL_NAMELIST_SIZE }

/-- The do-while loop bootstrapping index_num_entries (gsd.c 835-860): binary
search for the first entry with location 0, validating each probed entry and
the monotonicity of frames, and returning the final R.  Structurally fueled
exactly like gsd_find_name_loop; the fuel-exhausted branch is unreachable
when a caller passes fuel = R - L + 1. -/
def gsd_index_scan_loop (h : GsdHandle) : Nat → Nat → Nat → Except GsdError Nat
  | 0, _, R => .ok R
  | fuel + 1, L, R =>
    let m := (L + R) / 2
    let em := h.index.getD m zeroEntry
    if em.location ≠ 0 ∧
        (gsd_is_entry_valid h em = false ∨
          em.frame < (h.index.getD L zeroEntry).frame) then
      .error .FileCorrupt
    else if em.location ≠ 0 then
      if R - m > 1 then gsd_index_scan_loop h fuel m R else .ok R
    else
      if m - L > 1 then gsd_index_scan_loop h fuel L m else .ok m

/-- gsd_read_header (gsd.c 626-911): read and validate the header, size the
file, load the index (mapped in read-only and append modes, heap-copied in
read-write mode; identical contents either way), load the namelist, count its
entries, build and sort the name cache, bootstrap index_num_entries and
cur_frame, and in append mode replace the mapped index with an empty
one-entry staging cache. -/
def gsd_read_header (fs : GsdFile) (mode : GsdOpenFlag) :
    Except GsdError GsdHandle :=
  if fs.size < gsd_header_size then .error .NotAGsdFile
  else if fs.header.magic ≠ GSD_MAGIC_ID then .error .NotAGsdFile
  else if fs.header.gsd_version < gsd_make_version 1 0 ∧
      fs.header.gsd_version ≠ gsd_make_version 0 3 then
    .error .InvalidGsdFileVersion
  else if gsd_make_version 2 0 ≤ fs.header.gsd_version then
    .error .InvalidGsdFileVersion
  else if mode = .readwrite ∧
      fs.size < fs.header.index_location
        + gsd_index_entry_size * fs.header.index_allocated_entries then
    .error .FileCorrupt
  else if fs.size < fs.header.namelist_location
      + gsd_namelist_entry_size * fs.header.namelist_allocated_entries then
    .error .FileCorrupt
  else
    let nn := fs.namelistBlock.findIdx fun nm => nm.isEmpty
    let names := gsd_sort_name_id_pairs
      ((List.range nn).map fun i => ⟨fs.namelistBlock.getD i [], i⟩)
    let h0 : GsdHandle :=
      { header := fs.header
        index := fs.indexBlock
        namelist := fs.namelistBlock
        names := names
        namelist_num_entries := nn
        namelist_written_entries := nn
        index_num_entries := 0
        index_written_entries := 0
        append_index_size := 0
        cur_frame := 0
        file_size := fs.size
        open_flags := mode }
    let e0 := fs.indexBlock.getD 0 zeroEntry
    if e0.location ≠ 0 ∧ gsd_is_entry_valid h0 e0 = false then
      .error .FileCorrupt
    else
      match (if e0.location = 0 then Except.ok 0
             else gsd_index_scan_loop h0 (fs.header.index_allocated_entries + 1)
               0 fs.header.index_allocated_entries) with
      | .error e => .error e
      | .ok num =>
        let cf := if num = 0 then 0
                  else (fs.indexBlock.getD (num - 1) zeroEntry).frame + 1
        let h1 := { h0 with
          index_num_entries := num
          index_written_entries := num
          cur_frame := cf }
        .ok (if mode = .append then
              { h1 with index := [], append_index_size := 1 }
            else h1)

/-- gsd_open (gsd.c 989-1025) minus the file-descriptor plumbing: open the
named file in the given mode and run gsd_read_header over it. -/
def gsd_open (fs : GsdFile) (flags : GsdOpenFlag) : Except GsdError GsdHandle :=
  gsd_read_header fs flags

/-- gsd_create_and_open (gsd.c 937-987): initialize a fresh file and read it
back.  Read-only creation is rejected. -/
def gsd_create_and_open (application schema : List Nat) (schema_version : Nat)
    (flags : GsdOpenFlag) : Except GsdError (GsdFile × GsdHandle) :=
  if flags = .readonly then .error .FileMustBeWritable
  else
    let fs := gsd_initialize_file application schema schema_version
    (gsd_read_header fs flags).map fun h => (fs, h)

/-- gsd_truncate (gsd.c 1027-1070): on a writable handle, reinitialize the
file preserving application, schema and schema_version from the old header,
then re-read the header. -/
def gsd_truncate (h : Option GsdHandle) : Except GsdError (GsdFile × GsdHandle) :=
  match h with
  | none => .error .InvalidArgument
  | some h =>
    if h.open_flags = .readonly then .error .FileMustBeWritable
    else
      let fs := gsd_initialize_file h.header.application h.header.schema
        h.header.schema_version
      (gsd_read_header fs h.open_flags).map fun h' => (fs, h')

/-- gsd_expand_index (gsd.c 201-335): double the allocation, materialize the
new index block at end-of-file (in read-write mode from the whole in-memory
index, in append mode by copying the old on-disk block), zero-fill the upper
half, fsync, rewrite the header with the new index_location, fsync.  In the
model the writes succeed, and the stream copy through the 16 KiB buffer is an
identity copy of the old block. -/
def gsd_expand_index (fs : GsdFile) (h : GsdHandle) :
    Except GsdError (GsdFile × GsdHandle) :=
  let old_size := h.header.index_allocated_entries
  let new_size := old_size * 2
  if h.open_flags = .readwrite then
    let memIndex := h.index ++ List.replicate (new_size - old_size) zeroEntry
    let new_loc := fs.size
    let new_file_size := new_loc + gsd_index_entry_size * new_size
    let header2 := { h.header with
      index_allocated_entries := new_size
      index_location := new_loc }
    let fs2 : GsdFile :=
      { fs with indexBlock := memIndex, size := new_file_size, header := header2 }
    .ok (fs2, { h with header := header2, index := memIndex, file_size := new_file_size })
  else if h.open_flags = .append then
    let new_loc := fs.size
    let newBlock := fs.indexBlock ++ List.replicate (new_size - old_size) zeroEntry
    let new_file_size := new_loc + gsd_index_entry_size * new_size
    let header2 := { h.header with
      index_allocated_entries := new_size
      index_location := new_loc }
    let fs2 : GsdFile :=
      { fs with indexBlock := newBlock, size := new_file_size, header := header2 }
    .ok (fs2, { h with header := header2, file_size := new_file_size })
  else
    let header1 := { h.header with index_allocated_entries := new_size }
    .ok ({ fs with header := header1 }, { h with header := header1 })

/-- The entries staged in memory but not yet written by gsd_end_frame: in
append mode the first (num - written) slots of the cache, in the other modes
the slice [written, num) of the in-memory index. -/
def stagedSlots (h : GsdHandle) : List GsdIndexEntry :=
  if h.open_flags = .append then
    h.index.take (h.index_num_entries - h.index_written_entries)
  else
    (h.index.take h.index_num_entries).drop h.index_written_entries

/-- gsd_write_chunk (gsd.c 1213-1311).  data = none models a NULL pointer;
when shorter than the computed size, out-of-bounds reads of the caller buffer
are modelled as 0.  The id is stored through a uint16_t, and the C guard
against the UINT16_MAX sentinel is kept. -/
def gsd_write_chunk (fs : GsdFile) (h : GsdHandle) (name : List Nat)
    (typ N M flags : Nat) (data : Option (List Nat)) :
    Except GsdError (GsdFile × GsdHandle) :=
  if data = none then .error .InvalidArgument
  else if N = 0 ∨ M = 0 ∨ gsd_sizeof_type typ = 0 then .error .InvalidArgument
  else if h.open_flags = .readonly then .error .FileMustBeWritable
  else if flags ≠ 0 then .error .InvalidArgument
  else
    let resolve : Except GsdError (GsdHandle × Nat) :=
      match gsd_get_id h name with
      | some id0 => .ok (h, id0)
      | none =>
        match gsd_append_name h name with
        | .error e => .error e
        | .ok (h1, rawId) =>
          if rawId % u16_mod = u16_mod - 1 then .error .NamelistFull
          else .ok (h1, rawId % u16_mod)
    resolve.bind fun (h1, id) =>
    let size := (N * M * gsd_sizeof_type typ) % u64_mod
    let location := h1.file_size
    let bs := (List.range size).map fun j => (data.getD []).getD j 0
    let fs1 := { fs with
      data := writeBytes fs.data location bs
      size := max fs.size (location + size) }
    let h2 := { h1 with file_size := h1.file_size + size }
    let expanded : Except GsdError (GsdFile × GsdHandle) :=
      if h2.header.index_allocated_entries ≤ h2.index_num_entries then
        gsd_expand_index fs1 h2
      else .ok (fs1, h2)
    expanded.bind fun (fs2, h3) =>
    let entry : GsdIndexEntry :=
      { frame := h3.cur_frame, N := N, location := location, M := M,
        id := id, typ := typ % 256, flags := 0 }
    let h4 :=
      if h3.open_flags = .append then
        let slot := h3.index_num_entries - h3.index_written_entries
        { h3 with
          index := h3.index.take slot ++ [entry]
          append_index_size :=
            if h3.append_index_size ≤ slot then h3.append_index_size * 2
            else h3.append_index_size }
      else
        { h3 with index := h3.index.set h3.index_num_entries entry }
    .ok (fs2, { h4 with index_num_entries := h4.index_num_entries + 1 })

/-- gsd_end_frame (gsd.c 1135-1211): bump cur_frame, write staged index
entries to the on-disk index block, then write new namelist entries, re-sort
the name cache and fsync. -/
def gsd_end_frame (fs : GsdFile) (h : GsdHandle) :
    Except GsdError (GsdFile × GsdHandle) :=
  if h.open_flags = .readonly then .error .FileMustBeWritable
  else
    let h1 := { h with cur_frame := h.cur_frame + 1 }
    let k := h1.index_num_entries - h1.index_written_entries
    let fs2 :=
      if k > 0 then
        let src := if h1.open_flags = .append then h1.index.take k
                   else (h1.index.drop h1.index_written_entries).take k
        { fs with indexBlock := listWriteAt fs.indexBlock h1.index_written_entries src }
      else fs
    let h2 :=
      if k > 0 then { h1 with index_written_entries := h1.index_written_entries + k }
      else h1
    let d := h2.namelist_num_entries - h2.namelist_written_entries
    if d > 0 then
      let src := (h2.namelist.drop h2.namelist_written_entries).take d
      let fs3 := { fs2 with
        namelistBlock := listWriteAt fs2.namelistBlock h2.namelist_written_entries src }
      .ok (fs3, { h2 with
        namelist_written_entries := h2.namelist_num_entries
        names := gsd_sort_name_id_pairs h2.names })
    else .ok (fs2, h2)

/-- gsd_get_nframes (gsd.c 1313-1320) for a non-NULL handle. -/
def gsd_get_nframes (h : GsdHandle) : Nat := h.cur_frame

/-- The do-while loop of gsd_find_chunk (gsd.c 1354-1366): binary search for
the rightmost index entry whose frame is at most the requested frame,
returning the final L.  Structurally fueled; callers pass fuel = R - L + 1
and the fuel-exhausted branch is unreachable. -/
def gsd_find_chunk_loop (h : GsdHandle) (frame : Nat) : Nat → Nat → Nat → Nat
  | 0, L, _ => L
  | fuel + 1, L, R =>
    let m := (L + R) / 2
    if frame < (h.index.getD m zeroEntry).frame then
      if m - L > 1 then gsd_find_chunk_loop h frame fuel L m else L
    else
      if R - m > 1 then gsd_find_chunk_loop h frame fuel m R else m

/-- The backward scan of gsd_find_chunk (gsd.c 1372-1379): search downward
from cur through the block of entries with the matching frame for the first
matching id.  At cur = 0 the C loop counter goes to -1 and the loop exits. -/
def gsd_find_chunk_scan (h : GsdHandle) (frame id : Nat) :
    Nat → Option GsdIndexEntry
  | 0 =>
    let e := h.index.getD 0 zeroEntry
    if e.frame = frame then
      if e.id = id then some e else none
    else none
  | cur + 1 =>
    let e := h.index.getD (cur + 1) zeroEntry
    if e.frame = frame then
      if e.id = id then some e
      else gsd_find_chunk_scan h frame id cur
    else none

/-- gsd_find_chunk (gsd.c 1322-1383).  NULL handle or name gives NULL; frames
at or beyond cur_frame, append-mode handles, and unknown names give NULL;
otherwise the committed index is binary searched and back-scanned. -/
def gsd_find_chunk (h : Option GsdHandle) (frame : Nat) (name : Option (List Nat)) :
    Option GsdIndexEntry :=
  match h, name with
  | none, _ => none
  | _, none => none
  | some h, some name =>
    if gsd_get_nframes h ≤ frame then none
    else if h.open_flags = .append then none
    else
      match gsd_get_id h name with
      | none => none
      | some match_id =>
        let L := gsd_find_chunk_loop h frame (h.index_num_entries + 1) 0
          h.index_num_entries
        gsd_find_chunk_scan h frame match_id L

/-- gsd_read_chunk (gsd.c 1385-1427).  dataGiven = false models a NULL
destination pointer; the returned byte list is what the pread deposits in the
destination buffer. -/
def gsd_read_chunk (fs : GsdFile) (h : Option GsdHandle) (dataGiven : Bool)
    (chunk : Option GsdIndexEntry) : Except GsdError (List Nat) :=
  match h with
  | none => .error .InvalidArgument
  | some h =>
    if dataGiven = false then .error .InvalidArgument
    else match chunk with
    | none => .error .InvalidArgument
    | some e =>
      if h.open_flags = .append then .error .FileMustBeReadable
      else
        let size := chunk_size e
        if size = 0 then .error .FileCorrupt
        else if e.location = 0 then .error .FileCorrupt
        else if h.file_size < e.location + size then .error .FileCorrupt
        else .ok (readBytes fs.data e.location size)

/-- The linear scan of gsd_find_matching_chunk_name (gsd.c 1512-1520): from
start index i, return the first committed cache name with the given string as
a strncmp-prefix.  Structurally fueled; callers pass enough fuel to reach
namelist_written_entries. -/
def gsd_scan_names_from (h : GsdHandle) (mt : List Nat) :
    Nat → Nat → Option (List Nat)
  | 0, _ => none
  | fuel + 1, i =>
    if i < h.namelist_written_entries then
      if strncmpPref mt (nameAt h i) = .eq then some (nameAt h i)
      else gsd_scan_names_from h mt fuel (i + 1)
    else none

/-- gsd_find_matching_chunk_name (gsd.c 1479-1524). -/
def gsd_find_matching_chunk_name (h : Option GsdHandle)
    (mt prev : Option (List Nat)) : Option (List Nat) :=
  match h, mt with
  | none, _ => none
  | _, none => none
  | some h, some mt =>
    if h.namelist_written_entries = 0 then none
    else
      match prev with
      | none => gsd_scan_names_from h mt (h.namelist_written_entries + 1) 0
      | some p =>
        match gsd_find_name h p with
        | none => none
        | some found =>
          gsd_scan_names_from h mt (h.namelist_written_entries + 1) (found + 1)

/-- One API call of a writer session. -/
inductive GsdOp where
  | write (name : List Nat) (typ N M : Nat) (bytes : List Nat)
  | endFrame
deriving DecidableEq, Repr

/-- Run one session operation against the paired disk/handle state. -/
def runOp (s : GsdFile × GsdHandle) (op : GsdOp) :
    Except GsdError (GsdFile × GsdHandle) :=
  match op with
  | .write name typ N M bytes => gsd_write_chunk s.1 s.2 name typ N M 0 (some bytes)
  | .endFrame => gsd_end_frame s.1 s.2

/-- Run a list of session operations in order. -/
def runOps (s : GsdFile × GsdHandle) : List GsdOp → Except GsdError (GsdFile × GsdHandle)
  | [] => .ok s
  | op :: ops => (runOp s op).bind fun s' => runOps s' ops

/-- A logical record of one written chunk: the frame it was written in, its
name, shape, type and payload bytes. -/
structure GChunk where
  frame : Nat
  name : List Nat
  typ : Nat
  N : Nat
  M : Nat
  bytes : List Nat
deriving DecidableEq, Repr

/-- The chunks an operation list writes, with the frame index each one is
assigned (f = number of endFrame calls before the write). -/
def ghostChunks (f : Nat) : List GsdOp → List GChunk
  | [] => []
  | .endFrame :: ops => ghostChunks (f + 1) ops
  | .write n t N M b :: ops => ⟨f, n, t, N, M, b⟩ :: ghostChunks f ops

/-- Number of endFrame operations in a list. -/
def endCount : List GsdOp → Nat
  | [] => 0
  | .endFrame :: ops => endCount ops + 1
  | .write _ _ _ _ _ :: ops => endCount ops

/-- A committed or staged chunk together with the index entry recorded for
it: the ghost record g plus the concrete entry e (adding id and location). -/
structure CChunk where
  e : GsdIndexEntry
  g : GChunk
deriving DecidableEq, Repr

instance : Inhabited CChunk := ⟨⟨zeroEntry, ⟨0, [], 0, 0, 0, []⟩⟩⟩

/-- Well-formedness of one tracked chunk relative to the current file and
handle: a valid entry whose payload region is inside the file and carries the
recorded bytes, and whose id resolves to the recorded name. -/
structure CWf (fs : GsdFile) (h : GsdHandle) (c : CChunk) : Prop where
  flags0 : c.e.flags = 0
  typ_ok : gsd_sizeof_type c.e.typ ≠ 0
  no_wrap : c.e.N * c.e.M * gsd_sizeof_type c.e.typ < u64_mod
  size_pos : 0 < c.e.N * c.e.M * gsd_sizeof_type c.e.typ
  bytes_len : c.g.bytes.length = c.e.N * c.e.M * gsd_sizeof_type c.e.typ
  loc_lb : gsd_header_size ≤ c.e.location
  in_file : c.e.location + c.e.N * c.e.M * gsd_sizeof_type c.e.typ ≤ fs.size
  data_eq : ∀ j < c.g.bytes.length, fs.data (c.e.location + j) = c.g.bytes.getD j 0
  id_lt : c.e.id < h.namelist_num_entries
  id_name : h.namelist.getD c.e.id [] = c.g.name
  fr_eq : c.e.frame = c.g.frame
  N_eq : c.e.N = c.g.N
  M_eq : c.e.M = c.g.M
  typ_eq : c.e.typ = c.g.typ

/-- The name/id pair that position i of the namelist induces. -/
def nlPair (h : GsdHandle) (i : Nat) : GsdNameIdPair :=
  ⟨h.namelist.getD i [], i⟩

/-- Session invariant tying the on-disk file state and the live handle to the
list com of committed chunks (in commit order) and the list stg of chunks
staged in the current frame. -/
structure SInv (fs : GsdFile) (h : GsdHandle) (com stg : List CChunk) : Prop where
  hdr_eq : fs.header = h.header
  magic_eq : h.header.magic = GSD_MAGIC_ID
  ver_eq : h.header.gsd_version = gsd_make_version 1 0
  nlal_eq : h.header.namelist_allocated_entries = GSD_INITIAL_NAMELIST_SIZE
  al_ge : GSD_INITIAL_INDEX_SIZE ≤ h.header.index_allocated_entries
  nn_chunks : h.namelist_num_entries ≤ com.length + stg.length
  iblk_len : fs.indexBlock.length = h.header.index_allocated_entries
  nlblk_len : fs.namelistBlock.length = h.header.namelist_allocated_entries
  hnl_len : h.namelist.length = h.header.namelist_allocated_entries
  iw_eq : h.index_written_entries = com.length
  inum_eq : h.index_num_entries = com.length + stg.length
  inum_le : h.index_num_entries ≤ h.header.index_allocated_entries
  nn_le : h.namelist_num_entries ≤ h.header.namelist_allocated_entries
  nw_le : h.namelist_written_entries ≤ h.namelist_num_entries
  fsz_eq : h.file_size = fs.size
  size_lb : gsd_header_size ≤ fs.size
  ibound : h.header.index_location
    + gsd_index_entry_size * h.header.index_allocated_entries ≤ fs.size
  nbound : h.header.namelist_location
    + gsd_namelist_entry_size * h.header.namelist_allocated_entries ≤ fs.size
  disk_com : fs.indexBlock.take h.index_written_entries = com.map (·.e)
  disk_zero : ∀ e ∈ fs.indexBlock.drop h.index_num_entries, e = zeroEntry
  mem_rw : h.open_flags ≠ .append →
    h.index.length = h.header.index_allocated_entries ∧
    h.index.take h.index_num_entries = com.map (·.e) ++ stg.map (·.e) ∧
    ∀ e ∈ h.index.drop h.index_num_entries, e = zeroEntry
  mem_ap : h.open_flags = .append →
    h.index.take (h.index_num_entries - h.index_written_entries) = stg.map (·.e)
  nl_disk : fs.namelistBlock.take h.namelist_written_entries
    = h.namelist.take h.namelist_written_entries
  nl_disk_zero : ∀ nm ∈ fs.namelistBlock.drop h.namelist_written_entries, nm = []
  nl_tail_zero : ∀ nm ∈ h.namelist.drop h.namelist_num_entries, nm = []
  an_wf : ∀ i < h.namelist_num_entries,
    0 < (h.namelist.getD i []).length ∧ (h.namelist.getD i []).length ≤ 63
  an_inj : ∀ i j, i < h.namelist_num_entries → j < h.namelist_num_entries →
    i ≠ j → ¬ (h.namelist.getD i [] <+: h.namelist.getD j [])
  names_len : h.names.length = h.namelist_num_entries
  names_srt : ∀ i j, i < j → j < h.namelist_written_entries →
    strcmpList (nameAt h i) (nameAt h j) = .lt
  names_permw : (h.names.take h.namelist_written_entries).Perm
    ((List.range h.namelist_written_entries).map (nlPair h))
  names_tail : h.names.drop h.namelist_written_entries
    = (List.range' h.namelist_written_entries
        (h.namelist_num_entries - h.namelist_written_entries)).map (nlPair h)
  com_frames : ∀ i j, i < j → j < com.length →
    (com.getD i default).e.frame ≤ (com.getD j default).e.frame
  com_lt : ∀ c ∈ com, c.e.frame < h.cur_frame
  stg_frame : ∀ c ∈ stg, c.e.frame = h.cur_frame
  com_id_w : ∀ c ∈ com, c.e.id < h.namelist_written_entries
  chunk_wf : ∀ c ∈ com ++ stg, CWf fs h c
  an_from : ∀ i < h.namelist_num_entries,
    ∃ c ∈ com ++ stg, c.g.name = h.namelist.getD i []
  stg_an : ∀ i, h.namelist_written_entries ≤ i → i < h.namelist_num_entries →
    ∃ c ∈ stg, c.g.name = h.namelist.getD i []

/-- Validity of the arguments of one ghost write: the argument checks of
gsd_write_chunk plus the side conditions that make a write well-behaved (no
size_t overflow, payload length matching the computed size, and a nonempty
name that survives the 63-byte truncation). -/
structure WOk (c : GChunk) : Prop where
  N_pos : 0 < c.N
  M_pos : 0 < c.M
  typ_ok : gsd_sizeof_type c.typ ≠ 0
  typ_lt : c.typ < 256
  N_lt : c.N < u64_mod
  M_lt : c.M < 2 ^ 32
  no_wrap : c.N * c.M * gsd_sizeof_type c.typ < u64_mod
  bytes_len : c.bytes.length = c.N * c.M * gsd_sizeof_type c.typ
  name_pos : 0 < c.name.length
  name_le : c.name.length ≤ 63

/-- Compatibility of two ghost writes: names may only be prefixes of one
another when they are equal, and a (frame, name) pair is not written twice. -/
def nameFrameOk (c d : GChunk) : Prop :=
  (c.name <+: d.name → c.name = d.name) ∧
  (d.name <+: c.name → c.name = d.name) ∧
  ¬(c.frame = d.frame ∧ c.name = d.name)

/-- Discipline of a remaining operation list relative to already-written
ghost chunks pg, when the next write would land in frame f. -/
def TraceOk (pg : List GChunk) (f : Nat) (ops : List GsdOp) : Prop :=
  (∀ d ∈ ghostChunks f ops, WOk d) ∧
  List.Pairwise nameFrameOk (pg ++ ghostChunks f ops)

/-- The handle gsd_read_header produces for a freshly initialized file. -/
def gsd_init_handle (application schema : List Nat) (schema_version : Nat)
    (mode : GsdOpenFlag) : GsdHandle :=
  { header := (gsd_initialize_file application schema schema_version).header
    index := if mode = .append then []
             else List.replicate GSD_INITIAL_INDEX_SIZE zeroEntry
    namelist := List.replicate GSD_INITIAL_NAMELIST_SIZE []
    names := []
    namelist_num_entries := 0
    namelist_written_entries := 0
    index_num_entries := 0
    index_written_entries := 0
    append_index_size := if mode = .append then 1 else 0
    cur_frame := 0
    file_size := gsd_header_size + gsd_index_entry_size * GSD_INITIAL_INDEX_SIZE
      + gsd_namelist_entry_size * GSD_INITIAL_NAMELIST_SIZE
    open_flags := mode }

/-- Error component of an Except result, if any. -/
def errOf {α : Type} : Except GsdError α → Option GsdError
  | .ok _ => none
  | .error e => some e

/-- A throwaway file state used only as a default when destructuring. -/
def dfltFS : GsdFile := gsd_initialize_file [] [] 0

/-- A throwaway handle used only as a default when destructuring. -/
def dfltH : GsdHandle :=
  ⟨dfltFS.header, [], [], [], 0, 0, 0, 0, 0, 0, 0, .readwrite⟩

/-- Extract the ok component of an Except result, with a default. -/
def exOk {α : Type} (x : Except GsdError α) (d : α) : α :=
  match x with
  | .ok v => v
  | .error _ => d

/-- Byte string "a". -/
def bsA : List Nat := [97]

/-- Byte string "w". -/
def bsW : List Nat := [119]

/-- Byte string "x". -/
def bsX : List Nat := [120]

/-- Byte string "xa". -/
def bsXA : List Nat := [120, 97]

/-- Byte string "xb". -/
def bsXB : List Nat := [120, 98]

/-- Byte string "xy". -/
def bsXY : List Nat := [120, 121]

/-- Byte string "z". -/
def bsZ : List Nat := [122]

/-- Byte string "s". -/
def bsS : List Nat := [115]

/-- Fresh read-write session state on a file created with application "a",
schema "s", schema version 0. -/
def sess0 : GsdFile × GsdHandle :=
  exOk (gsd_create_and_open bsA bsS 0 .readwrite) (dfltFS, dfltH)

/-- Operations of the C1 counterexample: four chunks named x, xy, w and z in
frame 0, then a commit.  The names x and xy are distinct yet x is a prefix
of xy. -/
def ce1_ops : List GsdOp :=
  [.write bsX 1 1 1 [7], .write bsXY 1 2 1 [1, 2], .write bsW 1 1 1 [3],
   .write bsZ 1 1 1 [4], .endFrame]

/-- File state after running the C1 counterexample session. -/
def ce1_fs : GsdFile := (exOk (runOps sess0 ce1_ops) (dfltFS, dfltH)).1

/-- Handle obtained by reopening the C1 counterexample file read-only. -/
def ce1_h : GsdHandle := exOk (gsd_read_header ce1_fs .readonly) dfltH

/-- Operations of the C2 counterexample: a single committed chunk named xy. -/
def ce2_ops : List GsdOp := [.write bsXY 1 1 1 [9], .endFrame]

/-- Live handle after the C2 counterexample session. -/
def ce2_h : GsdHandle := (exOk (runOps sess0 ce2_ops) (dfltFS, dfltH)).2

/-- Operations of the C8 counterexample: committed names a, x, xa, xb. -/
def ce8_ops : List GsdOp :=
  [.write bsA 1 1 1 [1], .write bsX 1 1 1 [2], .write bsXA 1 1 1 [3],
   .write bsXB 1 1 1 [4], .endFrame]

/-- Live handle after the C8 counterexample session. -/
def ce8_h : GsdHandle := (exOk (runOps sess0 ce8_ops) (dfltFS, dfltH)).2

/-- File state after the C2 counterexample session. -/
def ce2_fs : GsdFile := (exOk (runOps sess0 ce2_ops) (dfltFS, dfltH)).1

/-- A read-only handle used by the C5 counterexample. -/
def ce5_h : GsdHandle := { dfltH with open_flags := .readonly }

/-- File used by the C6 witness: 400 bytes whose byte at offset a is a mod
256. -/
def wit6_fs : GsdFile := { dfltFS with data := fun a => a % 256, size := 400 }

/-- Handle used by the C6 witness. -/
def wit6_h : GsdHandle := { dfltH with file_size := 400 }

/-- Index entry used by the C6 witness: 2 bytes of u8 data at offset 300. -/
def wit6_e : GsdIndexEntry := ⟨0, 2, 300, 1, 0, 1, 0⟩

/-- Handle used by the C3 witness: a full one-entry index. -/
def wit3_h : GsdHandle :=
  { dfltH with
    header := { dfltFS.header with index_allocated_entries := 1 }
    index := [zeroEntry]
    index_num_entries := 1 }

/-- File used by the C3 witness. -/
def wit3_fs : GsdFile := { dfltFS with indexBlock := [zeroEntry] }

/-- The handle gsd_read_header produces on a well-formed file whose index has
a dense prefix of k entries and whose namelist holds nn names. -/
def gsd_mk_handle (fs : GsdFile) (mode : GsdOpenFlag) (k nn : Nat) : GsdHandle :=
  let names := gsd_sort_name_id_pairs
    ((List.range nn).map fun i => ⟨fs.namelistBlock.getD i [], i⟩)
  let h1 : GsdHandle :=
    { header := fs.header
      index := fs.indexBlock
      namelist := fs.namelistBlock
      names := names
      namelist_num_entries := nn
      namelist_written_entries := nn
      index_num_entries := k
      index_written_entries := k
      append_index_size := 0
      cur_frame := if k = 0 then 0
                   else (fs.indexBlock.getD (k - 1) zeroEntry).frame + 1
      file_size := fs.size
      open_flags := mode }
  if mode = .append then { h1 with index := [], append_index_size := 1 } else h1

/-- The handle after gsd_append_name assigns the next id to a (truncated)
name: an auxiliary description of the successful append used in lemmas. -/
def appendNameState (h : GsdHandle) (name : List Nat) : GsdHandle :=
  { h with
    namelist := h.namelist.set h.namelist_num_entries (truncName63 name)
    names := h.names.take h.namelist_num_entries
      ++ [⟨truncName63 name, h.namelist_num_entries⟩]
    namelist_num_entries := h.namelist_num_entries + 1 }

/-- The state gsd_write_chunk produces once the name is resolved to id, when
the index needs no expansion: an auxiliary description of the tail of the
write path (payload write, file-size bump, slot insertion) used in lemmas. -/
def wcCore (fs : GsdFile) (h1 : GsdHandle) (typ N M : Nat) (bytes : List Nat)
    (id : Nat) : GsdFile × GsdHandle :=
  let size := (N * M * gsd_sizeof_type typ) % u64_mod
  let location := h1.file_size
  let bs := (List.range size).map fun j => bytes.getD j 0
  let fs1 := { fs with
    data := writeBytes fs.data location bs
    size := max fs.size (location + size) }
  let h2 := { h1 with file_size := h1.file_size + size }
  let entry : GsdIndexEntry :=
    { frame := h2.cur_frame, N := N, location := location, M := M, id := id,
      typ := typ % 256, flags := 0 }
  let h4 :=
    if h2.open_flags = .append then
      let slot := h2.index_num_entries - h2.index_written_entries
      { h2 with
        index := h2.index.take slot ++ [entry]
        append_index_size :=
          if h2.append_index_size ≤ slot then h2.append_index_size * 2
          else h2.append_index_size }
    else { h2 with index := h2.index.set h2.index_num_entries entry }
  (fs1, { h4 with index_num_entries := h4.index_num_entries + 1 })

/-- A small committed one-chunk file used as a reopen witness. -/
def wit4_entry : GsdIndexEntry :=
  { frame := 0, N := 1, location := 512, M := 1, id := 0, typ := 1, flags := 0 }

/-- A two-slot file whose index holds one dense entry then a zero slot. -/
def wit4_fs : GsdFile :=
  { header :=
      { magic := GSD_MAGIC_ID, gsd_version := gsd_make_version 1 0,
        application := [97], schema := [115], schema_version := 1,
        index_location := 256, index_allocated_entries := 2,
        namelist_location := 384, namelist_allocated_entries := 2 },
    indexBlock := [wit4_entry, zeroEntry],
    namelistBlock := [[120], []],
    data := fun _ => 0,
    size := 600 }

/-- A small writable handle with an empty committed namelist, used as the
double-write witness. -/
def wit10_h : GsdHandle :=
  { header :=
      { magic := GSD_MAGIC_ID, gsd_version := gsd_make_version 1 0,
        application := [97], schema := [115], schema_version := 1,
        index_location := 256, index_allocated_entries := 4,
        namelist_location := 512, namelist_allocated_entries := 4 },
    index := [zeroEntry, zeroEntry, zeroEntry, zeroEntry],
    namelist := [[], [], [], []],
    names := [],
    namelist_num_entries := 0, namelist_written_entries := 0,
    index_num_entries := 0, index_written_entries := 0,
    append_index_size := 0, cur_frame := 0, file_size := 768,
    open_flags := .readwrite }

/-- Operations of the frame-overflow counterexample: 128 empty committed
frames, then one chunk in frame 128 and a commit. -/
def cfr_ops : List GsdOp :=
  List.replicate 128 .endFrame ++ [.write bsX 1 1 1 [7], .endFrame]

/-- File state after the frame-overflow session. -/
def cfr_fs : GsdFile := (exOk (runOps sess0 cfr_ops) (dfltFS, dfltH)).1

/-- The enumeration protocol of the C8 claim: starting from prev and calling
gsd_find_matching_chunk_name, feeding each returned name back as prev, until
it returns none; the list collects the yielded names in order. -/
def iterMatch (h : GsdHandle) (mt : List Nat) :
    Nat → Option (List Nat) → List (List Nat)
  | 0, _ => []
  | fuel + 1, prev =>
    match gsd_find_matching_chunk_name (some h) (some mt) prev with
    | none => []
    | some nm => nm :: iterMatch h mt fuel (some nm)

/-- The committed cache names in window positions [c, c + n) whose first
strlen(mt) bytes equal mt, in cache order. -/
def matchingNames (h : GsdHandle) (mt : List Nat) : Nat → Nat → List (List Nat)
  | 0, _ => []
  | n + 1, c =>
    if strncmpPref mt (nameAt h c) = .eq then
      nameAt h c :: matchingNames h mt n (c + 1)
    else matchingNames h mt n (c + 1)

/-- A read-only handle with three committed prefix-free cache names a, x, z,
used as the C8 witness. -/
def wit8_h : GsdHandle :=
  { dfltH with
    names := [⟨[97], 0⟩, ⟨[120], 1⟩, ⟨[122], 2⟩],
    namelist := [[97], [120], [122]],
    namelist_num_entries := 3, namelist_written_entries := 3,
    open_flags := .readonly }

/-- A readwrite handle with one committed chunk named x in frame 0 and one
committed frame, used as the C2 witness. -/
def wit2_h : GsdHandle :=
  { dfltH with
    index := [⟨0, 1, 300, 1, 0, 1, 0⟩],
    namelist := [[120]],
    names := [⟨[120], 0⟩],
    namelist_num_entries := 1, namelist_written_entries := 1,
    index_num_entries := 1, index_written_entries := 1,
    cur_frame := 1, file_size := 400,
    open_flags := .readwrite }

/-! Basic facts about the byte-string comparators. -/

theorem strncmpPref_eq_iff (a b : List Nat) : strncmpPref a b = .eq ↔ a <+: b := by
  induction a generalizing b with
  | nil => simp [strncmpPref]
  | cons x as ih =>
    cases b with
    | nil =>
      simp only [strncmpPref]
      constructor
      · intro hc; cases hc
      · intro hp; exact absurd hp.length_le (by simp)
    | cons y bs =>
      simp only [strncmpPref]
      by_cases h1 : x < y
      · simp only [if_pos h1]
        constructor
        · intro hc; cases hc
        · intro hp
          rw [List.cons_prefix_cons] at hp
          omega
      · by_cases h2 : y < x
        · simp only [if_neg h1, if_pos h2]
          constructor
          · intro hc; cases hc
          · intro hp
            rw [List.cons_prefix_cons] at hp
            omega
        · have hxy : x = y := by omega
          simp only [if_neg h1, if_neg h2]
          rw [ih, List.cons_prefix_cons]
          simp [hxy]

theorem strcmpList_eq_iff (a b : List Nat) : strcmpList a b = .eq ↔ a = b := by
  induction a generalizing b with
  | nil =>
    cases b with
    | nil => simp [strcmpList]
    | cons y bs =>
      simp only [strcmpList]
      constructor
      · intro hc; cases hc
      · intro hc; cases hc
  | cons x as ih =>
    cases b with
    | nil =>
      simp only [strcmpList]
      constructor
      · intro hc; cases hc
      · intro hc; cases hc
    | cons y bs =>
      simp only [strcmpList]
      by_cases h1 : x < y
      · simp only [if_pos h1]
        constructor
        · intro hc; cases hc
        · intro hc
          injection hc with hx _
          omega
      · by_cases h2 : y < x
        · simp only [if_neg h1, if_pos h2]
          constructor
          · intro hc; cases hc
          · intro hc
            injection hc with hx _
            omega
        · have hxy : x = y := by omega
          simp only [if_neg h1, if_neg h2, ih]
          simp [hxy]

theorem strcmpList_self (a : List Nat) : strcmpList a a = .eq :=
  (strcmpList_eq_iff a a).mpr rfl

theorem strcmpList_gt_iff (a b : List Nat) :
    strcmpList a b = .gt ↔ strcmpList b a = .lt := by
  induction a generalizing b with
  | nil => cases b <;> simp [strcmpList]
  | cons x as ih =>
    cases b with
    | nil => simp [strcmpList]
    | cons y bs =>
      simp only [strcmpList]
      rcases Nat.lt_trichotomy x y with h | h | h
      · simp [h, Nat.lt_asymm h]
      · subst h
        simp [Nat.lt_irrefl, ih]
      · simp [h, Nat.lt_asymm h]

theorem strcmpList_lt_trans {a b c : List Nat} (h1 : strcmpList a b = .lt)
    (h2 : strcmpList b c = .lt) : strcmpList a c = .lt := by
  induction a generalizing b c with
  | nil =>
    cases b with
    | nil => cases h1
    | cons y bs =>
      cases c with
      | nil => cases h2
      | cons z cs => simp [strcmpList]
  | cons x as ih =>
    cases b with
    | nil => cases h1
    | cons y bs =>
      cases c with
      | nil => cases h2
      | cons z cs =>
        simp only [strcmpList] at h1 h2 ⊢
        by_cases hxy : x < y
        · by_cases hyz : y < z
          · simp [show x < z by omega]
          · by_cases hzy : z < y
            · simp only [if_pos hxy] at h1
              simp only [if_neg hyz, if_pos hzy] at h2
              cases h2
            · have : y = z := by omega
              subst this
              simp [hxy]
        · by_cases hyx : y < x
          · simp only [if_neg hxy, if_pos hyx] at h1
            cases h1
          · have hxy2 : x = y := by omega
            subst hxy2
            simp only [if_neg hxy, if_neg (by omega : ¬ x < x)] at h1
            by_cases hyz : x < z
            · simp [hyz]
            · by_cases hzy : z < x
              · simp only [if_neg hyz, if_pos hzy] at h2
                cases h2
              · have : x = z := by omega
                subst this
                simp only [if_neg (by omega : ¬ x < x)] at h2 ⊢
                exact ih h1 h2

theorem strncmpPref_eq_strcmpList {a b : List Nat} (hnp : ¬ a <+: b) :
    strncmpPref a b = strcmpList a b := by
  induction a generalizing b with
  | nil => exact absurd List.nil_prefix hnp
  | cons x as ih =>
    cases b with
    | nil => simp [strncmpPref, strcmpList]
    | cons y bs =>
      simp only [strncmpPref, strcmpList]
      by_cases h1 : x < y
      · simp [h1]
      · by_cases h2 : y < x
        · simp [h1, h2]
        · have hxy : x = y := by omega
          simp only [if_neg h1, if_neg h2]
          refine ih ?_
          intro hp
          exact hnp (List.cons_prefix_cons.mpr ⟨hxy, hp⟩)

/-! Facts about the insertion sort used to model qsort. -/

theorem insertSorted_perm {α : Type} (le : α → α → Bool) (a : α) (l : List α) :
    (insertSorted le a l).Perm (a :: l) := by
  induction l with
  | nil => simp [insertSorted]
  | cons b l ih =>
    simp only [insertSorted]
    by_cases h : le a b
    · simp [h]
    · simp only [if_neg h]
      exact (ih.cons b).trans (List.Perm.swap a b l)

theorem insertionSort_perm {α : Type} (le : α → α → Bool) (l : List α) :
    (insertionSort le l).Perm l := by
  induction l with
  | nil => simp [insertionSort]
  | cons a l ih =>
    simp only [insertionSort]
    exact (insertSorted_perm le a (insertionSort le l)).trans (ih.cons a)

theorem insertSorted_pairwise {α : Type} (le : α → α → Bool)
    (htr : ∀ x y z, le x y = true → le y z = true → le x z = true)
    (hto : ∀ x y, le x y = true ∨ le y x = true) (a : α) (l : List α)
    (hl : l.Pairwise (fun x y => le x y = true)) :
    (insertSorted le a l).Pairwise (fun x y => le x y = true) := by
  induction l with
  | nil => simp [insertSorted]
  | cons b l ih =>
    simp only [insertSorted]
    rcases List.pairwise_cons.mp hl with ⟨hb, hl'⟩
    by_cases h : le a b
    · simp only [if_pos h]
      refine List.pairwise_cons.mpr ⟨?_, hl⟩
      intro x hx
      rcases List.mem_cons.mp hx with rfl | hx
      · exact h
      · exact htr a b x h (hb x hx)
    · simp only [if_neg h]
      have hba : le b a = true := by
        rcases hto a b with h' | h'
        · exact absurd h' h
        · exact h'
      refine List.pairwise_cons.mpr ⟨?_, ih hl'⟩
      intro x hx
      have : x = a ∨ x ∈ l := by
        have := (insertSorted_perm le a l).mem_iff.mp hx
        simpa using this
      rcases this with rfl | hx'
      · exact hba
      · exact hb x hx'

theorem insertionSort_pairwise {α : Type} (le : α → α → Bool)
    (htr : ∀ x y z, le x y = true → le y z = true → le x z = true)
    (hto : ∀ x y, le x y = true ∨ le y x = true) (l : List α) :
    (insertionSort le l).Pairwise (fun x y => le x y = true) := by
  induction l with
  | nil => simp [insertionSort]
  | cons a l ih =>
    simp only [insertionSort]
    exact insertSorted_pairwise le htr hto a _ ih

theorem gsd_cmp_eq_true_iff (p q : GsdNameIdPair) :
    gsd_cmp_name_id_pair p q = true ↔ strcmpList p.name q.name ≠ .gt := by
  unfold gsd_cmp_name_id_pair
  rcases h : strcmpList p.name q.name with _ | _ | _ <;> simp

theorem strcmpList_ne_gt_trans {a b c : List Nat} (h1 : strcmpList a b ≠ .gt)
    (h2 : strcmpList b c ≠ .gt) : strcmpList a c ≠ .gt := by
  rcases hab : strcmpList a b with _ | _ | _
  · rcases hbc : strcmpList b c with _ | _ | _
    · have := strcmpList_lt_trans hab hbc
      simp [this]
    · have hb : b = c := (strcmpList_eq_iff _ _).mp hbc
      rw [← hb]
      simp [hab]
    · exact absurd hbc h2
  · have hb : a = b := (strcmpList_eq_iff _ _).mp hab
    rw [hb]
    exact h2
  · exact absurd hab h1

theorem gsd_cmp_trans : ∀ x y z : GsdNameIdPair,
    gsd_cmp_name_id_pair x y = true → gsd_cmp_name_id_pair y z = true →
    gsd_cmp_name_id_pair x z = true := by
  intro x y z hxy hyz
  rw [gsd_cmp_eq_true_iff] at *
  exact strcmpList_ne_gt_trans hxy hyz

theorem gsd_cmp_total : ∀ x y : GsdNameIdPair,
    gsd_cmp_name_id_pair x y = true ∨ gsd_cmp_name_id_pair y x = true := by
  intro x y
  rw [gsd_cmp_eq_true_iff, gsd_cmp_eq_true_iff]
  rcases hc : strcmpList x.name y.name with _ | _ | _
  · left; simp
  · left; simp
  · right
    have := (strcmpList_gt_iff x.name y.name).mp hc
    simp [this]

/-! Correctness of the gsd_find_name binary search. -/

theorem gsd_find_name_loop_some (h : GsdHandle) (name : List Nat) :
    ∀ fuel L R m, L < R →
    gsd_find_name_loop h name fuel L R = some m →
    m < R ∧ strncmpPref name (nameAt h m) = .eq := by
  intro fuel
  induction fuel with
  | zero =>
    intro L R m _ hres
    cases hres
  | succ fuel ih =>
    intro L R m hLR hres
    simp only [gsd_find_name_loop] at hres
    rcases hc : strncmpPref name (nameAt h ((L + R) / 2)) with _ | _ | _ <;>
      simp only [hc] at hres
    · split at hres
      · rename_i hcond
        have := ih L ((L + R) / 2) m (by omega) hres
        exact ⟨by omega, this.2⟩
      · cases hres
    · have hm : (L + R) / 2 = m := by
        match hres with
        | rfl => rfl
      subst hm
      exact ⟨by omega, hc⟩
    · split at hres
      · rename_i hcond
        have := ih ((L + R) / 2) R m (by omega) hres
        exact this
      · cases hres

theorem gsd_find_name_loop_finds (h : GsdHandle) (name : List Nat) (p W : Nat)
    (hp : p < W)
    (hstep : ∀ i, i < W → strncmpPref name (nameAt h i)
      = if i < p then .gt else if i = p then .eq else .lt) :
    ∀ fuel L R, R - L ≤ fuel → L < p → p < R → R ≤ W →
      gsd_find_name_loop h name fuel L R = some p := by
  intro fuel
  induction fuel with
  | zero =>
    intro L R hf hLp hpR hRW
    omega
  | succ fuel ih =>
    intro L R hf hLp hpR hRW
    have hmR : (L + R) / 2 < R := by omega
    have hmW : (L + R) / 2 < W := by omega
    simp only [gsd_find_name_loop]
    rcases Nat.lt_trichotomy ((L + R) / 2) p with hc | hc | hc
    · have hcmp := hstep _ hmW
      rw [if_pos hc] at hcmp
      simp only [hcmp]
      have hcond : R - (L + R) / 2 > 1 := by omega
      rw [if_pos hcond]
      exact ih _ _ (by omega) hc hpR hRW
    · have hcmp := hstep _ hmW
      rw [if_neg (by omega), if_pos hc] at hcmp
      simp only [hcmp]
      rw [hc]
    · have hcmp := hstep _ hmW
      rw [if_neg (by omega), if_neg (by omega)] at hcmp
      simp only [hcmp]
      have hcond : (L + R) / 2 - L > 1 := by omega
      rw [if_pos hcond]
      exact ih _ _ (by omega) hLp hc (by omega)

theorem gsd_find_name_finds (h : GsdHandle) (name : List Nat) (p : Nat)
    (hp : p < h.namelist_written_entries)
    (hstep : ∀ i, i < h.namelist_written_entries → strncmpPref name (nameAt h i)
      = if i < p then .gt else if i = p then .eq else .lt) :
    gsd_find_name h name = some p := by
  unfold gsd_find_name
  rw [if_neg (by omega)]
  by_cases hp0 : p = 0
  · have hcmp := hstep 0 (by omega)
    rw [if_neg (by omega), if_pos hp0.symm] at hcmp
    simp only [hcmp, hp0]
  · have hcmp := hstep 0 (by omega)
    rw [if_pos (by omega)] at hcmp
    simp only [hcmp]
    exact gsd_find_name_loop_finds h name p h.namelist_written_entries hp hstep
      (h.namelist_written_entries + 1) 0 h.namelist_written_entries
      (by omega) (by omega) hp (by omega)

theorem gsd_find_name_none (h : GsdHandle) (name : List Nat)
    (hno : ∀ i < h.namelist_written_entries,
      strncmpPref name (nameAt h i) ≠ .eq) :
    gsd_find_name h name = none := by
  unfold gsd_find_name
  by_cases hW : h.namelist_written_entries = 0
  · rw [if_pos hW]
  · rw [if_neg hW]
    rcases hc : strncmpPref name (nameAt h 0) with _ | _ | _
    · simp only [hc]
    · exact absurd hc (hno 0 (by omega))
    · simp only [hc]
      rcases hres : gsd_find_name_loop h name (h.namelist_written_entries + 1)
          0 h.namelist_written_entries with _ | m
      · rfl
      · have := gsd_find_name_loop_some h name _ 0 h.namelist_written_entries m
          (by omega) hres
        exact absurd this.2 (hno m this.1)

theorem window_step (h : GsdHandle) (name : List Nat) (p : Nat)
    (hsort : ∀ i j, i < j → j < h.namelist_written_entries →
      strcmpList (nameAt h i) (nameAt h j) = .lt)
    (hcompat : ∀ i, i < h.namelist_written_entries →
      name <+: nameAt h i → name = nameAt h i)
    (hp : p < h.namelist_written_entries) (hname : nameAt h p = name) :
    ∀ i, i < h.namelist_written_entries → strncmpPref name (nameAt h i)
      = if i < p then .gt else if i = p then .eq else .lt := by
  intro i hi
  rcases Nat.lt_trichotomy i p with hc | hc | hc
  · rw [if_pos hc]
    have hnp : ¬ name <+: nameAt h i := by
      intro hpre
      have heq := hcompat i hi hpre
      have := hsort i p hc hp
      rw [hname, ← heq] at this
      rw [strcmpList_self] at this
      cases this
    rw [strncmpPref_eq_strcmpList hnp, ← hname]
    exact (strcmpList_gt_iff _ _).mpr (hsort i p hc hp)
  · rw [if_neg (by omega), if_pos hc]
    rw [← hc] at hname
    rw [hname]
    exact (strncmpPref_eq_iff _ _).mpr (List.prefix_refl name)
  · rw [if_neg (by omega), if_neg (by omega)]
    have hnp : ¬ name <+: nameAt h i := by
      intro hpre
      have heq := hcompat i hi hpre
      have := hsort p i hc hi
      rw [hname, ← heq] at this
      rw [strcmpList_self] at this
      cases this
    rw [strncmpPref_eq_strcmpList hnp, ← hname]
    exact hsort p i hc hi

/-! Correctness of the index bootstrap binary search of gsd_read_header. -/

theorem gsd_index_scan_loop_finds (h0 : GsdHandle) (k : Nat)
    (hnz : ∀ i < k, (h0.index.getD i zeroEntry).location ≠ 0)
    (hval : ∀ i < k, gsd_is_entry_valid h0 (h0.index.getD i zeroEntry) = true)
    (hmono : ∀ i j, i ≤ j → j < k →
      (h0.index.getD i zeroEntry).frame ≤ (h0.index.getD j zeroEntry).frame)
    (hz : ∀ i, k ≤ i → (h0.index.getD i zeroEntry).location = 0) :
    ∀ fuel L R, R - L ≤ fuel → L < k → k ≤ R →
      gsd_index_scan_loop h0 fuel L R = .ok k := by
  intro fuel
  induction fuel with
  | zero =>
    intro L R hf hLk hkR
    omega
  | succ fuel ih =>
    intro L R hf hLk hkR
    have hLR : L < R := by omega
    have hmR : (L + R) / 2 < R := by omega
    have hmL : L ≤ (L + R) / 2 := by omega
    simp only [gsd_index_scan_loop]
    by_cases hmk : (L + R) / 2 < k
    · have hloc := hnz _ hmk
      have hnotfail : ¬ ((h0.index.getD ((L + R) / 2) zeroEntry).location ≠ 0 ∧
          (gsd_is_entry_valid h0 (h0.index.getD ((L + R) / 2) zeroEntry) = false ∨
            (h0.index.getD ((L + R) / 2) zeroEntry).frame
              < (h0.index.getD L zeroEntry).frame)) := by
        rintro ⟨-, hbad | hbad⟩
        · rw [hval _ hmk] at hbad
          cases hbad
        · exact absurd hbad (Nat.not_lt.mpr (hmono L ((L + R) / 2) hmL hmk))
      rw [if_neg hnotfail, if_pos hloc]
      by_cases hcond : R - (L + R) / 2 > 1
      · rw [if_pos hcond]
        exact ih ((L + R) / 2) R (by omega) hmk hkR
      · rw [if_neg hcond]
        have : R = k := by omega
        rw [this]
    · have hloc := hz ((L + R) / 2) (by omega)
      have hn1 : ¬ ((h0.index.getD ((L + R) / 2) zeroEntry).location ≠ 0 ∧
          (gsd_is_entry_valid h0 (h0.index.getD ((L + R) / 2) zeroEntry) = false ∨
            (h0.index.getD ((L + R) / 2) zeroEntry).frame
              < (h0.index.getD L zeroEntry).frame)) := by
        rintro ⟨hbad, -⟩
        exact hbad hloc
      have hn2 : ¬ (h0.index.getD ((L + R) / 2) zeroEntry).location ≠ 0 :=
        fun hbad => hbad hloc
      rw [if_neg hn1, if_neg hn2]
      by_cases hcond : (L + R) / 2 - L > 1
      · rw [if_pos hcond]
        exact ih L ((L + R) / 2) (by omega) hLk (by omega)
      · rw [if_neg hcond]
        have : (L + R) / 2 = k := by omega
        rw [this]

/-! Correctness of the gsd_find_chunk binary search and backward scan. -/

theorem gsd_find_chunk_loop_lt (h : GsdHandle) (f : Nat) :
    ∀ fuel L R, L < R → gsd_find_chunk_loop h f fuel L R < R := by
  intro fuel
  induction fuel with
  | zero =>
    intro L R hLR
    simpa [gsd_find_chunk_loop] using hLR
  | succ fuel ih =>
    intro L R hLR
    simp only [gsd_find_chunk_loop]
    split
    · by_cases hcond : (L + R) / 2 - L > 1
      · rw [if_pos hcond]
        have := ih L ((L + R) / 2) (by omega)
        omega
      · rw [if_neg hcond]
        exact hLR
    · by_cases hcond : R - (L + R) / 2 > 1
      · rw [if_pos hcond]
        exact ih _ _ (by omega)
      · rw [if_neg hcond]
        omega

theorem gsd_find_chunk_loop_finds (h : GsdHandle) (f b num : Nat)
    (hb : b < num)
    (hfb : (h.index.getD b zeroEntry).frame = f)
    (habove : ∀ i, b < i → i < num → f < (h.index.getD i zeroEntry).frame)
    (hmono : ∀ i j, i ≤ j → j < num →
      (h.index.getD i zeroEntry).frame ≤ (h.index.getD j zeroEntry).frame) :
    ∀ fuel L R, R - L ≤ fuel → L ≤ b → b < R → R ≤ num →
      gsd_find_chunk_loop h f fuel L R = b := by
  intro fuel
  induction fuel with
  | zero =>
    intro L R hf hLb hbR hRn
    omega
  | succ fuel ih =>
    intro L R hf hLb hbR hRn
    have hLR : L < R := by omega
    have hmR : (L + R) / 2 < R := by omega
    have hmn : (L + R) / 2 < num := by omega
    simp only [gsd_find_chunk_loop]
    by_cases hfm : f < (h.index.getD ((L + R) / 2) zeroEntry).frame
    · rw [if_pos hfm]
      have hbm : b < (L + R) / 2 := by
        by_contra hle
        have := hmono ((L + R) / 2) b (by omega) hb
        omega
      by_cases hcond : (L + R) / 2 - L > 1
      · rw [if_pos hcond]
        exact ih L ((L + R) / 2) (by omega) hLb hbm (by omega)
      · rw [if_neg hcond]
        omega
    · rw [if_neg hfm]
      have hmb : (L + R) / 2 ≤ b := by
        by_contra hgt
        exact hfm (habove ((L + R) / 2) (by omega) hmn)
      by_cases hcond : R - (L + R) / 2 > 1
      · rw [if_pos hcond]
        exact ih ((L + R) / 2) R (by omega) hmb hbR hRn
      · rw [if_neg hcond]
        omega

theorem gsd_find_chunk_scan_none (h : GsdHandle) (f id cur : Nat)
    (hne : (h.index.getD cur zeroEntry).frame ≠ f) :
    gsd_find_chunk_scan h f id cur = none := by
  cases cur with
  | zero =>
    simp only [gsd_find_chunk_scan]
    rw [if_neg hne]
  | succ cur =>
    simp only [gsd_find_chunk_scan]
    rw [if_neg hne]

theorem gsd_find_chunk_scan_some (h : GsdHandle) (f id : Nat) :
    ∀ cur e, gsd_find_chunk_scan h f id cur = some e →
    ∃ j ≤ cur, e = h.index.getD j zeroEntry ∧ e.frame = f ∧ e.id = id := by
  intro cur
  induction cur with
  | zero =>
    intro e hres
    simp only [gsd_find_chunk_scan] at hres
    split at hres
    · split at hres
      · rename_i hfr hid
        injection hres with he
        exact ⟨0, le_refl 0, he.symm, by rw [← he]; exact hfr, by rw [← he]; exact hid⟩
      · cases hres
    · cases hres
  | succ cur ih =>
    intro e hres
    simp only [gsd_find_chunk_scan] at hres
    split at hres
    · split at hres
      · rename_i hfr hid
        injection hres with he
        exact ⟨cur + 1, le_refl _, he.symm, by rw [← he]; exact hfr,
          by rw [← he]; exact hid⟩
      · rcases ih e hres with ⟨j, hj, he, hf', hid'⟩
        exact ⟨j, by omega, he, hf', hid'⟩
    · cases hres

theorem gsd_find_chunk_scan_finds (h : GsdHandle) (f id a : Nat) :
    ∀ cur, a ≤ cur →
    (∀ i, a ≤ i → i ≤ cur → (h.index.getD i zeroEntry).frame = f) →
    (∃ j, a ≤ j ∧ j ≤ cur ∧ (h.index.getD j zeroEntry).id = id) →
    ∃ e j, gsd_find_chunk_scan h f id cur = some e ∧ a ≤ j ∧ j ≤ cur ∧
      e = h.index.getD j zeroEntry := by
  intro cur
  induction cur with
  | zero =>
    intro _ hblock hex
    rcases hex with ⟨j, haj, hj0, hid⟩
    have hj : j = 0 := by omega
    subst hj
    simp only [gsd_find_chunk_scan]
    rw [if_pos (hblock 0 haj (le_refl 0)), if_pos hid]
    exact ⟨_, 0, rfl, haj, le_refl 0, rfl⟩
  | succ cur ih =>
    intro hacur hblock hex
    simp only [gsd_find_chunk_scan]
    rw [if_pos (hblock (cur + 1) hacur (le_refl _))]
    by_cases hid : (h.index.getD (cur + 1) zeroEntry).id = id
    · rw [if_pos hid]
      exact ⟨_, cur + 1, rfl, hacur, le_refl _, rfl⟩
    · rw [if_neg hid]
      rcases hex with ⟨j, haj, hjc, hjid⟩
      have hjc' : j ≤ cur := by
        rcases Nat.lt_or_ge j (cur + 1) with hlt | hge
        · omega
        · have : j = cur + 1 := by omega
          rw [this] at hjid
          exact absurd hjid hid
      have hacur' : a ≤ cur := le_trans haj hjc'
      have hblock' : ∀ i, a ≤ i → i ≤ cur →
          (h.index.getD i zeroEntry).frame = f := by
        intro i hai hic
        exact hblock i hai (by omega)
      rcases ih hacur' hblock' ⟨j, haj, hjc', hjid⟩ with ⟨e, j', hscan, haj', hjc'', he⟩
      exact ⟨e, j', hscan, haj', by omega, he⟩

/-! Small list lemmas used throughout. -/

theorem getD_of_length_le {α : Type} (l : List α) (i : Nat) (d : α)
    (h : l.length ≤ i) : l.getD i d = d := by
  rw [List.getD_eq_getElem?_getD, List.getElem?_eq_none (by omega)]
  rfl

theorem getD_append_left {α : Type} (l1 l2 : List α) (i : Nat) (d : α)
    (h : i < l1.length) : (l1 ++ l2).getD i d = l1.getD i d := by
  rw [List.getD_eq_getElem?_getD, List.getD_eq_getElem?_getD,
    List.getElem?_append, if_pos h]

theorem getD_append_right {α : Type} (l1 l2 : List α) (i : Nat) (d : α)
    (h : l1.length ≤ i) : (l1 ++ l2).getD i d = l2.getD (i - l1.length) d := by
  rw [List.getD_eq_getElem?_getD, List.getD_eq_getElem?_getD,
    List.getElem?_append_right h]

theorem getD_take {α : Type} (l : List α) (n i : Nat) (d : α) (h : i < n) :
    (l.take n).getD i d = l.getD i d := by
  rw [List.getD_eq_getElem?_getD, List.getD_eq_getElem?_getD,
    List.getElem?_take, if_pos h]

theorem getD_replicate {α : Type} (n i : Nat) (a d : α) :
    (List.replicate n a).getD i d = if i < n then a else d := by
  rw [List.getD_eq_getElem?_getD, List.getElem?_replicate]
  by_cases h : i < n
  · rw [if_pos h, if_pos h]
    rfl
  · rw [if_neg h, if_neg h]
    rfl

theorem getD_set_eq {α : Type} (l : List α) (i : Nat) (a d : α)
    (h : i < l.length) : (l.set i a).getD i d = a := by
  rw [List.getD_eq_getElem?_getD, List.getElem?_set_self h]
  rfl

theorem getD_set_ne {α : Type} (l : List α) (i j : Nat) (a d : α)
    (h : i ≠ j) : (l.set i a).getD j d = l.getD j d := by
  rw [List.getD_eq_getElem?_getD, List.getD_eq_getElem?_getD,
    List.getElem?_set_ne h]

theorem getD_map_e (l : List CChunk) (i : Nat) (h : i < l.length) :
    (l.map (·.e)).getD i zeroEntry = (l.getD i default).e := by
  rw [List.getD_eq_getElem?_getD, List.getD_eq_getElem?_getD,
    List.getElem?_map, List.getElem?_eq_getElem h]
  rfl

theorem take_set_succ {α : Type} (l : List α) (i : Nat) (a : α)
    (h : i < l.length) : (l.set i a).take (i + 1) = l.take i ++ [a] := by
  have hs := List.set_eq_take_append_cons_drop (l := l) (n := i) (a := a)
  rw [if_pos h] at hs
  have hlen1 : (List.take i l).length = i := by
    rw [List.length_take]
    omega
  rw [hs, List.take_append_eq_append_take,
    List.take_of_length_le (l := List.take i l) (by omega)]
  have h1 : i + 1 - (List.take i l).length = 1 := by omega
  rw [h1]
  simp

theorem take_set_of_le {α : Type} (l : List α) (i n : Nat) (a : α)
    (h : n ≤ i) : (l.set i a).take n = l.take n := by
  apply List.ext_getElem?
  intro j
  rw [List.getElem?_take, List.getElem?_take]
  by_cases hj : j < n
  · rw [if_pos hj, if_pos hj, List.getElem?_set_ne (by omega)]
  · rw [if_neg hj, if_neg hj]

theorem drop_set_of_lt {α : Type} (l : List α) (i n : Nat) (a : α)
    (h : i < n) : (l.set i a).drop n = l.drop n := by
  apply List.ext_getElem?
  intro j
  rw [List.getElem?_drop, List.getElem?_drop, List.getElem?_set_ne (by omega)]

theorem listWriteAt_length {α : Type} (l : List α) (i : Nat) (xs : List α)
    (h : i + xs.length ≤ l.length) : (listWriteAt l i xs).length = l.length := by
  simp [listWriteAt]
  omega

theorem listWriteAt_take_left {α : Type} (l : List α) (i : Nat) (xs : List α)
    (h : i ≤ l.length) : (listWriteAt l i xs).take i = l.take i := by
  unfold listWriteAt
  have hlen1 : (List.take i l).length = i := by
    rw [List.length_take]
    omega
  rw [List.take_append_eq_append_take, List.take_append_eq_append_take]
  have e1 : List.take i (List.take i l) = List.take i l := by
    rw [List.take_take]
    simp
  have e2 : i - (List.take i l).length = 0 := by omega
  have e3 : i - (List.take i l ++ xs).length = 0 := by
    rw [List.length_append, hlen1]
    omega
  rw [e1, e2, e3]
  simp

theorem listWriteAt_take {α : Type} (l : List α) (i : Nat) (xs : List α)
    (h : i + xs.length ≤ l.length) :
    (listWriteAt l i xs).take (i + xs.length) = l.take i ++ xs := by
  unfold listWriteAt
  have hlen1 : (List.take i l).length = i := by
    rw [List.length_take]
    omega
  rw [List.take_append_eq_append_take, List.take_append_eq_append_take]
  have e1 : List.take (i + xs.length) (List.take i l) = List.take i l := by
    rw [List.take_take]
    congr 1
    omega
  have e2 : i + xs.length - (List.take i l).length = xs.length := by omega
  have e3 : i + xs.length - (List.take i l ++ xs).length = 0 := by
    rw [List.length_append, hlen1]
    omega
  rw [e1, e2, e3, List.take_length]
  simp

theorem listWriteAt_drop {α : Type} (l : List α) (i n : Nat) (xs : List α)
    (h : i + xs.length ≤ l.length) (hn : i + xs.length ≤ n) :
    (listWriteAt l i xs).drop n = l.drop n := by
  unfold listWriteAt
  apply List.ext_getElem?
  intro j
  rw [List.getElem?_drop, List.getElem?_drop]
  have hlen1 : (List.take i l ++ xs).length = i + xs.length := by
    rw [List.length_append, List.length_take]
    omega
  rw [List.getElem?_append_right (by rw [hlen1]; omega)]
  rw [List.getElem?_drop, hlen1]
  congr 1
  omega

/-! Byte-map lemmas. -/

theorem writeBytes_below (d : Nat → Nat) (off : Nat) (bs : List Nat) (a : Nat)
    (h : a < off) : writeBytes d off bs a = d a := by
  unfold writeBytes
  rw [if_neg]
  rintro ⟨h1, -⟩
  omega

theorem writeBytes_in (d : Nat → Nat) (off : Nat) (bs : List Nat) (a : Nat)
    (h1 : off ≤ a) (h2 : a < off + bs.length) :
    writeBytes d off bs a = bs.getD (a - off) 0 := by
  unfold writeBytes
  rw [if_pos ⟨h1, h2⟩]

theorem readBytes_length (d : Nat → Nat) (off n : Nat) :
    (readBytes d off n).length = n := by
  simp [readBytes]

theorem readBytes_eq (d : Nat → Nat) (off n : Nat) (bytes : List Nat)
    (hlen : bytes.length = n) (hag : ∀ j < n, d (off + j) = bytes.getD j 0) :
    readBytes d off n = bytes := by
  apply List.ext_getElem
  · simp [readBytes, hlen]
  · intro i h1 h2
    simp only [readBytes, List.getElem_map, List.getElem_range]
    have hi : i < n := by simpa [readBytes] using h1
    rw [hag i hi, List.getD_eq_getElem?_getD, List.getElem?_eq_getElem h2]
    rfl

/-! The value of List.findIdx on a block with a known boundary. -/

theorem findIdx_boundary (p : List Nat → Bool) :
    ∀ (l : List (List Nat)) (k : Nat), k ≤ l.length →
    (∀ i < k, p (l.getD i []) = false) →
    (k = l.length ∨ p (l.getD k []) = true) →
    l.findIdx p = k := by
  intro l
  induction l with
  | nil =>
    intro k hk _ _
    simp at hk
    simp [hk]
  | cons x xs ih =>
    intro k hk hbefore hat
    cases k with
    | zero =>
      rcases hat with hat | hat
      · simp at hat
      · simp only [List.getD_cons_zero] at hat
        simp [List.findIdx_cons, hat]
    | succ k =>
      have hx : p x = false := by
        have := hbefore 0 (by omega)
        simpa using this
      rw [List.findIdx_cons, hx]
      simp only [cond_false]
      have : xs.findIdx p = k := by
        apply ih k (by simpa using hk)
        · intro i hi
          have := hbefore (i + 1) (by omega)
          simpa using this
        · rcases hat with hat | hat
          · left; simpa using hat
          · right; simpa using hat
      omega

/-! Helpers for reasoning about gsd_is_entry_valid and error flow. -/

theorem is_entry_valid_true (h : GsdHandle) (e : GsdIndexEntry)
    (h1 : gsd_sizeof_type e.typ ≠ 0)
    (h2 : e.location + chunk_size e ≤ h.file_size)
    (h3 : e.frame < h.header.index_allocated_entries)
    (h4 : e.id < h.namelist_num_entries) (h5 : e.flags = 0) :
    gsd_is_entry_valid h e = true := by
  unfold gsd_is_entry_valid
  rw [if_neg h1, if_neg (by omega), if_neg (by omega), if_neg (by omega),
    if_neg (by simp [h5])]

theorem gsd_index_scan_loop_corrupt (h0 : GsdHandle) :
    ∀ fuel L R e, gsd_index_scan_loop h0 fuel L R = .error e →
    e = .FileCorrupt := by
  intro fuel
  induction fuel with
  | zero =>
    intro L R e hres
    cases hres
  | succ fuel ih =>
    intro L R e hres
    simp only [gsd_index_scan_loop] at hres
    split at hres
    · injection hres with he
      exact he.symm
    · split at hres
      · split at hres
        · exact ih _ _ _ hres
        · cases hres
      · split at hres
        · exact ih _ _ _ hres
        · cases hres

theorem gsd_read_header_body_no_version (h0 : GsdHandle) (e0 : GsdIndexEntry)
    (al : Nat) (f : Nat → GsdHandle) :
    (if e0.location ≠ 0 ∧ gsd_is_entry_valid h0 e0 = false then
       (.error .FileCorrupt : Except GsdError GsdHandle)
     else
       match (if e0.location = 0 then Except.ok 0
              else gsd_index_scan_loop h0 (al + 1) 0 al) with
       | .error e => .error e
       | .ok num => .ok (f num)) ≠ .error .InvalidGsdFileVersion := by
  by_cases hc : e0.location ≠ 0 ∧ gsd_is_entry_valid h0 e0 = false
  · rw [if_pos hc]
    intro hbad
    cases hbad
  · rw [if_neg hc]
    by_cases hl : e0.location = 0
    · rw [if_pos hl]
      intro hbad
      cases hbad
    · rw [if_neg hl]
      rcases hres : gsd_index_scan_loop h0 (al + 1) 0 al with e | num
      · have hcor := gsd_index_scan_loop_corrupt h0 _ _ _ _ hres
        subst hcor
        simp only [hres]
        intro hbad
        cases hbad
      · simp only [hres]
        intro hbad
        cases hbad

theorem gsd_read_header_tail_no_version (fs : GsdFile) (mode : GsdOpenFlag)
    (hsz : ¬ fs.size < gsd_header_size)
    (hmagic : ¬ fs.header.magic ≠ GSD_MAGIC_ID)
    (hv1 : ¬ (fs.header.gsd_version < gsd_make_version 1 0 ∧
      fs.header.gsd_version ≠ gsd_make_version 0 3))
    (hv2 : ¬ gsd_make_version 2 0 ≤ fs.header.gsd_version) :
    gsd_read_header fs mode ≠ .error .InvalidGsdFileVersion := by
  unfold gsd_read_header
  rw [if_neg hsz, if_neg hmagic, if_neg hv1, if_neg hv2]
  by_cases h5 : mode = .readwrite ∧ fs.size < fs.header.index_location
      + gsd_index_entry_size * fs.header.index_allocated_entries
  · rw [if_pos h5]
    intro hbad
    cases hbad
  · rw [if_neg h5]
    by_cases h6 : fs.size < fs.header.namelist_location
        + gsd_namelist_entry_size * fs.header.namelist_allocated_entries
    · rw [if_pos h6]
      intro hbad
      cases hbad
    · rw [if_neg h6]
      exact gsd_read_header_body_no_version _ _ _ _

/-- C7: gsd_open fails with NOT_A_GSD_FILE when the header read is short
(file smaller than 256 bytes) or the magic differs from 0x65DF65DF65DF65DF,
and, past those checks, it fails with INVALID_GSD_FILE_VERSION exactly when
the stored gsd_version is neither 0.3 nor in [1.0, 2.0), versions being
encoded as major << 16 | minor by gsd_make_version. -/
theorem claim_C7 (fs : GsdFile) (mode : GsdOpenFlag) :
    (fs.size < gsd_header_size → gsd_open fs mode = .error .NotAGsdFile) ∧
    (gsd_header_size ≤ fs.size → fs.header.magic ≠ GSD_MAGIC_ID →
      gsd_open fs mode = .error .NotAGsdFile) ∧
    (gsd_header_size ≤ fs.size → fs.header.magic = GSD_MAGIC_ID →
      (gsd_open fs mode = .error .InvalidGsdFileVersion ↔
        ¬(fs.header.gsd_version = gsd_make_version 0 3 ∨
          (gsd_make_version 1 0 ≤ fs.header.gsd_version ∧
            fs.header.gsd_version < gsd_make_version 2 0)))) := by
  have e03 : gsd_make_version 0 3 = 3 := by decide
  have e10 : gsd_make_version 1 0 = 65536 := by decide
  have e20 : gsd_make_version 2 0 = 131072 := by decide
  refine ⟨?_, ?_, ?_⟩
  · intro hsz
    unfold gsd_open gsd_read_header
    rw [if_pos hsz]
  · intro hsz hmagic
    unfold gsd_open gsd_read_header
    rw [if_neg (by omega), if_pos hmagic]
  · intro hsz hmagic
    constructor
    · intro hres hgood
      have hv1 : ¬ (fs.header.gsd_version < gsd_make_version 1 0 ∧
          fs.header.gsd_version ≠ gsd_make_version 0 3) := by
        rintro ⟨hlt, hne⟩
        rcases hgood with h3 | ⟨hge, -⟩
        · exact hne h3
        · omega
      have hv2 : ¬ gsd_make_version 2 0 ≤ fs.header.gsd_version := by
        intro hge2
        rcases hgood with h3 | ⟨-, hlt2⟩
        · rw [h3, e03] at hge2
          rw [e20] at hge2
          omega
        · omega
      exact gsd_read_header_tail_no_version fs mode (by omega)
        (by simp [hmagic]) hv1 hv2 hres
    · intro hbad
      rw [e03, e10, e20] at hbad
      push_neg at hbad
      unfold gsd_open gsd_read_header
      rw [if_neg (by omega), if_neg (by simp [hmagic])]
      by_cases hlt : fs.header.gsd_version < gsd_make_version 1 0
      · rw [if_pos ⟨hlt, by rw [e03]; exact hbad.1⟩]
      · rw [if_neg (by rintro ⟨h1, -⟩; exact hlt h1)]
        rw [e10] at hlt
        have := hbad.2 (by omega)
        rw [if_pos (by rw [e20]; omega)]

/-- C7 witness: a 100-byte file is rejected as NOT_A_GSD_FILE. -/
theorem claim_C7_witness :
    gsd_open { dfltFS with size := 100 } .readonly = .error .NotAGsdFile := by
  have h := (claim_C7 { dfltFS with size := 100 } .readonly).1
  exact h (by decide)

/-- C6: gsd_read_chunk returns INVALID_ARGUMENT for a NULL handle, data
pointer or chunk, FILE_MUST_BE_READABLE on an append-mode handle,
FILE_CORRUPT when the computed size N*M*sizeof(type) is 0, when the entry
location is 0, or when location + size exceeds file_size, and otherwise
reads exactly size bytes from the location into the destination. -/
theorem claim_C6 (fs : GsdFile) (h : GsdHandle) (e : GsdIndexEntry)
    (dataGiven : Bool) (chunk : Option GsdIndexEntry) :
    (gsd_read_chunk fs none dataGiven chunk = .error .InvalidArgument) ∧
    (gsd_read_chunk fs (some h) false chunk = .error .InvalidArgument) ∧
    (gsd_read_chunk fs (some h) dataGiven none = .error .InvalidArgument) ∧
    (h.open_flags = .append →
      gsd_read_chunk fs (some h) true (some e) = .error .FileMustBeReadable) ∧
    (h.open_flags ≠ .append → chunk_size e = 0 →
      gsd_read_chunk fs (some h) true (some e) = .error .FileCorrupt) ∧
    (h.open_flags ≠ .append → chunk_size e ≠ 0 → e.location = 0 →
      gsd_read_chunk fs (some h) true (some e) = .error .FileCorrupt) ∧
    (h.open_flags ≠ .append → chunk_size e ≠ 0 → e.location ≠ 0 →
      h.file_size < e.location + chunk_size e →
      gsd_read_chunk fs (some h) true (some e) = .error .FileCorrupt) ∧
    (h.open_flags ≠ .append → chunk_size e ≠ 0 → e.location ≠ 0 →
      e.location + chunk_size e ≤ h.file_size →
      gsd_read_chunk fs (some h) true (some e)
          = .ok (readBytes fs.data e.location (chunk_size e)) ∧
        (readBytes fs.data e.location (chunk_size e)).length = chunk_size e) := by
  refine ⟨rfl, ?_, ?_, ?_, ?_, ?_, ?_, ?_⟩
  · simp [gsd_read_chunk]
  · cases dataGiven <;> simp [gsd_read_chunk]
  · intro hap
    simp [gsd_read_chunk, hap]
  · intro hap hsz
    simp only [gsd_read_chunk]
    rw [if_neg (by simp), if_neg hap, if_pos hsz]
  · intro hap hsz hloc
    simp only [gsd_read_chunk]
    rw [if_neg (by simp), if_neg hap, if_neg hsz, if_pos hloc]
  · intro hap hsz hloc hbound
    simp only [gsd_read_chunk]
    rw [if_neg (by simp), if_neg hap, if_neg hsz, if_neg hloc, if_pos hbound]
  · intro hap hsz hloc hbound
    refine ⟨?_, readBytes_length _ _ _⟩
    simp only [gsd_read_chunk]
    rw [if_neg (by simp), if_neg hap, if_neg hsz, if_neg hloc,
      if_neg (by omega)]

/-- C6 witness: reading a valid 2-byte u8 entry at offset 300 of a 400-byte
file returns the 2 bytes stored there. -/
theorem claim_C6_witness :
    gsd_read_chunk wit6_fs (some wit6_h) true (some wit6_e)
        = .ok (readBytes wit6_fs.data wit6_e.location (chunk_size wit6_e)) ∧
      (readBytes wit6_fs.data wit6_e.location (chunk_size wit6_e)).length
        = chunk_size wit6_e := by
  have h := (claim_C6 wit6_fs wit6_h wit6_e true none).2.2.2.2.2.2.2
  exact h (by decide) (by decide) (by decide) (by decide)

/-- C5 counterexample: the claim states that the flags check precedes the
writable-mode check, so a write with flags = 1 on a read-only handle would
return INVALID_ARGUMENT; the code checks the mode first and returns
FILE_MUST_BE_WRITABLE. -/
theorem claim_C5_counterexample :
    errOf (gsd_write_chunk dfltFS ce5_h bsX 1 1 1 1 (some [0]))
        = some .FileMustBeWritable ∧
      GsdError.FileMustBeWritable ≠ GsdError.InvalidArgument := by
  constructor
  · rfl
  · decide

/-- C5 (amended): gsd_write_chunk validates data != NULL, then N > 0, M > 0
and type known, then writable mode, then flags == 0 — the flags check comes
after the writable check, so a read-only handle yields FILE_MUST_BE_WRITABLE
even with nonzero flags — returning INVALID_ARGUMENT for null data, zero N or
M, an unknown type, or (on a writable handle) nonzero flags, and performing
no write when any check fails; a NULL handle is not checked at all (the C
dereferences it). -/
theorem claim_C5_amended (fs : GsdFile) (h : GsdHandle) (name : List Nat)
    (typ N M flags : Nat) (data : Option (List Nat)) :
    (gsd_write_chunk fs h name typ N M flags none = .error .InvalidArgument) ∧
    (N = 0 ∨ M = 0 ∨ gsd_sizeof_type typ = 0 →
      gsd_write_chunk fs h name typ N M flags (some (data.getD []))
        = .error .InvalidArgument) ∧
    (¬(N = 0 ∨ M = 0 ∨ gsd_sizeof_type typ = 0) → h.open_flags = .readonly →
      gsd_write_chunk fs h name typ N M flags (some (data.getD []))
        = .error .FileMustBeWritable) ∧
    (¬(N = 0 ∨ M = 0 ∨ gsd_sizeof_type typ = 0) → h.open_flags ≠ .readonly →
      flags ≠ 0 →
      gsd_write_chunk fs h name typ N M flags (some (data.getD []))
        = .error .InvalidArgument) := by
  refine ⟨rfl, ?_, ?_, ?_⟩
  · intro hbad
    simp only [gsd_write_chunk]
    rw [if_neg (by simp), if_pos hbad]
  · intro hok hro
    simp only [gsd_write_chunk]
    rw [if_neg (by simp), if_neg hok, if_pos hro]
  · intro hok hro hflags
    simp only [gsd_write_chunk]
    rw [if_neg (by simp), if_neg hok, if_neg hro, if_pos hflags]

/-- C5 witness: a write with nonzero flags on a writable handle is rejected
with INVALID_ARGUMENT. -/
theorem claim_C5_amended_witness :
    gsd_write_chunk dfltFS dfltH bsX 1 1 1 1 (some ((some [0]).getD []))
      = .error .InvalidArgument := by
  have h := (claim_C5_amended dfltFS dfltH bsX 1 1 1 1 (some [0])).2.2.2
  exact h (by decide) (by decide) (by decide)

theorem gsd_expand_index_rw_eq (fs : GsdFile) (h : GsdHandle)
    (hm : h.open_flags = .readwrite) :
    gsd_expand_index fs h = .ok
      ({ fs with
          indexBlock := h.index ++ List.replicate
            (h.header.index_allocated_entries * 2
              - h.header.index_allocated_entries) zeroEntry,
          size := fs.size
            + gsd_index_entry_size * (h.header.index_allocated_entries * 2),
          header := { h.header with
            index_allocated_entries := h.header.index_allocated_entries * 2,
            index_location := fs.size } },
        { h with
          header := { h.header with
            index_allocated_entries := h.header.index_allocated_entries * 2,
            index_location := fs.size },
          index := h.index ++ List.replicate
            (h.header.index_allocated_entries * 2
              - h.header.index_allocated_entries) zeroEntry,
          file_size := fs.size
            + gsd_index_entry_size
              * (h.header.index_allocated_entries * 2) }) := by
  unfold gsd_expand_index
  rw [if_pos hm]

theorem gsd_expand_index_ap_eq (fs : GsdFile) (h : GsdHandle)
    (hm : h.open_flags = .append) :
    gsd_expand_index fs h = .ok
      ({ fs with
          indexBlock := fs.indexBlock ++ List.replicate
            (h.header.index_allocated_entries * 2
              - h.header.index_allocated_entries) zeroEntry,
          size := fs.size
            + gsd_index_entry_size * (h.header.index_allocated_entries * 2),
          header := { h.header with
            index_allocated_entries := h.header.index_allocated_entries * 2,
            index_location := fs.size } },
        { h with
          header := { h.header with
            index_allocated_entries := h.header.index_allocated_entries * 2,
            index_location := fs.size },
          file_size := fs.size
            + gsd_index_entry_size
              * (h.header.index_allocated_entries * 2) }) := by
  unfold gsd_expand_index
  rw [if_neg (by rw [hm]; intro hbad; cases hbad), if_pos hm]

/-- C3: when gsd_write_chunk finds the index full (index_num_entries equal to
index_allocated_entries, the condition under which it calls
gsd_expand_index), the expansion doubles index_allocated_entries, places the
new index block at end-of-file (index_location becomes the old file size),
fills its low half with the old index contents — the in-memory index in
read-write mode, the on-disk block in append mode, per the residency model —
and its high half with zeroed entries, rewrites the header, and leaves every
previously committed entry (the first index_written_entries slots) and all
payload bytes unchanged. -/
theorem claim_C3 (fs : GsdFile) (h : GsdHandle)
    (hmode : h.open_flags = .readwrite ∨ h.open_flags = .append)
    (hfull : h.index_num_entries = h.header.index_allocated_entries)
    (hlen : fs.indexBlock.length = h.header.index_allocated_entries)
    (hrw : h.open_flags = .readwrite →
      h.index.length = h.header.index_allocated_entries ∧
      h.index.take h.index_written_entries
        = fs.indexBlock.take h.index_written_entries)
    (hw : h.index_written_entries ≤ h.header.index_allocated_entries) :
    ∃ fs' h', gsd_expand_index fs h = .ok (fs', h') ∧
      h'.header.index_allocated_entries
        = 2 * h.header.index_allocated_entries ∧
      h'.header.index_location = fs.size ∧
      fs'.header = h'.header ∧
      fs'.indexBlock.take h.header.index_allocated_entries
        = (if h.open_flags = .readwrite then h.index else fs.indexBlock) ∧
      fs'.indexBlock.drop h.header.index_allocated_entries
        = List.replicate h.header.index_allocated_entries zeroEntry ∧
      fs'.indexBlock.take h.index_written_entries
        = fs.indexBlock.take h.index_written_entries ∧
      fs'.data = fs.data ∧
      fs'.size = fs.size
        + gsd_index_entry_size * (2 * h.header.index_allocated_entries) := by
  rcases hmode with hm | hm
  · rcases hrw hm with ⟨hilen, hiw⟩
    refine ⟨_, _, gsd_expand_index_rw_eq fs h hm,
      ?_, ?_, ?_, ?_, ?_, ?_, ?_, ?_⟩
    · simp
      omega
    · rfl
    · rfl
    · rw [if_pos hm]
      show List.take h.header.index_allocated_entries
          (h.index ++ List.replicate _ zeroEntry) = h.index
      rw [List.take_append_eq_append_take, List.take_of_length_le (by omega),
        show h.header.index_allocated_entries - h.index.length = 0 by omega]
      simp
    · show List.drop h.header.index_allocated_entries
          (h.index ++ List.replicate _ zeroEntry)
        = List.replicate h.header.index_allocated_entries zeroEntry
      rw [List.drop_append_eq_append_drop, List.drop_of_length_le (by omega),
        show h.header.index_allocated_entries - h.index.length = 0 by omega]
      simp
      omega
    · show List.take h.index_written_entries
          (h.index ++ List.replicate _ zeroEntry)
        = List.take h.index_written_entries fs.indexBlock
      rw [List.take_append_eq_append_take,
        show h.index_written_entries - h.index.length = 0 by omega]
      simpa using hiw
    · rfl
    · show fs.size + gsd_index_entry_size
          * (h.header.index_allocated_entries * 2)
        = fs.size
          + gsd_index_entry_size * (2 * h.header.index_allocated_entries)
      ring
  · refine ⟨_, _, gsd_expand_index_ap_eq fs h hm,
      ?_, ?_, ?_, ?_, ?_, ?_, ?_, ?_⟩
    · simp
      omega
    · rfl
    · rfl
    · rw [if_neg (by rw [hm]; intro hbad; cases hbad)]
      show List.take h.header.index_allocated_entries
          (fs.indexBlock ++ List.replicate _ zeroEntry) = fs.indexBlock
      rw [List.take_append_eq_append_take, List.take_of_length_le (by omega),
        show h.header.index_allocated_entries - fs.indexBlock.length = 0
          by omega]
      simp
    · show List.drop h.header.index_allocated_entries
          (fs.indexBlock ++ List.replicate _ zeroEntry)
        = List.replicate h.header.index_allocated_entries zeroEntry
      rw [List.drop_append_eq_append_drop, List.drop_of_length_le (by omega),
        show h.header.index_allocated_entries - fs.indexBlock.length = 0
          by omega]
      simp
      omega
    · show List.take h.index_written_entries
          (fs.indexBlock ++ List.replicate _ zeroEntry)
        = List.take h.index_written_entries fs.indexBlock
      rw [List.take_append_eq_append_take,
        show h.index_written_entries - fs.indexBlock.length = 0 by omega]
      simp
    · rfl
    · show fs.size + gsd_index_entry_size
          * (h.header.index_allocated_entries * 2)
        = fs.size
          + gsd_index_entry_size * (2 * h.header.index_allocated_entries)
      ring

/-- C3 witness: expanding a full one-entry read-write index doubles the
allocation and relocates the block to the old end-of-file. -/
theorem claim_C3_witness :
    ∃ fs' h', gsd_expand_index wit3_fs wit3_h = .ok (fs', h') ∧
      h'.header.index_allocated_entries
        = 2 * wit3_h.header.index_allocated_entries ∧
      h'.header.index_location = wit3_fs.size ∧
      fs'.header = h'.header ∧
      fs'.indexBlock.take wit3_h.header.index_allocated_entries
        = (if wit3_h.open_flags = .readwrite then wit3_h.index
           else wit3_fs.indexBlock) ∧
      fs'.indexBlock.drop wit3_h.header.index_allocated_entries
        = List.replicate wit3_h.header.index_allocated_entries zeroEntry ∧
      fs'.indexBlock.take wit3_h.index_written_entries
        = wit3_fs.indexBlock.take wit3_h.index_written_entries ∧
      fs'.data = wit3_fs.data ∧
      fs'.size = wit3_fs.size
        + gsd_index_entry_size * (2 * wit3_h.header.index_allocated_entries) :=
  claim_C3 wit3_fs wit3_h (by decide) (by decide) (by decide)
    (fun _ => by constructor <;> decide) (by decide)

/-! The value of gsd_read_header on a well-formed file. -/

theorem gsd_read_header_spec (fs : GsdFile) (mode : GsdOpenFlag) (k nn : Nat)
    (hsz : gsd_header_size ≤ fs.size)
    (hmagic : fs.header.magic = GSD_MAGIC_ID)
    (hver : fs.header.gsd_version = gsd_make_version 1 0)
    (hib : fs.header.index_location
      + gsd_index_entry_size * fs.header.index_allocated_entries ≤ fs.size)
    (hnb : fs.header.namelist_location
      + gsd_namelist_entry_size * fs.header.namelist_allocated_entries ≤ fs.size)
    (hilen : fs.indexBlock.length = fs.header.index_allocated_entries)
    (hnlen : fs.namelistBlock.length = fs.header.namelist_allocated_entries)
    (hk : k ≤ fs.header.index_allocated_entries)
    (hnn : nn ≤ fs.header.namelist_allocated_entries)
    (hnlbefore : ∀ i < nn, fs.namelistBlock.getD i [] ≠ [])
    (hnlat : nn = fs.header.namelist_allocated_entries ∨
      fs.namelistBlock.getD nn [] = [])
    (hnz : ∀ i < k, (fs.indexBlock.getD i zeroEntry).location ≠ 0)
    (hzero : ∀ i < fs.header.index_allocated_entries, k ≤ i →
      (fs.indexBlock.getD i zeroEntry).location = 0)
    (hval : ∀ i < k,
      gsd_sizeof_type (fs.indexBlock.getD i zeroEntry).typ ≠ 0 ∧
      (fs.indexBlock.getD i zeroEntry).location
        + chunk_size (fs.indexBlock.getD i zeroEntry) ≤ fs.size ∧
      (fs.indexBlock.getD i zeroEntry).frame
        < fs.header.index_allocated_entries ∧
      (fs.indexBlock.getD i zeroEntry).id < nn ∧
      (fs.indexBlock.getD i zeroEntry).flags = 0)
    (hmono : ∀ j < k, ∀ i < j + 1, (fs.indexBlock.getD i zeroEntry).frame
      ≤ (fs.indexBlock.getD j zeroEntry).frame) :
    gsd_read_header fs mode = .ok (gsd_mk_handle fs mode k nn) := by
  have hfind : fs.namelistBlock.findIdx (fun nm => nm.isEmpty) = nn := by
    apply findIdx_boundary
    · rw [hnlen]
      exact hnn
    · intro i hi
      rcases hcase : fs.namelistBlock.getD i [] with _ | ⟨x, xs⟩
      · exact absurd hcase (hnlbefore i hi)
      · rfl
    · rcases hnlat with hL | hR
      · left
        rw [hnlen, hL]
      · right
        rw [hR]
        rfl
  have hval2 : ∀ (H : GsdHandle), H.file_size = fs.size → H.header = fs.header →
      H.namelist_num_entries = nn → ∀ i, i < k →
      gsd_is_entry_valid H (fs.indexBlock.getD i zeroEntry) = true := by
    intro H hf hh hn i hi
    rcases hval i hi with ⟨v1, v2, v3, v4, v5⟩
    refine is_entry_valid_true H _ v1 ?_ ?_ ?_ v5
    · rw [hf]
      exact v2
    · rw [hh]
      exact v3
    · rw [hn]
      exact v4
  have hloop : ∀ (H : GsdHandle), H.index = fs.indexBlock →
      H.file_size = fs.size → H.header = fs.header →
      H.namelist_num_entries = nn → 0 < k →
      gsd_index_scan_loop H (fs.header.index_allocated_entries + 1) 0
        fs.header.index_allocated_entries = .ok k := by
    intro H hidx hf hh hn hk0
    refine gsd_index_scan_loop_finds H k ?_ ?_ ?_ ?_ _ _ _ (by omega) hk0 hk
    · intro i hi
      rw [hidx]
      exact hnz i hi
    · intro i hi
      rw [hidx]
      exact hval2 H hf hh hn i hi
    · intro i j hij hjk
      rw [hidx]
      exact hmono j hjk i (by omega)
    · intro i hki
      rw [hidx]
      by_cases hial : i < fs.header.index_allocated_entries
      · exact hzero i hial hki
      · rw [getD_of_length_le _ _ _ (by omega)]
        rfl
  unfold gsd_read_header
  rw [if_neg (by omega), if_neg (by simp [hmagic]),
    if_neg (by rw [hver]; rintro ⟨h1, -⟩; exact lt_irrefl _ h1),
    if_neg (by rw [hver]; decide),
    if_neg (by rintro ⟨-, hbad⟩; omega), if_neg (by omega)]
  simp only [hfind]
  by_cases hk0 : k = 0
  · subst hk0
    have he0 : (fs.indexBlock.getD 0 zeroEntry).location = 0 := by
      by_cases hal : 0 < fs.header.index_allocated_entries
      · exact hzero 0 hal (le_refl 0)
      · rw [getD_of_length_le _ _ _ (by omega)]
        rfl
    rw [if_neg (by rintro ⟨hbad, -⟩; exact hbad he0), if_pos he0]
    cases mode <;> rfl
  · have he0 := hnz 0 (by omega)
    rw [if_neg (by rintro ⟨-, hbad⟩; rw [hval2 _ rfl rfl rfl 0 (by omega)] at hbad; cases hbad)]
    rw [if_neg he0]
    rw [hloop _ rfl rfl rfl rfl (by omega)]
    cases mode <;> simp [gsd_mk_handle]

/-! Opening a freshly initialized file. -/

theorem gsd_read_header_init (a s : List Nat) (v : Nat) (mode : GsdOpenFlag) :
    gsd_read_header (gsd_initialize_file a s v) mode
      = .ok (gsd_init_handle a s v mode) := by
  have hspec := gsd_read_header_spec (gsd_initialize_file a s v) mode 0 0
    (by simp only [gsd_initialize_file]; omega)
    rfl rfl
    (by norm_num [gsd_initialize_file, gsd_header_size, gsd_index_entry_size,
      GSD_INITIAL_INDEX_SIZE])
    (by norm_num [gsd_initialize_file, gsd_header_size, gsd_index_entry_size,
      gsd_namelist_entry_size, GSD_INITIAL_INDEX_SIZE,
      GSD_INITIAL_NAMELIST_SIZE])
    (by simp [gsd_initialize_file])
    (by simp [gsd_initialize_file])
    (by omega) (by omega)
    (by intro i hi; omega)
    (by right
        show (List.replicate GSD_INITIAL_NAMELIST_SIZE ([] : List Nat)).getD 0 [] = []
        rw [getD_replicate]
        split <;> rfl)
    (by intro i hi; omega)
    (by intro i hial hki
        show ((List.replicate GSD_INITIAL_INDEX_SIZE zeroEntry).getD i zeroEntry).location = 0
        rw [getD_replicate]
        split <;> rfl)
    (by intro i hi; omega)
    (by intro j hj; omega)
  rw [hspec]
  unfold gsd_mk_handle gsd_init_handle
  cases mode <;> rfl

/-- C9: on a writable handle, gsd_truncate reinitializes the file preserving
the header fields application, schema and schema_version, after which
gsd_get_nframes returns 0 and gsd_find_chunk returns NULL for every (frame,
name) pair. -/
theorem claim_C9 (h : GsdHandle)
    (hmode : h.open_flags ≠ .readonly)
    (ha : h.header.application.length ≤ 63)
    (hs : h.header.schema.length ≤ 63) :
    ∃ fs' h', gsd_truncate (some h) = .ok (fs', h') ∧
      h'.header.application = h.header.application ∧
      h'.header.schema = h.header.schema ∧
      h'.header.schema_version = h.header.schema_version ∧
      gsd_get_nframes h' = 0 ∧
      ∀ frame name, gsd_find_chunk (some h') frame name = none := by
  refine ⟨gsd_initialize_file h.header.application h.header.schema
      h.header.schema_version,
    gsd_init_handle h.header.application h.header.schema
      h.header.schema_version h.open_flags,
    ?_, ?_, ?_, ?_, ?_, ?_⟩
  · unfold gsd_truncate
    show (if h.open_flags = .readonly then Except.error .FileMustBeWritable
      else Except.map (fun h' => (gsd_initialize_file h.header.application
          h.header.schema h.header.schema_version, h'))
        (gsd_read_header (gsd_initialize_file h.header.application
          h.header.schema h.header.schema_version) h.open_flags)) = _
    rw [if_neg hmode, gsd_read_header_init]
    rfl
  · simp [gsd_init_handle, gsd_initialize_file, truncName63,
      List.take_of_length_le ha]
  · simp [gsd_init_handle, gsd_initialize_file, truncName63,
      List.take_of_length_le hs]
  · simp [gsd_init_handle, gsd_initialize_file]
  · rfl
  · intro frame name
    rcases name with _ | name
    · rfl
    · simp only [gsd_find_chunk]
      have hc : gsd_get_nframes (gsd_init_handle h.header.application
          h.header.schema h.header.schema_version h.open_flags) ≤ frame :=
        Nat.zero_le frame
      rw [if_pos hc]

/-- C9 witness: truncating the fresh session handle keeps the header strings
and leaves no findable chunks. -/
theorem claim_C9_witness :
    ∃ fs' h', gsd_truncate (some sess0.2) = .ok (fs', h') ∧
      h'.header.application = sess0.2.header.application ∧
      h'.header.schema = sess0.2.header.schema ∧
      h'.header.schema_version = sess0.2.header.schema_version ∧
      gsd_get_nframes h' = 0 ∧
      ∀ frame name, gsd_find_chunk (some h') frame name = none :=
  claim_C9 sess0.2 (by decide) (by decide) (by decide)

/-- C4: on a well-formed file whose index is a densely packed prefix of k
entries with nonzero location (each passing the gsd_is_entry_valid checks,
with nondecreasing frames) followed by zero-location entries, gsd_open sets
index_num_entries to k, found by the binary search for the first entry with
location 0, and sets cur_frame to the frame of the last prefix entry plus 1,
or to 0 when the prefix is empty. -/
theorem claim_C4 (fs : GsdFile) (mode : GsdOpenFlag) (k nn : Nat)
    (hsz : gsd_header_size ≤ fs.size)
    (hmagic : fs.header.magic = GSD_MAGIC_ID)
    (hver : fs.header.gsd_version = gsd_make_version 1 0)
    (hib : fs.header.index_location
      + gsd_index_entry_size * fs.header.index_allocated_entries ≤ fs.size)
    (hnb : fs.header.namelist_location
      + gsd_namelist_entry_size * fs.header.namelist_allocated_entries ≤ fs.size)
    (hilen : fs.indexBlock.length = fs.header.index_allocated_entries)
    (hnlen : fs.namelistBlock.length = fs.header.namelist_allocated_entries)
    (hk : k ≤ fs.header.index_allocated_entries)
    (hnn : nn ≤ fs.header.namelist_allocated_entries)
    (hnlbefore : ∀ i < nn, fs.namelistBlock.getD i [] ≠ [])
    (hnlat : nn = fs.header.namelist_allocated_entries ∨
      fs.namelistBlock.getD nn [] = [])
    (hnz : ∀ i < k, (fs.indexBlock.getD i zeroEntry).location ≠ 0)
    (hzero : ∀ i < fs.header.index_allocated_entries, k ≤ i →
      (fs.indexBlock.getD i zeroEntry).location = 0)
    (hval : ∀ i < k,
      gsd_sizeof_type (fs.indexBlock.getD i zeroEntry).typ ≠ 0 ∧
      (fs.indexBlock.getD i zeroEntry).location
        + chunk_size (fs.indexBlock.getD i zeroEntry) ≤ fs.size ∧
      (fs.indexBlock.getD i zeroEntry).frame
        < fs.header.index_allocated_entries ∧
      (fs.indexBlock.getD i zeroEntry).id < nn ∧
      (fs.indexBlock.getD i zeroEntry).flags = 0)
    (hmono : ∀ j < k, ∀ i < j + 1, (fs.indexBlock.getD i zeroEntry).frame
      ≤ (fs.indexBlock.getD j zeroEntry).frame) :
    ∃ h', gsd_open fs mode = .ok h' ∧
      h'.index_num_entries = k ∧
      h'.cur_frame = (if k = 0 then 0
        else (fs.indexBlock.getD (k - 1) zeroEntry).frame + 1) := by
  refine ⟨gsd_mk_handle fs mode k nn, ?_, ?_, ?_⟩
  · exact gsd_read_header_spec fs mode k nn hsz hmagic hver hib hnb hilen
      hnlen hk hnn hnlbefore hnlat hnz hzero hval hmono
  · unfold gsd_mk_handle
    cases mode <;> rfl
  · unfold gsd_mk_handle
    cases mode <;> rfl

/-- C4 witness: reopening the one-chunk committed file sets
index_num_entries to 1 and cur_frame to 1. -/
theorem claim_C4_witness :
    ∃ h', gsd_open wit4_fs .readonly = .ok h' ∧
      h'.index_num_entries = 1 ∧
      h'.cur_frame = (if 1 = 0 then 0
        else (wit4_fs.indexBlock.getD (1 - 1) zeroEntry).frame + 1) :=
  claim_C4 wit4_fs .readonly 1 1 (by decide) (by decide) (by decide)
    (by decide) (by decide) (by decide) (by decide) (by decide) (by decide)
    (by decide) (by decide) (by decide) (by decide) (by decide) (by decide)

/-! Congruence of the name search in the committed window. -/

theorem gsd_find_name_loop_congr (hA hB : GsdHandle) (name : List Nat) (W : Nat)
    (hn : ∀ i < W, nameAt hA i = nameAt hB i) :
    ∀ fuel L R, L < R → R ≤ W →
      gsd_find_name_loop hA name fuel L R = gsd_find_name_loop hB name fuel L R := by
  intro fuel
  induction fuel with
  | zero =>
    intro L R _ _
    rfl
  | succ fuel ih =>
    intro L R hLR hRW
    simp only [gsd_find_name_loop]
    rw [hn ((L + R) / 2) (by omega)]
    rcases strncmpPref name (nameAt hB ((L + R) / 2)) with _ | _ | _
    · by_cases hcond : (L + R) / 2 - L > 1
      · rw [if_pos hcond, if_pos hcond, ih L ((L + R) / 2) (by omega) (by omega)]
      · rw [if_neg hcond, if_neg hcond]
    · rfl
    · by_cases hcond : R - (L + R) / 2 > 1
      · rw [if_pos hcond, if_pos hcond, ih ((L + R) / 2) R (by omega) hRW]
      · rw [if_neg hcond, if_neg hcond]

theorem gsd_find_name_congr (hA hB : GsdHandle) (name : List Nat)
    (hw : hA.namelist_written_entries = hB.namelist_written_entries)
    (hn : ∀ i < hB.namelist_written_entries, nameAt hA i = nameAt hB i) :
    gsd_find_name hA name = gsd_find_name hB name := by
  unfold gsd_find_name
  rw [hw]
  by_cases h0 : hB.namelist_written_entries = 0
  · rw [if_pos h0, if_pos h0]
  · rw [if_neg h0, if_neg h0, hn 0 (by omega)]
    rcases strncmpPref name (nameAt hB 0) with _ | _ | _
    · rfl
    · rfl
    · exact gsd_find_name_loop_congr hA hB name hB.namelist_written_entries hn
        _ 0 _ (by omega) (le_refl _)

theorem gsd_get_id_congr (hA hB : GsdHandle) (name : List Nat)
    (hw : hA.namelist_written_entries = hB.namelist_written_entries)
    (hpair : ∀ i < hB.namelist_written_entries,
      hA.names.getD i default = hB.names.getD i default) :
    gsd_get_id hA name = gsd_get_id hB name := by
  unfold gsd_get_id
  rw [gsd_find_name_congr hA hB name hw
    (fun i hi => by unfold nameAt; rw [hpair i hi])]
  rcases hres : gsd_find_name hB name with _ | i
  · rfl
  · show some ((hA.names.getD i default).id) = some ((hB.names.getD i default).id)
    unfold gsd_find_name at hres
    split at hres
    · cases hres
    · split at hres
      · cases hres
      · rename_i hW _
        injection hres with hi
        subst hi
        rw [hpair 0 (by omega)]
      · have := gsd_find_name_loop_some hB name _ 0
          hB.namelist_written_entries i (by omega) hres
        rw [hpair i this.1]

/-! The two name-resolution outcomes of gsd_write_chunk, without expansion. -/

theorem except_bind_ok {α β : Type} (a : α) (f : α → Except GsdError β) :
    Except.bind (Except.ok a) f = f a := rfl

theorem gsd_write_chunk_reuse (fs : GsdFile) (h : GsdHandle) (name : List Nat)
    (typ N M : Nat) (bytes : List Nat) (id : Nat)
    (hN : N ≠ 0) (hM : M ≠ 0) (htyp : gsd_sizeof_type typ ≠ 0)
    (hro : h.open_flags ≠ .readonly)
    (hfind : gsd_get_id h name = some id)
    (hroom : h.index_num_entries < h.header.index_allocated_entries) :
    gsd_write_chunk fs h name typ N M 0 (some bytes)
      = .ok (wcCore fs h typ N M bytes id) := by
  unfold gsd_write_chunk
  rw [if_neg (by simp), if_neg (by simp [hN, hM, htyp]), if_neg hro,
    if_neg (by simp)]
  simp only [hfind, except_bind_ok]
  rw [if_neg (show
    ¬ h.header.index_allocated_entries ≤ h.index_num_entries by omega)]
  simp only [except_bind_ok]
  rfl

theorem gsd_write_chunk_new (fs : GsdFile) (h : GsdHandle) (name : List Nat)
    (typ N M : Nat) (bytes : List Nat)
    (hN : N ≠ 0) (hM : M ≠ 0) (htyp : gsd_sizeof_type typ ≠ 0)
    (hro : h.open_flags ≠ .readonly)
    (hfind : gsd_get_id h name = none)
    (hcap : h.namelist_num_entries ≠ h.header.namelist_allocated_entries)
    (hid16 : h.namelist_num_entries < u16_mod - 1)
    (hroom : h.index_num_entries < h.header.index_allocated_entries) :
    gsd_write_chunk fs h name typ N M 0 (some bytes)
      = .ok (wcCore fs (appendNameState h name) typ N M bytes
          h.namelist_num_entries) := by
  unfold gsd_write_chunk
  rw [if_neg (by simp), if_neg (by simp [hN, hM, htyp]), if_neg hro,
    if_neg (by simp)]
  simp only [hfind]
  unfold gsd_append_name
  rw [if_neg hro, if_neg hcap]
  have hmod : h.namelist_num_entries % u16_mod = h.namelist_num_entries :=
    Nat.mod_eq_of_lt (by unfold u16_mod at *; omega)
  simp only [hmod, except_bind_ok]
  rw [if_neg (show ¬ h.namelist_num_entries = u16_mod - 1 by omega)]
  simp only [except_bind_ok]
  rw [if_neg (show
    ¬ h.header.index_allocated_entries ≤ h.index_num_entries by omega)]
  simp only [except_bind_ok]
  rfl

theorem wcCore_snd_append (fs : GsdFile) (h : GsdHandle) (typ N M : Nat)
    (bytes : List Nat) (id : Nat) (hap : h.open_flags = .append) :
    (wcCore fs h typ N M bytes id).2 = { h with
      file_size := h.file_size + (N * M * gsd_sizeof_type typ) % u64_mod,
      index := h.index.take (h.index_num_entries - h.index_written_entries)
        ++ [⟨h.cur_frame, N, h.file_size, M, id, typ % 256, 0⟩],
      append_index_size :=
        if h.append_index_size
            ≤ h.index_num_entries - h.index_written_entries
          then h.append_index_size * 2 else h.append_index_size,
      index_num_entries := h.index_num_entries + 1 } := by
  simp only [wcCore]
  rw [if_pos hap]

theorem wcCore_snd_set (fs : GsdFile) (h : GsdHandle) (typ N M : Nat)
    (bytes : List Nat) (id : Nat) (hap : ¬ h.open_flags = .append) :
    (wcCore fs h typ N M bytes id).2 = { h with
      file_size := h.file_size + (N * M * gsd_sizeof_type typ) % u64_mod,
      index := h.index.set h.index_num_entries
        ⟨h.cur_frame, N, h.file_size, M, id, typ % 256, 0⟩,
      index_num_entries := h.index_num_entries + 1 } := by
  simp only [wcCore]
  rw [if_neg hap]

/-- C10: when a name that has never been committed is written twice within a
single frame, the second gsd_write_chunk does not find the id assigned by the
first (gsd_find_name searches only entries committed by the last
gsd_end_frame) and appends a second, duplicate namelist entry under a
distinct id: the two staged index entries carry ids nn and nn+1 and the
namelist holds the same name in both slots. -/
theorem claim_C10 (fs : GsdFile) (h : GsdHandle) (name : List Nat)
    (typ N M : Nat) (d1 d2 : List Nat)
    (hN : N ≠ 0) (hM : M ≠ 0) (htyp : gsd_sizeof_type typ ≠ 0)
    (hro : h.open_flags ≠ .readonly)
    (hfind : gsd_get_id h name = none)
    (hcap : h.namelist_num_entries + 2 ≤ h.header.namelist_allocated_entries)
    (hcap16 : h.header.namelist_allocated_entries ≤ GSD_INITIAL_NAMELIST_SIZE)
    (hnw : h.namelist_written_entries ≤ h.namelist_num_entries)
    (hnames : h.names.length = h.namelist_num_entries)
    (hnl : h.namelist_num_entries + 1 < h.namelist.length)
    (hroom : h.index_num_entries + 2 ≤ h.header.index_allocated_entries)
    (hiw : h.index_written_entries ≤ h.index_num_entries)
    (hilen : h.open_flags ≠ .append →
      h.index_num_entries + 1 < h.index.length) :
    ∃ fs1 h1 fs2 h2 e1 e2,
      gsd_write_chunk fs h name typ N M 0 (some d1) = .ok (fs1, h1) ∧
      gsd_get_id h1 name = none ∧
      gsd_write_chunk fs1 h1 name typ N M 0 (some d2) = .ok (fs2, h2) ∧
      stagedSlots h1 = stagedSlots h ++ [e1] ∧
      stagedSlots h2 = stagedSlots h1 ++ [e2] ∧
      e1.id = h.namelist_num_entries ∧
      e2.id = h.namelist_num_entries + 1 ∧
      e1.id ≠ e2.id ∧
      h2.namelist.getD e1.id [] = truncName63 name ∧
      h2.namelist.getD e2.id [] = truncName63 name ∧
      h2.namelist_num_entries = h.namelist_num_entries + 2 := by
  have hum : u16_mod = 65536 := by decide
  have hns : GSD_INITIAL_NAMELIST_SIZE = 65535 := rfl
  have hw1 := gsd_write_chunk_new fs h name typ N M d1 hN hM htyp hro hfind
    (by omega) (by omega) (by omega)
  set hA := appendNameState h name with hA_def
  set st1 := wcCore fs hA typ N M d1 h.namelist_num_entries with st1_def
  have hAof : hA.open_flags = h.open_flags := rfl
  have hAidx : hA.index = h.index := rfl
  have hAinum : hA.index_num_entries = h.index_num_entries := rfl
  have hAiw : hA.index_written_entries = h.index_written_entries := rfl
  have hAcf : hA.cur_frame = h.cur_frame := rfl
  have hAfs : hA.file_size = h.file_size := rfl
  -- facts about the handle after the first write
  have hA_names : hA.names = h.names ++ [⟨truncName63 name,
      h.namelist_num_entries⟩] := by
    rw [hA_def]
    unfold appendNameState
    simp only
    rw [← hnames, List.take_length]
  have h1_names : st1.2.names = hA.names := by
    rw [st1_def]
    unfold wcCore
    by_cases hap : hA.open_flags = GsdOpenFlag.append <;> simp [hap]
  have h1_written : st1.2.namelist_written_entries
      = h.namelist_written_entries := by
    rw [st1_def]
    unfold wcCore
    by_cases hap : hA.open_flags = GsdOpenFlag.append <;> simp [hap] <;> rfl
  have hfind1 : gsd_get_id st1.2 name = none := by
    rw [gsd_get_id_congr st1.2 h name (by rw [h1_written])
      (fun i hi => by
        rw [h1_names, hA_names, getD_append_left _ _ _ _ (by omega)])]
    exact hfind
  have h1_facts : st1.2.namelist_num_entries = h.namelist_num_entries + 1 ∧
      st1.2.header = h.header ∧ st1.2.open_flags = h.open_flags ∧
      st1.2.index_num_entries = h.index_num_entries + 1 ∧
      st1.2.index_written_entries = h.index_written_entries ∧
      st1.2.namelist
        = h.namelist.set h.namelist_num_entries (truncName63 name) ∧
      st1.2.file_size
        = h.file_size + (N * M * gsd_sizeof_type typ) % u64_mod ∧
      st1.2.cur_frame = h.cur_frame := by
    rw [st1_def]
    by_cases hap : hA.open_flags = GsdOpenFlag.append
    · rw [wcCore_snd_append fs hA typ N M d1 h.namelist_num_entries hap]
      exact ⟨rfl, rfl, rfl, rfl, rfl, rfl, rfl, rfl⟩
    · rw [wcCore_snd_set fs hA typ N M d1 h.namelist_num_entries hap]
      exact ⟨rfl, rfl, rfl, rfl, rfl, rfl, rfl, rfl⟩
  obtain ⟨h1_nn, h1_hdr, h1_flags, h1_inum, h1_iw, h1_nl, h1_fs, h1_cf⟩ :=
    h1_facts
  have hw2 := gsd_write_chunk_new st1.1 st1.2 name typ N M d2 hN hM htyp
    (by rw [h1_flags]; exact hro) hfind1
    (by rw [h1_nn, h1_hdr]; omega)
    (by rw [h1_nn]; omega)
    (by rw [h1_inum, h1_hdr]; omega)
  set hB := appendNameState st1.2 name with hB_def
  set st2 := wcCore st1.1 hB typ N M d2 st1.2.namelist_num_entries with st2_def
  have hBof : hB.open_flags = st1.2.open_flags := rfl
  have hBidx : hB.index = st1.2.index := rfl
  have hBinum : hB.index_num_entries = st1.2.index_num_entries := rfl
  have hBiw : hB.index_written_entries = st1.2.index_written_entries := rfl
  have hBcf : hB.cur_frame = st1.2.cur_frame := rfl
  have hBfs : hB.file_size = st1.2.file_size := rfl
  have h2_facts : st2.2.namelist = st1.2.namelist.set
        st1.2.namelist_num_entries (truncName63 name) ∧
      st2.2.namelist_num_entries = st1.2.namelist_num_entries + 1 := by
    rw [st2_def]
    by_cases hap : hB.open_flags = GsdOpenFlag.append
    · rw [wcCore_snd_append st1.1 hB typ N M d2 st1.2.namelist_num_entries hap]
      exact ⟨rfl, rfl⟩
    · rw [wcCore_snd_set st1.1 hB typ N M d2 st1.2.namelist_num_entries hap]
      exact ⟨rfl, rfl⟩
  obtain ⟨h2_nl, h2_nn⟩ := h2_facts
  refine ⟨st1.1, st1.2, st2.1, st2.2,
    ⟨h.cur_frame, N, h.file_size, M, h.namelist_num_entries, typ % 256, 0⟩,
    ⟨h.cur_frame, N,
      h.file_size + (N * M * gsd_sizeof_type typ) % u64_mod, M,
      h.namelist_num_entries + 1, typ % 256, 0⟩,
    hw1, hfind1, hw2, ?_, ?_, rfl, rfl, ?_, ?_, ?_, ?_⟩
  · -- staged slots after the first write
    rw [st1_def]
    by_cases hap : h.open_flags = GsdOpenFlag.append
    · rw [wcCore_snd_append fs hA typ N M d1 h.namelist_num_entries hap]
      simp only [stagedSlots, hAof, hAidx, hAinum, hAiw, hAcf, hAfs]
      rw [if_pos hap, if_pos hap]
      rw [show h.index_num_entries + 1 - h.index_written_entries
        = (h.index_num_entries - h.index_written_entries) + 1 by omega]
      have hlen : ((h.index.take
            (h.index_num_entries - h.index_written_entries))
          ++ [(⟨h.cur_frame, N, h.file_size, M, h.namelist_num_entries,
            typ % 256, 0⟩ : GsdIndexEntry)]).length
          ≤ (h.index_num_entries - h.index_written_entries) + 1 := by
        rw [List.length_append, List.length_take]
        simp only [List.length_cons, List.length_nil]
        omega
      rw [List.take_of_length_le hlen]
    · rw [wcCore_snd_set fs hA typ N M d1 h.namelist_num_entries hap]
      simp only [stagedSlots, hAof, hAidx, hAinum, hAiw, hAcf, hAfs]
      rw [if_neg hap, if_neg hap]
      rw [take_set_succ _ _ _ (by have hl := hilen hap; omega)]
      have hlen1 : (h.index.take h.index_num_entries).length
          = h.index_num_entries := by
        rw [List.length_take]
        have hl := hilen hap
        omega
      rw [List.drop_append_eq_append_drop, hlen1,
        show h.index_written_entries - h.index_num_entries = 0 by omega,
        List.drop_zero]
  · -- staged slots after the second write
    rw [st2_def]
    by_cases hap : h.open_flags = GsdOpenFlag.append
    · rw [wcCore_snd_append st1.1 hB typ N M d2 st1.2.namelist_num_entries
        (by rw [hBof, h1_flags]; exact hap)]
      simp only [stagedSlots, hBof, hBidx, hBinum, hBiw, hBcf, hBfs,
        h1_flags, h1_inum, h1_iw, h1_cf, h1_fs, h1_nn]
      rw [if_pos hap, if_pos hap]
      rw [show h.index_num_entries + 1 + 1 - h.index_written_entries
        = (h.index_num_entries + 1 - h.index_written_entries) + 1 by omega]
      have hlen2 : ((st1.2.index.take
            (h.index_num_entries + 1 - h.index_written_entries))
          ++ [(⟨h.cur_frame, N, h.file_size
              + (N * M * gsd_sizeof_type typ) % u64_mod, M,
            h.namelist_num_entries + 1, typ % 256, 0⟩
            : GsdIndexEntry)]).length
          ≤ (h.index_num_entries + 1 - h.index_written_entries) + 1 := by
        rw [List.length_append, List.length_take]
        simp only [List.length_cons, List.length_nil]
        omega
      rw [List.take_of_length_le hlen2]
    · rw [wcCore_snd_set st1.1 hB typ N M d2 st1.2.namelist_num_entries
        (by rw [hBof, h1_flags]; exact hap)]
      have hidxlen : st1.2.index.length = h.index.length := by
        rw [st1_def, wcCore_snd_set fs hA typ N M d1 h.namelist_num_entries
          (by rw [hAof]; exact hap)]
        simp only [List.length_set, hAidx]
      simp only [stagedSlots, hBof, hBidx, hBinum, hBiw, hBcf, hBfs,
        h1_flags, h1_inum, h1_iw, h1_cf, h1_fs, h1_nn]
      rw [if_neg hap, if_neg hap]
      rw [take_set_succ _ _ _ (by rw [hidxlen]; have hl := hilen hap; omega)]
      have hlen3 : (st1.2.index.take (h.index_num_entries + 1)).length
          = h.index_num_entries + 1 := by
        rw [List.length_take, hidxlen]
        have hl := hilen hap
        omega
      rw [List.drop_append_eq_append_drop, hlen3,
        show h.index_written_entries - (h.index_num_entries + 1) = 0 by omega,
        List.drop_zero]
  · show h.namelist_num_entries ≠ h.namelist_num_entries + 1
    omega
  · show st2.2.namelist.getD h.namelist_num_entries [] = truncName63 name
    rw [h2_nl, h1_nl, h1_nn]
    rw [getD_set_ne _ _ _ _ _ (by omega)]
    rw [getD_set_eq _ _ _ _ (by omega)]
  · show st2.2.namelist.getD (h.namelist_num_entries + 1) []
      = truncName63 name
    rw [h2_nl, h1_nl, h1_nn]
    rw [getD_set_eq _ _ _ _ (by rw [List.length_set]; omega)]
  · rw [h2_nn, h1_nn]

/-- C10 witness: writing the same fresh name twice on a small read-write
handle stages ids 0 and 1 and duplicates the namelist entry. -/
theorem claim_C10_witness :
    ∃ fs1 h1 fs2 h2 e1 e2,
      gsd_write_chunk dfltFS wit10_h [120] 1 1 1 0 (some [7])
        = .ok (fs1, h1) ∧
      gsd_get_id h1 [120] = none ∧
      gsd_write_chunk fs1 h1 [120] 1 1 1 0 (some [8]) = .ok (fs2, h2) ∧
      stagedSlots h1 = stagedSlots wit10_h ++ [e1] ∧
      stagedSlots h2 = stagedSlots h1 ++ [e2] ∧
      e1.id = wit10_h.namelist_num_entries ∧
      e2.id = wit10_h.namelist_num_entries + 1 ∧
      e1.id ≠ e2.id ∧
      h2.namelist.getD e1.id [] = truncName63 [120] ∧
      h2.namelist.getD e2.id [] = truncName63 [120] ∧
      h2.namelist_num_entries = wit10_h.namelist_num_entries + 2 :=
  claim_C10 dfltFS wit10_h [120] 1 1 1 [7] [8] (by decide) (by decide)
    (by decide) (by decide) (by decide) (by decide) (by decide) (by decide)
    (by decide) (by decide) (by decide) (by decide) (fun _ => by decide)

set_option maxRecDepth 8000 in
/-- C1 counterexample: in a committed session writing chunks named x (N=1,
payload [7]), xy (N=2, payload [1,2]), w and z, reopening read-only and
calling gsd_find_chunk(0, "x") yields the entry of the chunk xy (N=2, not
N=1), and gsd_read_chunk on it returns [1,2], not the [7] passed to
gsd_write_chunk for the name x: the name lookup compares only strlen(name)
bytes, so "x" matches "xy".  Moreover a session of 128 empty committed frames
followed by one chunk in frame 128 produces a file that reopening rejects as
FILE_CORRUPT (entry frame not below index_allocated_entries), so the
round-trip claim also fails without a bound on the frame count. -/
theorem claim_C1_counterexample :
    errOf (runOps sess0 ce1_ops) = none ∧
    errOf (gsd_read_header ce1_fs .readonly) = none ∧
    ghostChunks 0 ce1_ops = [⟨0, bsX, 1, 1, 1, [7]⟩,
      ⟨0, bsXY, 1, 2, 1, [1, 2]⟩,
      ⟨0, bsW, 1, 1, 1, [3]⟩, ⟨0, bsZ, 1, 1, 1, [4]⟩] ∧
    (gsd_find_chunk (some ce1_h) 0 (some bsX)).map
      (fun e => (e.N, e.M, e.typ)) = some (2, 1, 1) ∧
    errOf (gsd_read_chunk ce1_fs (some ce1_h) true
      (gsd_find_chunk (some ce1_h) 0 (some bsX))) = none ∧
    exOk (gsd_read_chunk ce1_fs (some ce1_h) true
      (gsd_find_chunk (some ce1_h) 0 (some bsX))) [] = [1, 2] ∧
    errOf (runOps sess0 cfr_ops) = none ∧
    errOf (gsd_read_header cfr_fs .readonly) = some .FileCorrupt := by
  decide

set_option maxRecDepth 4000 in
/-- C2 counterexample: a session committing a single chunk named xy in frame
0; gsd_find_chunk(0, "x") on the live handle is non-NULL although no
gsd_write_chunk call with the name x occurred in that frame, because the name
lookup compares only strlen(name) bytes and "x" matches "xy". -/
theorem claim_C2_counterexample :
    errOf (runOps sess0 ce2_ops) = none ∧
    gsd_get_nframes ce2_h = 1 ∧
    ghostChunks 0 ce2_ops = [⟨0, bsXY, 1, 1, 1, [9]⟩] ∧
    bsX ≠ bsXY ∧
    (gsd_find_chunk (some ce2_h) 0 (some bsX)).isSome = true := by
  decide

set_option maxRecDepth 4000 in
/-- C8 counterexample: with committed names a, x, xa and xb, iterating
gsd_find_matching_chunk_name with match "x" — starting from prev = NULL and
feeding each result back — yields x, then xb, then NULL: the committed name
xa, whose prefix is also "x", is never yielded, because looking up prev = "x"
by the prefix comparison resolves to the cache slot of "xa" and the scan
resumes after it. -/
theorem claim_C8_counterexample :
    errOf (runOps sess0 ce8_ops) = none ∧
    ghostChunks 0 ce8_ops = [⟨0, bsA, 1, 1, 1, [1]⟩, ⟨0, bsX, 1, 1, 1, [2]⟩,
      ⟨0, bsXA, 1, 1, 1, [3]⟩, ⟨0, bsXB, 1, 1, 1, [4]⟩] ∧
    gsd_find_matching_chunk_name (some ce8_h) (some bsX) none = some bsX ∧
    gsd_find_matching_chunk_name (some ce8_h) (some bsX) (some bsX)
      = some bsXB ∧
    gsd_find_matching_chunk_name (some ce8_h) (some bsX) (some bsXB) = none ∧
    bsX <+: bsXA ∧ bsXA ≠ bsX ∧ bsXA ≠ bsXB := by
  decide

theorem gsd_find_name_at (h : GsdHandle) (p : Nat)
    (hsort : ∀ j, j < h.namelist_written_entries → ∀ i, i < j →
      strcmpList (nameAt h i) (nameAt h j) = .lt)
    (hpf : ∀ i, i < h.namelist_written_entries →
      ∀ j, j < h.namelist_written_entries → i ≠ j →
      ¬ (nameAt h i <+: nameAt h j))
    (hp : p < h.namelist_written_entries) :
    gsd_find_name h (nameAt h p) = some p := by
  apply gsd_find_name_finds h _ p hp
  apply window_step h _ p
  · intro i j hij hj
    exact hsort j hj i hij
  · intro i hi hpre
    by_cases hip : p = i
    · rw [hip]
    · exact absurd hpre (hpf p hp i hi hip)
  · exact hp
  · rfl

theorem gsd_scan_names_none (h : GsdHandle) (mt : List Nat) :
    ∀ fuel c, (∀ j, c ≤ j → j < h.namelist_written_entries →
      strncmpPref mt (nameAt h j) ≠ .eq) →
    gsd_scan_names_from h mt fuel c = none := by
  intro fuel
  induction fuel with
  | zero =>
    intro c _
    rfl
  | succ fuel ih =>
    intro c hno
    simp only [gsd_scan_names_from]
    by_cases hc : c < h.namelist_written_entries
    · rw [if_pos hc, if_neg (hno c (le_refl c) hc)]
      exact ih (c + 1) (fun j hj hjW => hno j (by omega) hjW)
    · rw [if_neg hc]

theorem gsd_scan_names_finds (h : GsdHandle) (mt : List Nat) :
    ∀ fuel c q, c ≤ q → q < h.namelist_written_entries →
      h.namelist_written_entries - c < fuel →
      strncmpPref mt (nameAt h q) = .eq →
      (∀ j, c ≤ j → j < q → strncmpPref mt (nameAt h j) ≠ .eq) →
      gsd_scan_names_from h mt fuel c = some (nameAt h q) := by
  intro fuel
  induction fuel with
  | zero =>
    intro c q hcq hq hf _ _
    omega
  | succ fuel ih =>
    intro c q hcq hq hf hmatch hbefore
    simp only [gsd_scan_names_from]
    rw [if_pos (by omega)]
    by_cases hcq2 : c = q
    · subst hcq2
      rw [if_pos hmatch]
    · rw [if_neg (hbefore c (le_refl c) (by omega))]
      exact ih (c + 1) q (by omega) hq (by omega) hmatch
        (fun j hj hjq => hbefore j (by omega) hjq)

theorem matchingNames_nil (h : GsdHandle) (mt : List Nat) :
    ∀ n c, (∀ j, c ≤ j → j < c + n → strncmpPref mt (nameAt h j) ≠ .eq) →
    matchingNames h mt n c = [] := by
  intro n
  induction n with
  | zero =>
    intro c _
    rfl
  | succ n ih =>
    intro c hno
    simp only [matchingNames]
    rw [if_neg (hno c (le_refl c) (by omega))]
    exact ih (c + 1) (fun j hj hjn => hno j (by omega) (by omega))

theorem matchingNames_split (h : GsdHandle) (mt : List Nat) :
    ∀ n c q, c ≤ q → q < c + n →
      strncmpPref mt (nameAt h q) = .eq →
      (∀ j, c ≤ j → j < q → strncmpPref mt (nameAt h j) ≠ .eq) →
      matchingNames h mt n c
        = nameAt h q :: matchingNames h mt (c + n - (q + 1)) (q + 1) := by
  intro n
  induction n with
  | zero =>
    intro c q hcq hq _ _
    omega
  | succ n ih =>
    intro c q hcq hq hmatch hbefore
    simp only [matchingNames]
    by_cases hcq2 : c = q
    · subst hcq2
      rw [if_pos hmatch, show c + (n + 1) - (c + 1) = n by omega]
    · rw [if_neg (hbefore c (le_refl c) (by omega))]
      rw [ih (c + 1) q (by omega) (by omega) hmatch
        (fun j hj hjq => hbefore j (by omega) hjq)]
      rw [show c + 1 + n - (q + 1) = c + (n + 1) - (q + 1) by omega]

theorem matchingNames_mem (h : GsdHandle) (mt : List Nat) :
    ∀ n c nm, nm ∈ matchingNames h mt n c ↔
      ∃ i, c ≤ i ∧ i < c + n ∧ nameAt h i = nm ∧
        strncmpPref mt (nameAt h i) = .eq := by
  intro n
  induction n with
  | zero =>
    intro c nm
    simp only [matchingNames, List.not_mem_nil, false_iff]
    rintro ⟨i, h1, h2, -, -⟩
    omega
  | succ n ih =>
    intro c nm
    simp only [matchingNames]
    by_cases hc : strncmpPref mt (nameAt h c) = .eq
    · rw [if_pos hc]
      simp only [List.mem_cons, ih]
      constructor
      · rintro (rfl | ⟨i, h1, h2, h3, h4⟩)
        · exact ⟨c, le_refl c, by omega, rfl, hc⟩
        · exact ⟨i, by omega, by omega, h3, h4⟩
      · rintro ⟨i, h1, h2, h3, h4⟩
        by_cases hic : i = c
        · subst hic
          exact Or.inl h3.symm
        · exact Or.inr ⟨i, by omega, by omega, h3, h4⟩
    · rw [if_neg hc, ih]
      constructor
      · rintro ⟨i, h1, h2, h3, h4⟩
        exact ⟨i, by omega, by omega, h3, h4⟩
      · rintro ⟨i, h1, h2, h3, h4⟩
        refine ⟨i, ?_, by omega, h3, h4⟩
        by_cases hic : i = c
        · subst hic
          exact absurd h4 hc
        · omega

theorem matchingNames_nodup (h : GsdHandle) (mt : List Nat)
    (hsort : ∀ j, j < h.namelist_written_entries → ∀ i, i < j →
      strcmpList (nameAt h i) (nameAt h j) = .lt) :
    ∀ n c, c + n ≤ h.namelist_written_entries →
      (matchingNames h mt n c).Nodup := by
  intro n
  induction n with
  | zero =>
    intro c _
    exact List.nodup_nil
  | succ n ih =>
    intro c hcn
    simp only [matchingNames]
    by_cases hc : strncmpPref mt (nameAt h c) = .eq
    · rw [if_pos hc, List.nodup_cons]
      refine ⟨?_, ih (c + 1) (by omega)⟩
      intro hmem
      rcases (matchingNames_mem h mt n (c + 1) (nameAt h c)).mp hmem with
        ⟨i, h1, h2, h3, -⟩
      have hlt := hsort i (by omega) c (by omega)
      rw [h3, strcmpList_self] at hlt
      cases hlt
    · rw [if_neg hc]
      exact ih (c + 1) (by omega)

theorem iterMatch_from (h : GsdHandle) (mt : List Nat)
    (hsort : ∀ j, j < h.namelist_written_entries → ∀ i, i < j →
      strcmpList (nameAt h i) (nameAt h j) = .lt)
    (hpf : ∀ i, i < h.namelist_written_entries →
      ∀ j, j < h.namelist_written_entries → i ≠ j →
      ¬ (nameAt h i <+: nameAt h j)) :
    ∀ n fuel p, p < h.namelist_written_entries →
      h.namelist_written_entries - (p + 1) ≤ n → n < fuel →
      iterMatch h mt fuel (some (nameAt h p))
        = matchingNames h mt (h.namelist_written_entries - (p + 1))
            (p + 1) := by
  intro n
  induction n with
  | zero =>
    intro fuel p hp hn hf
    cases fuel with
    | zero => omega
    | succ fuel =>
      have hfm : gsd_find_matching_chunk_name (some h) (some mt)
          (some (nameAt h p)) = none := by
        simp only [gsd_find_matching_chunk_name,
          gsd_find_name_at h p hsort hpf hp]
        rw [if_neg (show ¬ h.namelist_written_entries = 0 by omega)]
        exact gsd_scan_names_none h mt _ _ (fun j hj hjW _ => by omega)
      simp only [iterMatch, hfm]
      rw [show h.namelist_written_entries - (p + 1) = 0 by omega]
      rfl
  | succ n ih =>
    intro fuel p hp hn hf
    cases fuel with
    | zero => omega
    | succ fuel =>
      by_cases hm : ∀ j, p + 1 ≤ j → j < h.namelist_written_entries →
          strncmpPref mt (nameAt h j) ≠ .eq
      · have hfm : gsd_find_matching_chunk_name (some h) (some mt)
            (some (nameAt h p)) = none := by
          simp only [gsd_find_matching_chunk_name,
            gsd_find_name_at h p hsort hpf hp]
          rw [if_neg (show ¬ h.namelist_written_entries = 0 by omega)]
          exact gsd_scan_names_none h mt _ _ hm
        simp only [iterMatch, hfm]
        rw [matchingNames_nil h mt _ _ (fun j hj hjn => hm j hj (by omega))]
      · have hm' : ∃ j, p + 1 ≤ j ∧ j < h.namelist_written_entries ∧
            strncmpPref mt (nameAt h j) = .eq := by
          push_neg at hm
          exact hm
        have hqspec := Nat.find_spec hm'
        have hqmin : ∀ m, m < Nat.find hm' →
            ¬(p + 1 ≤ m ∧ m < h.namelist_written_entries ∧
              strncmpPref mt (nameAt h m) = .eq) :=
          fun m hm2 => Nat.find_min hm' hm2
        have hbefore : ∀ j, p + 1 ≤ j → j < Nat.find hm' →
            strncmpPref mt (nameAt h j) ≠ .eq := by
          intro j hj hjq heq
          exact hqmin j hjq ⟨hj, by omega, heq⟩
        have hfm : gsd_find_matching_chunk_name (some h) (some mt)
            (some (nameAt h p)) = some (nameAt h (Nat.find hm')) := by
          simp only [gsd_find_matching_chunk_name,
            gsd_find_name_at h p hsort hpf hp]
          rw [if_neg (show ¬ h.namelist_written_entries = 0 by omega)]
          exact gsd_scan_names_finds h mt _ (p + 1) (Nat.find hm')
            hqspec.1 hqspec.2.1 (by omega) hqspec.2.2 hbefore
        simp only [iterMatch, hfm]
        rw [matchingNames_split h mt (h.namelist_written_entries - (p + 1))
          (p + 1) (Nat.find hm') hqspec.1 (by omega) hqspec.2.2 hbefore]
        rw [show p + 1 + (h.namelist_written_entries - (p + 1))
          - (Nat.find hm' + 1)
          = h.namelist_written_entries - (Nat.find hm' + 1) by omega]
        rw [ih fuel (Nat.find hm') hqspec.2.1 (by omega) (by omega)]

/-- C8 amended: when the committed name cache is sorted and no committed name
is a prefix of another, iterating gsd_find_matching_chunk_name(match, prev) —
starting with prev = NULL and feeding each returned name back as prev until
it returns NULL — yields exactly the committed names whose first
strlen(match) bytes equal match, in cache order, each exactly once; every
such name has match as a prefix.  (Without the prefix-freedom condition the
iteration can skip matching names, as the counterexample shows.) -/
theorem claim_C8_amended (h : GsdHandle) (mt : List Nat)
    (hsort : ∀ j, j < h.namelist_written_entries → ∀ i, i < j →
      strcmpList (nameAt h i) (nameAt h j) = .lt)
    (hpf : ∀ i, i < h.namelist_written_entries →
      ∀ j, j < h.namelist_written_entries → i ≠ j →
      ¬ (nameAt h i <+: nameAt h j)) :
    iterMatch h mt (h.namelist_written_entries + 1) none
      = matchingNames h mt h.namelist_written_entries 0 ∧
    (∀ nm, nm ∈ matchingNames h mt h.namelist_written_entries 0 ↔
      ∃ i, i < h.namelist_written_entries ∧ nameAt h i = nm ∧ mt <+: nm) ∧
    (matchingNames h mt h.namelist_written_entries 0).Nodup := by
  refine ⟨?_, ?_, matchingNames_nodup h mt hsort _ 0 (by omega)⟩
  · by_cases hW0 : h.namelist_written_entries = 0
    · have hfm : gsd_find_matching_chunk_name (some h) (some mt) none
          = none := by
        simp only [gsd_find_matching_chunk_name]
        rw [if_pos hW0]
      simp only [iterMatch, hfm]
      rw [hW0]
      rfl
    · by_cases hm : ∀ j, 0 ≤ j → j < h.namelist_written_entries →
          strncmpPref mt (nameAt h j) ≠ .eq
      · have hfm : gsd_find_matching_chunk_name (some h) (some mt) none
            = none := by
          simp only [gsd_find_matching_chunk_name]
          rw [if_neg hW0]
          exact gsd_scan_names_none h mt _ _ hm
        simp only [iterMatch, hfm]
        rw [matchingNames_nil h mt _ _ (fun j hj hjn => hm j hj (by omega))]
      · have hm' : ∃ j, 0 ≤ j ∧ j < h.namelist_written_entries ∧
            strncmpPref mt (nameAt h j) = .eq := by
          push_neg at hm
          exact hm
        have hqspec := Nat.find_spec hm'
        have hqmin : ∀ m, m < Nat.find hm' →
            ¬(0 ≤ m ∧ m < h.namelist_written_entries ∧
              strncmpPref mt (nameAt h m) = .eq) :=
          fun m hm2 => Nat.find_min hm' hm2
        have hbefore : ∀ j, 0 ≤ j → j < Nat.find hm' →
            strncmpPref mt (nameAt h j) ≠ .eq := by
          intro j hj hjq heq
          exact hqmin j hjq ⟨hj, by omega, heq⟩
        have hfm : gsd_find_matching_chunk_name (some h) (some mt) none
            = some (nameAt h (Nat.find hm')) := by
          simp only [gsd_find_matching_chunk_name]
          rw [if_neg hW0]
          exact gsd_scan_names_finds h mt _ 0 (Nat.find hm')
            hqspec.1 hqspec.2.1 (by omega) hqspec.2.2 hbefore
        simp only [iterMatch, hfm]
        rw [matchingNames_split h mt h.namelist_written_entries 0
          (Nat.find hm') hqspec.1 (by omega) hqspec.2.2 hbefore]
        rw [show 0 + h.namelist_written_entries - (Nat.find hm' + 1)
          = h.namelist_written_entries - (Nat.find hm' + 1) by omega]
        rw [iterMatch_from h mt hsort hpf
          (h.namelist_written_entries - (Nat.find hm' + 1))
          h.namelist_written_entries (Nat.find hm') hqspec.2.1
          (le_refl _) (by omega)]
  · intro nm
    rw [matchingNames_mem h mt h.namelist_written_entries 0 nm]
    constructor
    · rintro ⟨i, -, h2, h3, h4⟩
      rw [h3] at h4
      exact ⟨i, by omega, h3, (strncmpPref_eq_iff _ _).mp h4⟩
    · rintro ⟨i, h1, h3, h4⟩
      refine ⟨i, by omega, by omega, h3, ?_⟩
      rw [h3]
      exact (strncmpPref_eq_iff _ _).mpr h4

/-- C8 amended witness: on a handle with committed prefix-free names a, x
and z, iterating with match "x" yields exactly [x]. -/
theorem claim_C8_amended_witness :
    iterMatch wit8_h [120] (wit8_h.namelist_written_entries + 1) none
      = matchingNames wit8_h [120] wit8_h.namelist_written_entries 0 ∧
    (∀ nm, nm ∈ matchingNames wit8_h [120]
        wit8_h.namelist_written_entries 0 ↔
      ∃ i, i < wit8_h.namelist_written_entries ∧ nameAt wit8_h i = nm ∧
        [120] <+: nm) ∧
    (matchingNames wit8_h [120] wit8_h.namelist_written_entries 0).Nodup :=
  claim_C8_amended wit8_h [120] (by decide) (by decide)

theorem gsd_find_chunk_scan_all_ne (h : GsdHandle) (f id : Nat) :
    ∀ cur, (∀ j, j ≤ cur → (h.index.getD j zeroEntry).frame = f →
      (h.index.getD j zeroEntry).id ≠ id) →
    gsd_find_chunk_scan h f id cur = none := by
  intro cur
  induction cur with
  | zero =>
    intro hno
    simp only [gsd_find_chunk_scan]
    by_cases hf : (h.index.getD 0 zeroEntry).frame = f
    · rw [if_pos hf, if_neg (hno 0 (le_refl 0) hf)]
    · rw [if_neg hf]
  | succ cur ih =>
    intro hno
    simp only [gsd_find_chunk_scan]
    by_cases hf : (h.index.getD (cur + 1) zeroEntry).frame = f
    · rw [if_pos hf, if_neg (hno (cur + 1) (le_refl _) hf)]
      exact ih (fun j hj hjf => hno j (by omega) hjf)
    · rw [if_neg hf]

/-- C2 amended: on a non-append handle whose staged index entries all carry
the current frame and whose committed entries have nondecreasing frames,
gsd_find_chunk(frame, name) with frame < gsd_get_nframes returns NULL if and
only if, whenever the name lookup resolves an id (the lookup compares only
strlen(name) bytes of the committed names, so it can resolve through a
longer committed name that merely extends name), no index entry committed by
the last gsd_end_frame carries that frame and that id.  The original
claim's condition — no gsd_write_chunk call with that name in that frame —
is neither necessary nor sufficient, as the counterexample shows. -/
theorem claim_C2_amended (h : GsdHandle) (frame : Nat) (name : List Nat)
    (hmode : h.open_flags ≠ .append)
    (hfr : frame < gsd_get_nframes h)
    (hw0 : h.index_num_entries = 0 → h.namelist_written_entries = 0)
    (hstg : ∀ j, j < h.index_num_entries → h.index_written_entries ≤ j →
      (h.index.getD j zeroEntry).frame = gsd_get_nframes h)
    (hwn : h.index_written_entries ≤ h.index_num_entries)
    (hmono : ∀ j, j < h.index_num_entries → ∀ i, i ≤ j →
      (h.index.getD i zeroEntry).frame ≤ (h.index.getD j zeroEntry).frame) :
    gsd_find_chunk (some h) frame (some name) = none ↔
      ∀ id, gsd_get_id h name = some id →
        ∀ j, j < h.index_written_entries →
          ¬((h.index.getD j zeroEntry).frame = frame
            ∧ (h.index.getD j zeroEntry).id = id) := by
  simp only [gsd_find_chunk]
  rw [if_neg (show ¬ gsd_get_nframes h ≤ frame by omega), if_neg hmode]
  rcases hid : gsd_get_id h name with _ | id
  · simp only
    constructor
    · intro _ id hsome
      cases hsome
    · intro _
      trivial
  · by_cases hnum : h.index_num_entries = 0
    · exfalso
      have hwz := hw0 hnum
      unfold gsd_get_id gsd_find_name at hid
      rw [if_pos hwz] at hid
      simp at hid
    · have hbnum : gsd_find_chunk_loop h frame (h.index_num_entries + 1) 0
          h.index_num_entries < h.index_num_entries :=
        gsd_find_chunk_loop_lt h frame _ 0 _ (by omega)
      simp only
      constructor
      · intro hnone id' hsome j hjw hbad
        injection hsome with hide
        subst hide
        rcases hbad with ⟨hjf, hjid⟩
        -- the greatest position in the frame block
        have hex : (h.index.getD j zeroEntry).frame = frame := hjf
        set P : Nat → Prop :=
          fun k => (h.index.getD k zeroEntry).frame = frame with hP
        have hjn : j ≤ h.index_num_entries - 1 := by omega
        have hPb : P (Nat.findGreatest P (h.index_num_entries - 1)) :=
          Nat.findGreatest_spec hjn hex
        set b0 := Nat.findGreatest P (h.index_num_entries - 1) with hb0
        have hb0le : b0 ≤ h.index_num_entries - 1 :=
          Nat.findGreatest_le _
        have hjb0 : j ≤ b0 := by
          by_contra hgt
          have hnPj : ¬ P j :=
            Nat.findGreatest_is_greatest (by omega) hjn
          exact hnPj hex
        have habove : ∀ i, b0 < i → i < h.index_num_entries →
            frame < (h.index.getD i zeroEntry).frame := by
          intro i hbi hin
          have hnP : ¬ P i :=
            Nat.findGreatest_is_greatest hbi (by omega)
          have hge := hmono i hin b0 (by omega)
          rw [hPb] at hge
          rcases Nat.lt_or_ge frame (h.index.getD i zeroEntry).frame with
            hlt | hge2
          · exact hlt
          · exact absurd (by omega : (h.index.getD i zeroEntry).frame
              = frame) hnP
        have hloop := gsd_find_chunk_loop_finds h frame b0
          h.index_num_entries (by omega) hPb habove
          (fun i j2 hij hj2 => hmono j2 hj2 i hij)
          (h.index_num_entries + 1) 0 h.index_num_entries
          (by omega) (by omega) (by omega) (le_refl _)
        rw [hloop] at hnone
        have hblock : ∀ i, j ≤ i → i ≤ b0 →
            (h.index.getD i zeroEntry).frame = frame := by
          intro i hji hib
          have h1 := hmono i (by omega) j hji
          have h2 := hmono b0 (by omega) i hib
          rw [hjf] at h1
          rw [hPb] at h2
          omega
        rcases gsd_find_chunk_scan_finds h frame id j b0 hjb0 hblock
          ⟨j, le_refl j, hjb0, hjid⟩ with ⟨e, j2, hscan, -, -, -⟩
        rw [hscan] at hnone
        cases hnone
      · intro hglob
        apply gsd_find_chunk_scan_all_ne
        intro j hjb hjf hjid
        by_cases hjw : j < h.index_written_entries
        · exact hglob id rfl j hjw ⟨hjf, hjid⟩
        · have hjn : j < h.index_num_entries := by omega
          have := hstg j hjn (by omega)
          omega

/-- C2 amended witness: one committed chunk named x in frame 0; the lookup
of "x" resolves id 0 and the committed entry for frame 0 carries it, so
find_chunk is non-NULL and the characterization holds. -/
theorem claim_C2_amended_witness :
    gsd_find_chunk (some wit2_h) 0 (some [120]) = none ↔
      ∀ id, gsd_get_id wit2_h [120] = some id →
        ∀ j, j < wit2_h.index_written_entries →
          ¬((wit2_h.index.getD j zeroEntry).frame = 0
            ∧ (wit2_h.index.getD j zeroEntry).id = id) :=
  claim_C2_amended wit2_h 0 [120] (by decide) (by decide) (by decide)
    (by decide) (by decide) (by decide)

/-! The session invariant: base case on a freshly created read-write file. -/

theorem SInv_init (a s : List Nat) (v : Nat) :
    SInv (gsd_initialize_file a s v) (gsd_init_handle a s v .readwrite)
      [] [] := by
  refine {
    hdr_eq := rfl
    magic_eq := rfl
    ver_eq := rfl
    nlal_eq := rfl
    al_ge := by simp [gsd_init_handle, gsd_initialize_file]
    nn_chunks := le_refl _
    iblk_len := by simp [gsd_init_handle, gsd_initialize_file]
    nlblk_len := by simp [gsd_init_handle, gsd_initialize_file]
    hnl_len := by simp [gsd_init_handle, gsd_initialize_file]
    iw_eq := rfl
    inum_eq := rfl
    inum_le := by simp [gsd_init_handle, gsd_initialize_file]
    nn_le := by simp [gsd_init_handle, gsd_initialize_file]
    nw_le := le_refl _
    fsz_eq := rfl
    size_lb := by
      simp only [gsd_initialize_file]
      omega
    ibound := by
      norm_num [gsd_init_handle, gsd_initialize_file, gsd_header_size,
        gsd_index_entry_size, gsd_namelist_entry_size,
        GSD_INITIAL_INDEX_SIZE, GSD_INITIAL_NAMELIST_SIZE]
    nbound := by
      norm_num [gsd_init_handle, gsd_initialize_file, gsd_header_size,
        gsd_index_entry_size, gsd_namelist_entry_size,
        GSD_INITIAL_INDEX_SIZE, GSD_INITIAL_NAMELIST_SIZE]
    disk_com := rfl
    disk_zero := by
      intro e he
      simp [gsd_init_handle, gsd_initialize_file, List.mem_replicate] at he
      exact he.2
    mem_rw := by
      intro _
      refine ⟨by simp [gsd_init_handle, gsd_initialize_file],
        by simp [gsd_init_handle], ?_⟩
      intro e he
      simp [gsd_init_handle, List.mem_replicate] at he
      exact he.2
    mem_ap := by
      intro hap
      cases hap
    nl_disk := by simp [gsd_init_handle]
    nl_disk_zero := by
      intro nm hnm
      simp [gsd_init_handle, gsd_initialize_file, List.mem_replicate] at hnm
      exact hnm.2
    nl_tail_zero := by
      intro nm hnm
      simp [gsd_init_handle, List.mem_replicate] at hnm
      exact hnm.2
    an_wf := by
      intro i hi
      simp [gsd_init_handle] at hi
    an_inj := by
      intro i j hi _ _
      simp [gsd_init_handle] at hi
    names_len := rfl
    names_srt := by
      intro i j _ hj
      simp [gsd_init_handle] at hj
    names_permw := by
      simp [gsd_init_handle]
    names_tail := by
      simp [gsd_init_handle]
    com_frames := by
      intro i j _ hj
      simp at hj
    com_lt := by
      intro c hc
      simp at hc
    stg_frame := by
      intro c hc
      simp at hc
    com_id_w := by
      intro c hc
      simp at hc
    chunk_wf := by
      intro c hc
      simp at hc
    an_from := by
      intro i hi
      simp [gsd_init_handle] at hi
    stg_an := by
      intro i hwi hi
      simp [gsd_init_handle] at hi }

/-! Helper lemmas for the session-invariant step proofs. -/

theorem getD_mem {α : Type} (l : List α) (n : Nat) (d : α)
    (h : n < l.length) : l.getD n d ∈ l := by
  rw [List.getD_eq_getElem?_getD, List.getElem?_eq_getElem h]
  exact List.getElem_mem h

theorem CWf_congr (fs fs' : GsdFile) (h h' : GsdHandle) (c : CChunk)
    (hw : CWf fs h c)
    (hdata : ∀ j, j < c.g.bytes.length →
      fs'.data (c.e.location + j) = fs.data (c.e.location + j))
    (hsize : fs.size ≤ fs'.size)
    (hnn : c.e.id < h'.namelist_num_entries)
    (hname : h'.namelist.getD c.e.id [] = h.namelist.getD c.e.id []) :
    CWf fs' h' c :=
  { flags0 := hw.flags0, typ_ok := hw.typ_ok, no_wrap := hw.no_wrap,
    size_pos := hw.size_pos, bytes_len := hw.bytes_len, loc_lb := hw.loc_lb,
    in_file := le_trans hw.in_file hsize,
    data_eq := fun j hj => by rw [hdata j hj]; exact hw.data_eq j hj,
    id_lt := hnn,
    id_name := by rw [hname]; exact hw.id_name,
    fr_eq := hw.fr_eq, N_eq := hw.N_eq, M_eq := hw.M_eq,
    typ_eq := hw.typ_eq }

theorem gsd_end_frame_eq_rw11 (fs : GsdFile) (h : GsdHandle)
    (hro : ¬ h.open_flags = .readonly) (hnap : ¬ h.open_flags = .append)
    (hk : h.index_num_entries - h.index_written_entries > 0)
    (hd : h.namelist_num_entries - h.namelist_written_entries > 0) :
    gsd_end_frame fs h = .ok
      ({ fs with
          indexBlock := listWriteAt fs.indexBlock h.index_written_entries
            ((h.index.drop h.index_written_entries).take
              (h.index_num_entries - h.index_written_entries)),
          namelistBlock := listWriteAt fs.namelistBlock
            h.namelist_written_entries
            ((h.namelist.drop h.namelist_written_entries).take
              (h.namelist_num_entries - h.namelist_written_entries)) },
        { h with
          cur_frame := h.cur_frame + 1,
          index_written_entries := h.index_written_entries
            + (h.index_num_entries - h.index_written_entries),
          namelist_written_entries := h.namelist_num_entries,
          names := gsd_sort_name_id_pairs h.names }) := by
  simp only [gsd_end_frame]
  rw [if_neg hro, if_pos hk, if_pos hk, if_neg hnap]
  split
  · rfl
  · rename_i hc
    simp at hc
    omega

theorem gsd_end_frame_eq_rw10 (fs : GsdFile) (h : GsdHandle)
    (hro : ¬ h.open_flags = .readonly) (hnap : ¬ h.open_flags = .append)
    (hk : h.index_num_entries - h.index_written_entries > 0)
    (hd : h.namelist_num_entries - h.namelist_written_entries = 0) :
    gsd_end_frame fs h = .ok
      ({ fs with
          indexBlock := listWriteAt fs.indexBlock h.index_written_entries
            ((h.index.drop h.index_written_entries).take
              (h.index_num_entries - h.index_written_entries)) },
        { h with
          cur_frame := h.cur_frame + 1,
          index_written_entries := h.index_written_entries
            + (h.index_num_entries - h.index_written_entries) }) := by
  simp only [gsd_end_frame]
  rw [if_neg hro, if_pos hk, if_pos hk, if_neg hnap]
  split
  · rename_i hc
    simp at hc
    omega
  · rfl

theorem gsd_end_frame_eq_rw00 (fs : GsdFile) (h : GsdHandle)
    (hro : ¬ h.open_flags = .readonly)
    (hk : h.index_num_entries - h.index_written_entries = 0)
    (hd : h.namelist_num_entries - h.namelist_written_entries = 0) :
    gsd_end_frame fs h
      = .ok (fs, { h with cur_frame := h.cur_frame + 1 }) := by
  simp only [gsd_end_frame]
  rw [if_neg hro,
    if_neg (show ¬ h.index_num_entries - h.index_written_entries > 0
      by omega),
    if_neg (show ¬ h.index_num_entries - h.index_written_entries > 0
      by omega)]
  split
  · rename_i hc
    simp at hc
    omega
  · rfl

theorem getD_eq_get {α : Type} (l : List α) (i : Nat) (d : α)
    (h : i < l.length) : l.getD i d = l.get ⟨i, h⟩ := by
  rw [List.getD_eq_getElem?_getD, List.getElem?_eq_getElem h]
  rfl

theorem range'_split (s m n : Nat) :
    List.range' s (m + n) = List.range' s m ++ List.range' (s + m) n := by
  have h := List.range'_append_1 s m n
  rw [show n + m = m + n by omega] at h
  exact h.symm

theorem nlPair_injective (h : GsdHandle) : Function.Injective (nlPair h) := by
  intro a b heq
  have := congrArg GsdNameIdPair.id heq
  simpa [nlPair] using this

theorem gsd_sort_srt (l : List GsdNameIdPair) (hnd : l.Nodup)
    (hdist : ∀ p q, p ∈ l → q ∈ l → p ≠ q → p.name ≠ q.name) :
    ∀ i j, i < j → j < (gsd_sort_name_id_pairs l).length →
      strcmpList ((gsd_sort_name_id_pairs l).getD i default).name
        ((gsd_sort_name_id_pairs l).getD j default).name = .lt := by
  have hperm := insertionSort_perm gsd_cmp_name_id_pair l
  have hpw := insertionSort_pairwise gsd_cmp_name_id_pair gsd_cmp_trans
    gsd_cmp_total l
  have hnd' : (insertionSort gsd_cmp_name_id_pair l).Nodup :=
    (hperm.nodup_iff).mpr hnd
  intro i j hij hj
  simp only [gsd_sort_name_id_pairs] at hj ⊢
  have hi : i < (insertionSort gsd_cmp_name_id_pair l).length := by omega
  rw [getD_eq_get _ _ _ hi, getD_eq_get _ _ _ hj]
  have hR := List.pairwise_iff_get.mp hpw ⟨i, hi⟩ ⟨j, hj⟩ hij
  rw [gsd_cmp_eq_true_iff] at hR
  have hne : (insertionSort gsd_cmp_name_id_pair l).get ⟨i, hi⟩
      ≠ (insertionSort gsd_cmp_name_id_pair l).get ⟨j, hj⟩ := by
    intro heq
    have := (hnd'.get_inj_iff).mp heq
    have hval := congrArg Fin.val this
    simp at hval
    omega
  have hmem1 := hperm.mem_iff.mp (List.get_mem _ i hi)
  have hmem2 := hperm.mem_iff.mp (List.get_mem _ j hj)
  have hname_ne := hdist _ _ hmem1 hmem2 hne
  rcases hc : strcmpList
      ((insertionSort gsd_cmp_name_id_pair l).get ⟨i, hi⟩).name
      ((insertionSort gsd_cmp_name_id_pair l).get ⟨j, hj⟩).name with
    _ | _ | _
  · rfl
  · exact absurd ((strcmpList_eq_iff _ _).mp hc) hname_ne
  · exact absurd hc hR

theorem gsd_end_frame_sinv (fs : GsdFile) (h : GsdHandle)
    (com stg : List CChunk) (hinv : SInv fs h com stg)
    (hrw : h.open_flags = .readwrite) :
    ∃ fs' h', gsd_end_frame fs h = .ok (fs', h') ∧
      SInv fs' h' (com ++ stg) [] ∧
      h'.open_flags = .readwrite ∧
      h'.cur_frame = h.cur_frame + 1 := by
  have hro : ¬ h.open_flags = .readonly := by
    rw [hrw]
    intro hbad
    cases hbad
  have hnap : ¬ h.open_flags = .append := by
    rw [hrw]
    intro hbad
    cases hbad
  obtain ⟨hilen, hmtake, hmzero⟩ := hinv.mem_rw hnap
  have hiw := hinv.iw_eq
  have hinum := hinv.inum_eq
  have hfit : h.index_written_entries + (stg.map (·.e)).length
      ≤ fs.indexBlock.length := by
    have h1 := hinv.iblk_len
    have h2 := hinv.inum_le
    simp only [List.length_map]
    omega
  have hwsum : h.index_written_entries + (stg.map (·.e)).length
      = h.index_num_entries := by
    simp only [List.length_map]
    omega
  have hdropw : (h.index.drop h.index_written_entries).take
      (h.index_num_entries - h.index_written_entries) = stg.map (·.e) := by
    rw [List.take_drop, show h.index_written_entries
      + (h.index_num_entries - h.index_written_entries)
      = h.index_num_entries by omega, hmtake, hiw]
    rw [show com.length = (com.map (·.e)).length by simp]
    exact List.drop_left _ _
  have hnames_perm : h.names.Perm
      ((List.range h.namelist_num_entries).map (nlPair h)) := by
    have hsplit : h.names = h.names.take h.namelist_written_entries
        ++ h.names.drop h.namelist_written_entries :=
      (List.take_append_drop _ _).symm
    rw [hsplit, hinv.names_tail]
    have hr := range'_split 0 h.namelist_written_entries
      (h.namelist_num_entries - h.namelist_written_entries)
    rw [show h.namelist_written_entries + (h.namelist_num_entries
      - h.namelist_written_entries) = h.namelist_num_entries from by
      have := hinv.nw_le
      omega] at hr
    simp only [Nat.zero_add] at hr
    have hw := hinv.names_permw
    rw [List.range_eq_range'] at hw
    rw [List.range_eq_range', hr, List.map_append]
    exact hw.append (List.Perm.refl _)
  have hnames_nodup : h.names.Nodup :=
    (hnames_perm.nodup_iff).mpr
      (List.Nodup.map (nlPair_injective h) (List.nodup_range _))
  have hpair_mem : ∀ p ∈ h.names, ∃ ip, ip < h.namelist_num_entries ∧
      p = nlPair h ip := by
    intro p hp
    have hm := hnames_perm.mem_iff.mp hp
    rcases List.mem_map.mp hm with ⟨ip, hip, heq⟩
    exact ⟨ip, List.mem_range.mp hip, heq.symm⟩
  have hnames_dist : ∀ p q, p ∈ h.names → q ∈ h.names → p ≠ q →
      p.name ≠ q.name := by
    intro p q hp hq hne heqname
    rcases hpair_mem p hp with ⟨ip, hip, rfl⟩
    rcases hpair_mem q hq with ⟨iq, hiq, rfl⟩
    have hipq : ip ≠ iq := by
      intro hh
      exact hne (by rw [hh])
    apply hinv.an_inj ip iq hip hiq hipq
    have heq2 : h.namelist.getD ip [] = h.namelist.getD iq [] := heqname
    rw [heq2]
  have hsortlen : (gsd_sort_name_id_pairs h.names).length
      = h.namelist_num_entries := by
    simp only [gsd_sort_name_id_pairs]
    rw [(insertionSort_perm gsd_cmp_name_id_pair h.names).length_eq]
    exact hinv.names_len
  have hcwf : ∀ c ∈ com ++ stg, CWf fs h c := hinv.chunk_wf
  by_cases hstg0 : stg = []
  · -- no staged entries: end_frame only bumps the frame counter
    subst hstg0
    have hinum' : h.index_num_entries = com.length := by simpa using hinum
    have hnw0 : h.namelist_num_entries = h.namelist_written_entries := by
      by_contra hne
      have hlt : h.namelist_written_entries < h.namelist_num_entries := by
        have := hinv.nw_le
        omega
      obtain ⟨c, hc, -⟩ := hinv.stg_an h.namelist_written_entries
        (le_refl _) hlt
      cases hc
    refine ⟨fs, { h with cur_frame := h.cur_frame + 1 },
      gsd_end_frame_eq_rw00 fs h hro (by omega) (by omega), ?_, hrw, rfl⟩
    rw [List.append_nil]
    exact {
      hdr_eq := hinv.hdr_eq, magic_eq := hinv.magic_eq,
      ver_eq := hinv.ver_eq, nlal_eq := hinv.nlal_eq, al_ge := hinv.al_ge,
      nn_chunks := by
        have hx := hinv.nn_chunks
        simp only [List.length_nil] at hx ⊢
        omega
      iblk_len := hinv.iblk_len, nlblk_len := hinv.nlblk_len,
      hnl_len := hinv.hnl_len, iw_eq := hinv.iw_eq,
      inum_eq := by
        show h.index_num_entries = com.length + ([] : List CChunk).length
        simpa using hinum
      inum_le := hinv.inum_le, nn_le := hinv.nn_le, nw_le := hinv.nw_le,
      fsz_eq := hinv.fsz_eq, size_lb := hinv.size_lb,
      ibound := hinv.ibound, nbound := hinv.nbound,
      disk_com := hinv.disk_com, disk_zero := hinv.disk_zero,
      mem_rw := fun _ => ⟨hilen, hmtake, hmzero⟩,
      mem_ap := by
        intro hap
        have hap' : h.open_flags = .append := hap
        exact absurd hap' hnap
      nl_disk := hinv.nl_disk, nl_disk_zero := hinv.nl_disk_zero,
      nl_tail_zero := hinv.nl_tail_zero, an_wf := hinv.an_wf,
      an_inj := hinv.an_inj, names_len := hinv.names_len,
      names_srt := hinv.names_srt, names_permw := hinv.names_permw,
      names_tail := hinv.names_tail, com_frames := hinv.com_frames,
      com_lt := fun c hc => Nat.lt_succ_of_lt (hinv.com_lt c hc),
      stg_frame := fun c hc => absurd hc (List.not_mem_nil c),
      com_id_w := hinv.com_id_w,
      chunk_wf := fun c hc =>
        CWf_congr fs fs h _ c (hcwf c hc) (fun _ _ => rfl) (le_refl _)
          (hcwf c hc).id_lt rfl,
      an_from := hinv.an_from,
      stg_an := by
        intro i h1 h2
        have h3 : h.namelist_written_entries ≤ i := h1
        have h4 : i < h.namelist_num_entries := h2
        omega }
  · -- staged entries exist
    have hsl : 0 < stg.length := List.length_pos.mpr hstg0
    have hkpos : h.index_num_entries - h.index_written_entries > 0 := by
      omega
    have hnddrop : ∀ n, n ≤ h.index_num_entries →
        ∀ e ∈ (listWriteAt fs.indexBlock h.index_written_entries
          (stg.map (·.e))).drop h.index_num_entries, e = zeroEntry := by
      intro n _ e he
      rw [listWriteAt_drop _ _ _ _ hfit (by omega)] at he
      exact hinv.disk_zero e he
    have hdcom : (listWriteAt fs.indexBlock h.index_written_entries
        (stg.map (·.e))).take (h.index_written_entries
          + (h.index_num_entries - h.index_written_entries))
        = (com ++ stg).map (·.e) := by
      rw [show h.index_written_entries
          + (h.index_num_entries - h.index_written_entries)
        = h.index_written_entries + (stg.map (·.e)).length from by
        simp only [List.length_map]
        omega]
      rw [listWriteAt_take fs.indexBlock _ _ hfit, hinv.disk_com,
        List.map_append]
    have hlwlen : (listWriteAt fs.indexBlock h.index_written_entries
        (stg.map (·.e))).length = fs.indexBlock.length :=
      listWriteAt_length _ _ _ hfit
    by_cases hd0 : h.namelist_num_entries = h.namelist_written_entries
    · -- new index entries but no new names
      refine ⟨_, _, gsd_end_frame_eq_rw10 fs h hro hnap hkpos (by omega),
        ?_, hrw, rfl⟩
      refine {
        hdr_eq := hinv.hdr_eq, magic_eq := hinv.magic_eq,
        ver_eq := hinv.ver_eq, nlal_eq := hinv.nlal_eq, al_ge := hinv.al_ge,
        nn_chunks := by
          have hx := hinv.nn_chunks
          simp only [List.length_append, List.length_nil] at hx ⊢
          omega
        iblk_len := by
          show (listWriteAt fs.indexBlock h.index_written_entries
            ((h.index.drop h.index_written_entries).take
              (h.index_num_entries - h.index_written_entries))).length
            = h.header.index_allocated_entries
          rw [hdropw, hlwlen]
          exact hinv.iblk_len
        nlblk_len := hinv.nlblk_len, hnl_len := hinv.hnl_len,
        iw_eq := by
          show h.index_written_entries
            + (h.index_num_entries - h.index_written_entries)
            = (com ++ stg).length
          simp only [List.length_append]
          omega
        inum_eq := by
          show h.index_num_entries
            = (com ++ stg).length + ([] : List CChunk).length
          simp only [List.length_append, List.length_nil]
          omega
        inum_le := hinv.inum_le, nn_le := hinv.nn_le,
        nw_le := hinv.nw_le, fsz_eq := hinv.fsz_eq, size_lb := hinv.size_lb,
        ibound := hinv.ibound, nbound := hinv.nbound,
        disk_com := by
          show (listWriteAt fs.indexBlock h.index_written_entries
            ((h.index.drop h.index_written_entries).take
              (h.index_num_entries - h.index_written_entries))).take
            (h.index_written_entries
              + (h.index_num_entries - h.index_written_entries))
            = (com ++ stg).map (·.e)
          rw [hdropw]
          exact hdcom
        disk_zero := by
          intro e he
          have he' : e ∈ (listWriteAt fs.indexBlock h.index_written_entries
              ((h.index.drop h.index_written_entries).take
                (h.index_num_entries - h.index_written_entries))).drop
              h.index_num_entries := he
          rw [hdropw] at he'
          exact hnddrop h.index_num_entries (le_refl _) e he'
        mem_rw := by
          intro _
          refine ⟨hilen, ?_, hmzero⟩
          show h.index.take h.index_num_entries
            = (com ++ stg).map (·.e) ++ ([] : List CChunk).map (·.e)
          rw [hmtake, List.map_append]
          simp
        mem_ap := by
          intro hap
          have hap' : h.open_flags = .append := hap
          exact absurd hap' hnap
        nl_disk := hinv.nl_disk, nl_disk_zero := hinv.nl_disk_zero,
        nl_tail_zero := hinv.nl_tail_zero, an_wf := hinv.an_wf,
        an_inj := hinv.an_inj, names_len := hinv.names_len,
        names_srt := hinv.names_srt, names_permw := hinv.names_permw,
        names_tail := hinv.names_tail,
        com_frames := by
          intro i j hij hj
          show ((com ++ stg).getD i default).e.frame
            ≤ ((com ++ stg).getD j default).e.frame
          have hj' : j < (com ++ stg).length := hj
          rw [List.length_append] at hj'
          have hfr_i : ((com ++ stg).getD i default).e.frame
              ≤ h.cur_frame := by
            by_cases hic : i < com.length
            · rw [getD_append_left _ _ _ _ hic]
              exact le_of_lt (hinv.com_lt _ (getD_mem _ _ _ hic))
            · rw [getD_append_right _ _ _ _ (by omega)]
              rw [hinv.stg_frame _ (getD_mem _ _ _ (by omega))]
          by_cases hjc : j < com.length
          · rw [getD_append_left com stg j default hjc,
              getD_append_left com stg i default (by omega)]
            exact hinv.com_frames i j hij hjc
          · rw [getD_append_right com stg j default (by omega),
              hinv.stg_frame _ (getD_mem _ _ _ (by omega))]
            exact hfr_i
        com_lt := by
          intro c hc
          show c.e.frame < h.cur_frame + 1
          rcases List.mem_append.mp hc with hc | hc
          · exact Nat.lt_succ_of_lt (hinv.com_lt c hc)
          · rw [hinv.stg_frame c hc]
            omega
        stg_frame := fun c hc => absurd hc (List.not_mem_nil c),
        com_id_w := by
          intro c hc
          show c.e.id < h.namelist_written_entries
          rcases List.mem_append.mp hc with hc | hc
          · exact hinv.com_id_w c hc
          · have := (hcwf c (List.mem_append.mpr (Or.inr hc))).id_lt
            omega
        chunk_wf := by
          intro c hc
          have hc' : c ∈ com ++ stg := by simpa using hc
          exact CWf_congr fs _ h _ c (hcwf c hc') (fun _ _ => rfl)
            (le_refl _) (hcwf c hc').id_lt rfl
        an_from := by
          intro i hi
          rcases hinv.an_from i hi with ⟨c, hc, hn⟩
          exact ⟨c, by simpa using hc, hn⟩
        stg_an := by
          intro i h1 h2
          have h3 : h.namelist_written_entries ≤ i := h1
          have h4 : i < h.namelist_num_entries := h2
          omega }
    · -- new index entries and new names
      have hdpos : h.namelist_num_entries - h.namelist_written_entries
          > 0 := by
        have := hinv.nw_le
        omega
      have hnlfit : h.namelist_written_entries
          + ((h.namelist.drop h.namelist_written_entries).take
            (h.namelist_num_entries - h.namelist_written_entries)).length
          ≤ fs.namelistBlock.length := by
        simp only [List.length_take, List.length_drop]
        have h1 := hinv.hnl_len
        have h2 := hinv.nn_le
        have h3 := hinv.nlblk_len
        omega
      have hnlsum : h.namelist_written_entries
          + ((h.namelist.drop h.namelist_written_entries).take
            (h.namelist_num_entries - h.namelist_written_entries)).length
          = h.namelist_num_entries := by
        simp only [List.length_take, List.length_drop]
        have h1 := hinv.hnl_len
        have h2 := hinv.nn_le
        have h3 := hinv.nw_le
        have h4 := hinv.nlal_eq
        omega
      have hnltake : (listWriteAt fs.namelistBlock h.namelist_written_entries
          ((h.namelist.drop h.namelist_written_entries).take
            (h.namelist_num_entries - h.namelist_written_entries))).take
          h.namelist_num_entries
          = h.namelist.take h.namelist_num_entries := by
        have hlw := listWriteAt_take fs.namelistBlock
          h.namelist_written_entries
          ((h.namelist.drop h.namelist_written_entries).take
            (h.namelist_num_entries - h.namelist_written_entries)) hnlfit
        rw [hnlsum] at hlw
        rw [hlw, hinv.nl_disk, ← List.take_add]
        congr 1
        have := hinv.nw_le
        omega
      have hnldrop : (listWriteAt fs.namelistBlock
          h.namelist_written_entries
          ((h.namelist.drop h.namelist_written_entries).take
            (h.namelist_num_entries - h.namelist_written_entries))).drop
          h.namelist_num_entries
          = fs.namelistBlock.drop h.namelist_num_entries :=
        listWriteAt_drop _ _ _ _ hnlfit (by omega)
      refine ⟨_, _, gsd_end_frame_eq_rw11 fs h hro hnap hkpos (by omega),
        ?_, hrw, rfl⟩
      refine {
        hdr_eq := hinv.hdr_eq, magic_eq := hinv.magic_eq,
        ver_eq := hinv.ver_eq, nlal_eq := hinv.nlal_eq, al_ge := hinv.al_ge,
        nn_chunks := by
          have hx := hinv.nn_chunks
          simp only [List.length_append, List.length_nil] at hx ⊢
          omega
        iblk_len := by
          show (listWriteAt fs.indexBlock h.index_written_entries
            ((h.index.drop h.index_written_entries).take
              (h.index_num_entries - h.index_written_entries))).length
            = h.header.index_allocated_entries
          rw [hdropw, hlwlen]
          exact hinv.iblk_len
        nlblk_len := by
          show (listWriteAt fs.namelistBlock h.namelist_written_entries
            ((h.namelist.drop h.namelist_written_entries).take
              (h.namelist_num_entries - h.namelist_written_entries))).length
            = h.header.namelist_allocated_entries
          rw [listWriteAt_length _ _ _ hnlfit]
          exact hinv.nlblk_len
        hnl_len := hinv.hnl_len,
        iw_eq := by
          show h.index_written_entries
            + (h.index_num_entries - h.index_written_entries)
            = (com ++ stg).length
          simp only [List.length_append]
          omega
        inum_eq := by
          show h.index_num_entries
            = (com ++ stg).length + ([] : List CChunk).length
          simp only [List.length_append, List.length_nil]
          omega
        inum_le := hinv.inum_le, nn_le := hinv.nn_le,
        nw_le := le_refl _,
        fsz_eq := hinv.fsz_eq, size_lb := hinv.size_lb,
        ibound := hinv.ibound, nbound := hinv.nbound,
        disk_com := by
          show (listWriteAt fs.indexBlock h.index_written_entries
            ((h.index.drop h.index_written_entries).take
              (h.index_num_entries - h.index_written_entries))).take
            (h.index_written_entries
              + (h.index_num_entries - h.index_written_entries))
            = (com ++ stg).map (·.e)
          rw [hdropw]
          exact hdcom
        disk_zero := by
          intro e he
          have he' : e ∈ (listWriteAt fs.indexBlock h.index_written_entries
              ((h.index.drop h.index_written_entries).take
                (h.index_num_entries - h.index_written_entries))).drop
              h.index_num_entries := he
          rw [hdropw] at he'
          exact hnddrop h.index_num_entries (le_refl _) e he'
        mem_rw := by
          intro _
          refine ⟨hilen, ?_, hmzero⟩
          show h.index.take h.index_num_entries
            = (com ++ stg).map (·.e) ++ ([] : List CChunk).map (·.e)
          rw [hmtake, List.map_append]
          simp
        mem_ap := by
          intro hap
          have hap' : h.open_flags = .append := hap
          exact absurd hap' hnap
        nl_disk := by
          show (listWriteAt fs.namelistBlock h.namelist_written_entries
            ((h.namelist.drop h.namelist_written_entries).take
              (h.namelist_num_entries - h.namelist_written_entries))).take
            h.namelist_num_entries
            = h.namelist.take h.namelist_num_entries
          exact hnltake
        nl_disk_zero := by
          intro nm hnm
          have hnm' : nm ∈ (listWriteAt fs.namelistBlock
              h.namelist_written_entries
              ((h.namelist.drop h.namelist_written_entries).take
                (h.namelist_num_entries - h.namelist_written_entries))).drop
              h.namelist_num_entries := hnm
          rw [hnldrop] at hnm'
          have hmem : nm ∈ fs.namelistBlock.drop
              h.namelist_written_entries := by
            have hdd : fs.namelistBlock.drop h.namelist_num_entries
                = (fs.namelistBlock.drop h.namelist_written_entries).drop
                  (h.namelist_num_entries - h.namelist_written_entries) := by
              rw [List.drop_drop]
              congr 1
              have := hinv.nw_le
              omega
            rw [hdd] at hnm'
            exact List.mem_of_mem_drop hnm'
          exact hinv.nl_disk_zero nm hmem
        nl_tail_zero := hinv.nl_tail_zero,
        an_wf := hinv.an_wf, an_inj := hinv.an_inj,
        names_len := by
          show (gsd_sort_name_id_pairs h.names).length
            = h.namelist_num_entries
          exact hsortlen
        names_srt := by
          intro i j hij hj
          have hj' : j < (gsd_sort_name_id_pairs h.names).length := by
            rw [hsortlen]
            exact hj
          exact gsd_sort_srt h.names hnames_nodup hnames_dist i j hij hj'
        names_permw := by
          show ((gsd_sort_name_id_pairs h.names).take
              h.namelist_num_entries).Perm
            ((List.range h.namelist_num_entries).map _)
          rw [List.take_of_length_le (le_of_eq hsortlen)]
          exact (insertionSort_perm gsd_cmp_name_id_pair
            h.names).trans hnames_perm
        names_tail := by
          show (gsd_sort_name_id_pairs h.names).drop h.namelist_num_entries
            = (List.range' h.namelist_num_entries
                (h.namelist_num_entries - h.namelist_num_entries)).map _
          rw [List.drop_of_length_le (le_of_eq hsortlen),
            show h.namelist_num_entries - h.namelist_num_entries = 0
              by omega]
          rfl
        com_frames := by
          intro i j hij hj
          show ((com ++ stg).getD i default).e.frame
            ≤ ((com ++ stg).getD j default).e.frame
          have hj' : j < (com ++ stg).length := hj
          rw [List.length_append] at hj'
          have hfr_i : ((com ++ stg).getD i default).e.frame
              ≤ h.cur_frame := by
            by_cases hic : i < com.length
            · rw [getD_append_left _ _ _ _ hic]
              exact le_of_lt (hinv.com_lt _ (getD_mem _ _ _ hic))
            · rw [getD_append_right _ _ _ _ (by omega)]
              rw [hinv.stg_frame _ (getD_mem _ _ _ (by omega))]
          by_cases hjc : j < com.length
          · rw [getD_append_left com stg j default hjc,
              getD_append_left com stg i default (by omega)]
            exact hinv.com_frames i j hij hjc
          · rw [getD_append_right com stg j default (by omega),
              hinv.stg_frame _ (getD_mem _ _ _ (by omega))]
            exact hfr_i
        com_lt := by
          intro c hc
          show c.e.frame < h.cur_frame + 1
          rcases List.mem_append.mp hc with hc | hc
          · exact Nat.lt_succ_of_lt (hinv.com_lt c hc)
          · rw [hinv.stg_frame c hc]
            omega
        stg_frame := fun c hc => absurd hc (List.not_mem_nil c),
        com_id_w := by
          intro c hc
          show c.e.id < h.namelist_num_entries
          rcases List.mem_append.mp hc with hc | hc
          · have h1 := hinv.com_id_w c hc
            have h2 := hinv.nw_le
            omega
          · exact (hcwf c (List.mem_append.mpr (Or.inr hc))).id_lt
        chunk_wf := by
          intro c hc
          have hc' : c ∈ com ++ stg := by simpa using hc
          exact CWf_congr fs _ h _ c (hcwf c hc') (fun _ _ => rfl)
            (le_refl _) (hcwf c hc').id_lt rfl
        an_from := by
          intro i hi
          rcases hinv.an_from i hi with ⟨c, hc, hn⟩
          exact ⟨c, by simpa using hc, hn⟩
        stg_an := by
          intro i h1 h2
          have h3 : h.namelist_num_entries ≤ i := h1
          have h4 : i < h.namelist_num_entries := h2
          omega }

/-! Name-cache facts derived from the session invariant. -/

theorem SInv_names_perm (fs : GsdFile) (h : GsdHandle) (com stg : List CChunk)
    (hinv : SInv fs h com stg) :
    h.names.Perm ((List.range h.namelist_num_entries).map (nlPair h)) := by
  have hsplit : h.names = h.names.take h.namelist_written_entries
      ++ h.names.drop h.namelist_written_entries :=
    (List.take_append_drop _ _).symm
  rw [hsplit, hinv.names_tail]
  have hr := range'_split 0 h.namelist_written_entries
    (h.namelist_num_entries - h.namelist_written_entries)
  rw [show h.namelist_written_entries + (h.namelist_num_entries
    - h.namelist_written_entries) = h.namelist_num_entries from by
    have := hinv.nw_le
    omega] at hr
  simp only [Nat.zero_add] at hr
  have hw := hinv.names_permw
  rw [List.range_eq_range'] at hw
  rw [List.range_eq_range', hr, List.map_append]
  exact hw.append (List.Perm.refl _)

theorem SInv_names_nodup (fs : GsdFile) (h : GsdHandle) (com stg : List CChunk)
    (hinv : SInv fs h com stg) : h.names.Nodup :=
  ((SInv_names_perm fs h com stg hinv).nodup_iff).mpr
    (List.Nodup.map (nlPair_injective h) (List.nodup_range _))

theorem SInv_pair_mem (fs : GsdFile) (h : GsdHandle) (com stg : List CChunk)
    (hinv : SInv fs h com stg) :
    ∀ p ∈ h.names, ∃ ip, ip < h.namelist_num_entries ∧ p = nlPair h ip := by
  intro p hp
  have hm := (SInv_names_perm fs h com stg hinv).mem_iff.mp hp
  rcases List.mem_map.mp hm with ⟨ip, hip, heq⟩
  exact ⟨ip, List.mem_range.mp hip, heq.symm⟩

theorem SInv_window_pf (fs : GsdFile) (h : GsdHandle) (com stg : List CChunk)
    (hinv : SInv fs h com stg) :
    ∀ i, i < h.namelist_written_entries →
      ∀ j, j < h.namelist_written_entries → i ≠ j →
      ¬ (nameAt h i <+: nameAt h j) := by
  intro i hi j hj hij hpre
  have hlen := hinv.names_len
  have hnw := hinv.nw_le
  have hmi : h.names.getD i default ∈ h.names := getD_mem _ _ _ (by omega)
  have hmj : h.names.getD j default ∈ h.names := getD_mem _ _ _ (by omega)
  rcases SInv_pair_mem fs h com stg hinv _ hmi with ⟨ip, hip, hpi⟩
  rcases SInv_pair_mem fs h com stg hinv _ hmj with ⟨iq, hiq, hpj⟩
  have hnd := SInv_names_nodup fs h com stg hinv
  have hne : h.names.getD i default ≠ h.names.getD j default := by
    rw [getD_eq_get _ _ _ (by omega), getD_eq_get _ _ _ (by omega)]
    intro heq
    have := (hnd.get_inj_iff).mp heq
    have hval := congrArg Fin.val this
    simp at hval
    omega
  have hipq : ip ≠ iq := by
    intro hh
    rw [hh] at hpi
    exact hne (hpi.trans hpj.symm)
  apply hinv.an_inj ip iq hip hiq hipq
  have h1 : nameAt h i = h.namelist.getD ip [] := by
    unfold nameAt
    rw [hpi]
    rfl
  have h2 : nameAt h j = h.namelist.getD iq [] := by
    unfold nameAt
    rw [hpj]
    rfl
  rw [← h1, ← h2]
  exact hpre

theorem SInv_com_window (fs : GsdFile) (h : GsdHandle) (com stg : List CChunk)
    (hinv : SInv fs h com stg) :
    ∀ c ∈ com, ∃ p, p < h.namelist_written_entries
      ∧ nameAt h p = c.g.name := by
  intro c hc
  have hid := hinv.com_id_w c hc
  have hlen := hinv.names_len
  have hnw := hinv.nw_le
  have hmem : nlPair h c.e.id
      ∈ (List.range h.namelist_written_entries).map (nlPair h) :=
    List.mem_map.mpr ⟨c.e.id, List.mem_range.mpr hid, rfl⟩
  have hmem2 : nlPair h c.e.id
      ∈ h.names.take h.namelist_written_entries :=
    (hinv.names_permw).mem_iff.mpr hmem
  rcases List.getElem_of_mem hmem2 with ⟨p, hp, hget⟩
  have hptake : (h.names.take h.namelist_written_entries).length
      ≤ h.namelist_written_entries := by
    rw [List.length_take]
    omega
  have hp' : p < h.namelist_written_entries := by omega
  refine ⟨p, hp', ?_⟩
  have hgd : h.names.getD p default = nlPair h c.e.id := by
    rw [getD_eq_get _ _ _ (by omega)]
    rw [← hget]
    rw [List.get_eq_getElem]
    exact (List.getElem_take _).symm
  show (h.names.getD p default).name = c.g.name
  rw [hgd]
  show h.namelist.getD c.e.id [] = c.g.name
  exact (hinv.chunk_wf c (List.mem_append.mpr (Or.inl hc))).id_name

theorem SInv_get_id_found (fs : GsdFile) (h : GsdHandle)
    (com stg : List CChunk) (hinv : SInv fs h com stg)
    (name : List Nat) (p : Nat) (hp : p < h.namelist_written_entries)
    (hname : nameAt h p = name)
    (hcompat : ∀ i, i < h.namelist_written_entries →
      name <+: nameAt h i → name = nameAt h i) :
    gsd_get_id h name = some ((h.names.getD p default).id) ∧
    (h.names.getD p default).id < h.namelist_num_entries ∧
    h.namelist.getD ((h.names.getD p default).id) [] = name := by
  have hstep := window_step h name p hinv.names_srt hcompat hp hname
  have hfind := gsd_find_name_finds h name p hp hstep
  have hlen := hinv.names_len
  have hnw := hinv.nw_le
  rcases SInv_pair_mem fs h com stg hinv _ (getD_mem h.names p default
    (by omega)) with ⟨ip, hip, hpi⟩
  refine ⟨by unfold gsd_get_id; rw [hfind]; rfl, ?_, ?_⟩
  · rw [hpi]
    exact hip
  · rw [hpi]
    show h.namelist.getD ip [] = name
    rw [← hname]
    unfold nameAt
    rw [hpi]
    rfl

theorem SInv_get_id_none (fs : GsdFile) (h : GsdHandle)
    (com stg : List CChunk) (hinv : SInv fs h com stg) (name : List Nat)
    (hno : ∀ i, i < h.namelist_written_entries → nameAt h i ≠ name)
    (hcompat : ∀ i, i < h.namelist_written_entries →
      name <+: nameAt h i → name = nameAt h i) :
    gsd_get_id h name = none := by
  have hfn := gsd_find_name_none h name (fun i hi heq =>
    hno i hi ((hcompat i hi ((strncmpPref_eq_iff _ _).mp heq)).symm))
  unfold gsd_get_id
  rw [hfn]
  rfl

theorem wcCore_fst (fs : GsdFile) (h : GsdHandle) (typ N M : Nat)
    (bytes : List Nat) (id : Nat) :
    (wcCore fs h typ N M bytes id).1 = { fs with
      data := writeBytes fs.data h.file_size
        ((List.range ((N * M * gsd_sizeof_type typ) % u64_mod)).map
          (fun j => bytes.getD j 0)),
      size := max fs.size (h.file_size
        + (N * M * gsd_sizeof_type typ) % u64_mod) } := rfl

theorem getD_map_range {α : Type} (n j : Nat) (f : Nat → α) (d : α)
    (h : j < n) :
    ((List.range n).map f).getD j d = f j := by
  rw [List.getD_eq_getElem?_getD, List.getElem?_map]
  rw [List.getElem?_eq_getElem (by simpa using h)]
  simp

/-! Equation lemmas for the write path when the index block is full and the
handle is open read/write: the payload is written, then gsd_expand_index
doubles the allocation and materializes the in-memory index (padded with
zero entries) on disk at end-of-file, and the new entry lands in the first
slot of the grown index. -/

theorem gsd_write_chunk_reuse_full (fs : GsdFile) (h : GsdHandle)
    (name : List Nat) (typ N M : Nat) (bytes : List Nat) (id : Nat)
    (hN : N ≠ 0) (hM : M ≠ 0) (htyp : gsd_sizeof_type typ ≠ 0)
    (hrw : h.open_flags = .readwrite)
    (hfind : gsd_get_id h name = some id)
    (hfull : h.header.index_allocated_entries ≤ h.index_num_entries) :
    gsd_write_chunk fs h name typ N M 0 (some bytes)
      = .ok
        ({ fs with
            data := writeBytes fs.data h.file_size
              ((List.range ((N * M * gsd_sizeof_type typ) % u64_mod)).map (fun j => bytes.getD j 0)),
            indexBlock := h.index ++ List.replicate (h.header.index_allocated_entries * 2 - h.header.index_allocated_entries) zeroEntry,
            size := (max fs.size (h.file_size + (N * M * gsd_sizeof_type typ) % u64_mod)) + gsd_index_entry_size * (h.header.index_allocated_entries * 2),
            header := { h.header with
              index_allocated_entries := h.header.index_allocated_entries * 2,
              index_location := max fs.size (h.file_size + (N * M * gsd_sizeof_type typ) % u64_mod) } },
         { h with
            header := { h.header with
              index_allocated_entries := h.header.index_allocated_entries * 2,
              index_location := max fs.size (h.file_size + (N * M * gsd_sizeof_type typ) % u64_mod) },
            index := (h.index ++ List.replicate (h.header.index_allocated_entries * 2 - h.header.index_allocated_entries) zeroEntry).set h.index_num_entries
              ⟨h.cur_frame, N, h.file_size, M, id, typ % 256, 0⟩,
            file_size := (max fs.size (h.file_size + (N * M * gsd_sizeof_type typ) % u64_mod)) + gsd_index_entry_size * (h.header.index_allocated_entries * 2),
            index_num_entries := h.index_num_entries + 1 }) := by
  have hro : ¬ h.open_flags = .readonly := by
    rw [hrw]
    intro hbad
    cases hbad
  have hnap : ¬ h.open_flags = .append := by
    rw [hrw]
    intro hbad
    cases hbad
  unfold gsd_write_chunk
  rw [if_neg (by simp), if_neg (by simp [hN, hM, htyp]), if_neg hro,
    if_neg (by simp)]
  simp only [hfind, except_bind_ok]
  rw [if_pos hfull]
  simp only [gsd_expand_index]
  rw [if_pos hrw]
  simp only [except_bind_ok]
  rw [if_neg hnap]
  rfl

theorem gsd_write_chunk_new_full (fs : GsdFile) (h : GsdHandle)
    (name : List Nat) (typ N M : Nat) (bytes : List Nat)
    (hN : N ≠ 0) (hM : M ≠ 0) (htyp : gsd_sizeof_type typ ≠ 0)
    (hrw : h.open_flags = .readwrite)
    (hfind : gsd_get_id h name = none)
    (hcap : h.namelist_num_entries ≠ h.header.namelist_allocated_entries)
    (hid16 : h.namelist_num_entries < u16_mod - 1)
    (hfull : h.header.index_allocated_entries ≤ h.index_num_entries) :
    gsd_write_chunk fs h name typ N M 0 (some bytes)
      = .ok
        ({ fs with
            data := writeBytes fs.data h.file_size
              ((List.range ((N * M * gsd_sizeof_type typ) % u64_mod)).map (fun j => bytes.getD j 0)),
            indexBlock := h.index ++ List.replicate (h.header.index_allocated_entries * 2 - h.header.index_allocated_entries) zeroEntry,
            size := (max fs.size (h.file_size + (N * M * gsd_sizeof_type typ) % u64_mod)) + gsd_index_entry_size * (h.header.index_allocated_entries * 2),
            header := { h.header with
              index_allocated_entries := h.header.index_allocated_entries * 2,
              index_location := max fs.size (h.file_size + (N * M * gsd_sizeof_type typ) % u64_mod) } },
         { h with
            header := { h.header with
              index_allocated_entries := h.header.index_allocated_entries * 2,
              index_location := max fs.size (h.file_size + (N * M * gsd_sizeof_type typ) % u64_mod) },
            namelist := h.namelist.set h.namelist_num_entries
              (truncName63 name),
            names := h.names.take h.namelist_num_entries
              ++ [⟨truncName63 name, h.namelist_num_entries⟩],
            namelist_num_entries := h.namelist_num_entries + 1,
            index := (h.index ++ List.replicate (h.header.index_allocated_entries * 2 - h.header.index_allocated_entries) zeroEntry).set h.index_num_entries
              ⟨h.cur_frame, N, h.file_size, M, h.namelist_num_entries,
                typ % 256, 0⟩,
            file_size := (max fs.size (h.file_size + (N * M * gsd_sizeof_type typ) % u64_mod)) + gsd_index_entry_size * (h.header.index_allocated_entries * 2),
            index_num_entries := h.index_num_entries + 1 }) := by
  have hro : ¬ h.open_flags = .readonly := by
    rw [hrw]
    intro hbad
    cases hbad
  have hnap : ¬ h.open_flags = .append := by
    rw [hrw]
    intro hbad
    cases hbad
  unfold gsd_write_chunk
  rw [if_neg (by simp), if_neg (by simp [hN, hM, htyp]), if_neg hro,
    if_neg (by simp)]
  simp only [hfind]
  unfold gsd_append_name
  rw [if_neg hro, if_neg hcap]
  have hmod : h.namelist_num_entries % u16_mod = h.namelist_num_entries :=
    Nat.mod_eq_of_lt (by unfold u16_mod at *; omega)
  simp only [hmod, except_bind_ok]
  rw [if_neg (show ¬ h.namelist_num_entries = u16_mod - 1 by omega)]
  simp only [except_bind_ok]
  rw [if_pos hfull]
  simp only [gsd_expand_index]
  rw [if_pos hrw]
  simp only [except_bind_ok]
  rw [if_neg hnap]
  rfl

/-! The write step of the session invariant, when the index has room. -/

theorem gsd_write_chunk_sinv_room (fs : GsdFile) (h : GsdHandle)
    (com stg : List CChunk) (hinv : SInv fs h com stg)
    (hrw : h.open_flags = .readwrite)
    (g : GChunk) (hgf : g.frame = h.cur_frame) (hwok : WOk g)
    (hnn_cap : h.namelist_num_entries < GSD_INITIAL_NAMELIST_SIZE)
    (hcompat : ∀ c ∈ com ++ stg, nameFrameOk c.g g)
    (hroom : h.index_num_entries < h.header.index_allocated_entries) :
    ∃ fs' h' c, gsd_write_chunk fs h g.name g.typ g.N g.M 0 (some g.bytes)
        = .ok (fs', h') ∧
      SInv fs' h' com (stg ++ [c]) ∧ c.g = g ∧
      h'.open_flags = .readwrite ∧ h'.cur_frame = h.cur_frame := by
  have hro : ¬ h.open_flags = .readonly := by
    rw [hrw]
    intro hbad
    cases hbad
  have hnap : ¬ h.open_flags = .append := by
    rw [hrw]
    intro hbad
    cases hbad
  obtain ⟨hilen, hmtake, hmzero⟩ := hinv.mem_rw hnap
  have hN : g.N ≠ 0 := by
    have := hwok.N_pos
    omega
  have hM : g.M ≠ 0 := by
    have := hwok.M_pos
    omega
  have htyp := hwok.typ_ok
  have hszeq : (g.N * g.M * gsd_sizeof_type g.typ) % u64_mod
      = g.N * g.M * gsd_sizeof_type g.typ := Nat.mod_eq_of_lt hwok.no_wrap
  have htypmod : g.typ % 256 = g.typ := Nat.mod_eq_of_lt hwok.typ_lt
  have hfsz : h.file_size = fs.size := hinv.fsz_eq
  have hnleln := hinv.names_len
  have hnwle := hinv.nw_le
  have hwcompat : ∀ i, i < h.namelist_written_entries →
      g.name <+: nameAt h i → g.name = nameAt h i := by
    intro i hi hpre
    rcases SInv_pair_mem fs h com stg hinv _ (getD_mem h.names i default
      (by omega)) with ⟨ip, hip, hpi⟩
    rcases hinv.an_from ip hip with ⟨c', hc', hn'⟩
    have hni : nameAt h i = c'.g.name := by
      unfold nameAt
      rw [hpi]
      show h.namelist.getD ip [] = c'.g.name
      exact hn'.symm
    rw [hni] at hpre ⊢
    exact ((hcompat c' hc').2.1 hpre).symm
  have hnostg : ∀ c' ∈ stg, c'.g.name ≠ g.name := by
    intro c' hc' heq
    have h3 := (hcompat c' (List.mem_append.mpr (Or.inr hc'))).2.2
    apply h3
    refine ⟨?_, heq⟩
    have hfr := (hinv.chunk_wf c' (List.mem_append.mpr (Or.inr hc'))).fr_eq
    rw [← hfr, hinv.stg_frame c' hc', hgf]
  have hdata_old : ∀ c' ∈ com ++ stg, ∀ j, j < c'.g.bytes.length →
      writeBytes fs.data h.file_size
        ((List.range ((g.N * g.M * gsd_sizeof_type g.typ) % u64_mod)).map
          (fun j => g.bytes.getD j 0)) (c'.e.location + j)
      = fs.data (c'.e.location + j) := by
    intro c' hc' j hj
    have hw' := hinv.chunk_wf c' hc'
    apply writeBytes_below
    calc c'.e.location + j
        < c'.e.location + c'.g.bytes.length := Nat.add_lt_add_left hj _
      _ = c'.e.location
          + c'.e.N * c'.e.M * gsd_sizeof_type c'.e.typ := by
          rw [hw'.bytes_len]
      _ ≤ fs.size := hw'.in_file
      _ = h.file_size := hfsz.symm
  have hE_wf : ∀ (idv : Nat) (fsx : GsdFile) (hx : GsdHandle),
      fsx.data = writeBytes fs.data h.file_size
        ((List.range ((g.N * g.M * gsd_sizeof_type g.typ) % u64_mod)).map
          (fun j => g.bytes.getD j 0)) →
      fs.size + (g.N * g.M * gsd_sizeof_type g.typ) % u64_mod ≤ fsx.size →
      idv < hx.namelist_num_entries →
      hx.namelist.getD idv [] = g.name →
      CWf fsx hx ⟨⟨h.cur_frame, g.N, h.file_size, g.M, idv,
        g.typ % 256, 0⟩, g⟩ := by
    intro idv fsx hx hxdata hxsize hxid hxname
    refine {
      flags0 := rfl
      typ_ok := by
        show gsd_sizeof_type (g.typ % 256) ≠ 0
        rw [htypmod]
        exact htyp
      no_wrap := by
        show g.N * g.M * gsd_sizeof_type (g.typ % 256) < u64_mod
        rw [htypmod]
        exact hwok.no_wrap
      size_pos := by
        show 0 < g.N * g.M * gsd_sizeof_type (g.typ % 256)
        rw [htypmod]
        exact Nat.mul_pos (Nat.mul_pos hwok.N_pos hwok.M_pos)
          (Nat.pos_of_ne_zero hwok.typ_ok)
      bytes_len := by
        show g.bytes.length = g.N * g.M * gsd_sizeof_type (g.typ % 256)
        rw [htypmod]
        exact hwok.bytes_len
      loc_lb := by
        show gsd_header_size ≤ h.file_size
        rw [hfsz]
        exact hinv.size_lb
      in_file := by
        show h.file_size + g.N * g.M * gsd_sizeof_type (g.typ % 256)
          ≤ fsx.size
        rw [htypmod, hfsz, ← hszeq]
        exact hxsize
      data_eq := by
        intro j hj
        have hj' : j < g.bytes.length := hj
        show fsx.data (h.file_size + j) = g.bytes.getD j 0
        rw [hxdata]
        have hjlt : j < (g.N * g.M * gsd_sizeof_type g.typ) % u64_mod := by
          rw [hszeq]
          exact lt_of_lt_of_eq hj' hwok.bytes_len
        rw [writeBytes_in _ _ _ _ (Nat.le_add_right _ _) (by
          rw [List.length_map, List.length_range]
          exact Nat.add_lt_add_left hjlt _)]
        rw [show h.file_size + j - h.file_size = j by omega]
        rw [getD_map_range _ _ _ _ hjlt]
      id_lt := hxid
      id_name := hxname
      fr_eq := hgf.symm
      N_eq := rfl
      M_eq := rfl
      typ_eq := htypmod }
  by_cases hq : ∃ p, p < h.namelist_written_entries ∧ nameAt h p = g.name
  · -- the name is committed: the id is reused
    rcases hq with ⟨p, hp, hpname⟩
    obtain ⟨hfind, hidnn, hidname⟩ := SInv_get_id_found fs h com stg hinv
      g.name p hp hpname hwcompat
    have hw := gsd_write_chunk_reuse fs h g.name g.typ g.N g.M g.bytes
      ((h.names.getD p default).id) hN hM htyp hro hfind hroom
    refine ⟨(wcCore fs h g.typ g.N g.M g.bytes
        ((h.names.getD p default).id)).1,
      (wcCore fs h g.typ g.N g.M g.bytes ((h.names.getD p default).id)).2,
      ⟨⟨h.cur_frame, g.N, h.file_size, g.M, (h.names.getD p default).id,
        g.typ % 256, 0⟩, g⟩, hw, ?_, rfl, ?_, ?_⟩
    · rw [wcCore_fst, wcCore_snd_set _ _ _ _ _ _ _ hnap]
      have hmax : max fs.size (h.file_size
          + (g.N * g.M * gsd_sizeof_type g.typ) % u64_mod)
          = fs.size + (g.N * g.M * gsd_sizeof_type g.typ) % u64_mod := by
        rw [hfsz]
        exact max_eq_right (Nat.le_add_right _ _)
      refine {
        hdr_eq := hinv.hdr_eq, magic_eq := hinv.magic_eq,
        ver_eq := hinv.ver_eq, nlal_eq := hinv.nlal_eq, al_ge := hinv.al_ge,
        nn_chunks := by
          show h.namelist_num_entries ≤ com.length + (stg ++ [_]).length
          have := hinv.nn_chunks
          simp only [List.length_append, List.length_cons, List.length_nil]
          omega
        iblk_len := hinv.iblk_len, nlblk_len := hinv.nlblk_len,
        hnl_len := hinv.hnl_len, iw_eq := hinv.iw_eq,
        inum_eq := by
          show h.index_num_entries + 1 = com.length + (stg ++ [_]).length
          have := hinv.inum_eq
          simp only [List.length_append, List.length_cons, List.length_nil]
          omega
        inum_le := by
          show h.index_num_entries + 1 ≤ h.header.index_allocated_entries
          omega
        nn_le := hinv.nn_le, nw_le := hinv.nw_le,
        fsz_eq := by
          show h.file_size + (g.N * g.M * gsd_sizeof_type g.typ) % u64_mod
            = max fs.size (h.file_size
              + (g.N * g.M * gsd_sizeof_type g.typ) % u64_mod)
          rw [hmax, hfsz]
        size_lb := by
          show gsd_header_size ≤ max fs.size _
          exact le_trans hinv.size_lb (le_max_left _ _)
        ibound := by
          show h.header.index_location + gsd_index_entry_size
            * h.header.index_allocated_entries ≤ max fs.size _
          exact le_trans hinv.ibound (le_max_left _ _)
        nbound := by
          show h.header.namelist_location + gsd_namelist_entry_size
            * h.header.namelist_allocated_entries ≤ max fs.size _
          exact le_trans hinv.nbound (le_max_left _ _)
        disk_com := hinv.disk_com,
        disk_zero := by
          intro e he
          have he' : e ∈ fs.indexBlock.drop (h.index_num_entries + 1) := he
          have hdd : fs.indexBlock.drop (h.index_num_entries + 1)
              = (fs.indexBlock.drop h.index_num_entries).drop 1 := by
            rw [List.drop_drop]
          rw [hdd] at he'
          exact hinv.disk_zero e (List.mem_of_mem_drop he')
        mem_rw := by
          intro _
          refine ⟨?_, ?_, ?_⟩
          · show (h.index.set h.index_num_entries _).length
              = h.header.index_allocated_entries
            rw [List.length_set]
            exact hilen
          · show (h.index.set h.index_num_entries _).take
                (h.index_num_entries + 1)
              = com.map (·.e) ++ (stg
                ++ [(⟨⟨h.cur_frame, g.N, h.file_size, g.M,
                  (h.names.getD p default).id, g.typ % 256, 0⟩, g⟩
                  : CChunk)]).map (·.e)
            rw [take_set_succ _ _ _ (by rw [hilen]; exact hroom), hmtake]
            rw [List.map_append, ← List.append_assoc]
            rfl
          · intro e he
            have he' : e ∈ (h.index.set h.index_num_entries
                (⟨h.cur_frame, g.N, h.file_size, g.M,
                  (h.names.getD p default).id, g.typ % 256, 0⟩
                  : GsdIndexEntry)).drop (h.index_num_entries + 1) := he
            rw [drop_set_of_lt _ _ _ _ (Nat.lt_succ_self _)] at he'
            have hdd2 : h.index.drop (h.index_num_entries + 1)
                = (h.index.drop h.index_num_entries).drop 1 := by
              rw [List.drop_drop]
            rw [hdd2] at he'
            exact hmzero e (List.mem_of_mem_drop he')
        mem_ap := by
          intro hap
          have hap' : h.open_flags = .append := hap
          exact absurd hap' hnap
        nl_disk := hinv.nl_disk, nl_disk_zero := hinv.nl_disk_zero,
        nl_tail_zero := hinv.nl_tail_zero, an_wf := hinv.an_wf,
        an_inj := hinv.an_inj, names_len := hinv.names_len,
        names_srt := hinv.names_srt, names_permw := hinv.names_permw,
        names_tail := hinv.names_tail, com_frames := hinv.com_frames,
        com_lt := hinv.com_lt,
        stg_frame := by
          intro c' hc'
          show c'.e.frame = h.cur_frame
          rcases List.mem_append.mp hc' with hc1 | hc1
          · exact hinv.stg_frame c' hc1
          · rw [List.mem_singleton] at hc1
            subst hc1
            rfl
        com_id_w := hinv.com_id_w,
        chunk_wf := by
          intro c' hc'
          rcases List.mem_append.mp hc' with hc1 | hc1
          · have hmem : c' ∈ com ++ stg := List.mem_append.mpr (Or.inl hc1)
            exact CWf_congr fs _ h _ c' (hinv.chunk_wf c' hmem)
              (hdata_old c' hmem) (le_max_left _ _)
              (hinv.chunk_wf c' hmem).id_lt rfl
          · rcases List.mem_append.mp hc1 with hc2 | hc2
            · have hmem : c' ∈ com ++ stg :=
                List.mem_append.mpr (Or.inr hc2)
              exact CWf_congr fs _ h _ c' (hinv.chunk_wf c' hmem)
                (hdata_old c' hmem) (le_max_left _ _)
                (hinv.chunk_wf c' hmem).id_lt rfl
            · rw [List.mem_singleton] at hc2
              subst hc2
              refine hE_wf _ _ _ rfl ?_ ?_ ?_
              · show fs.size
                  + (g.N * g.M * gsd_sizeof_type g.typ) % u64_mod
                  ≤ max fs.size (h.file_size
                    + (g.N * g.M * gsd_sizeof_type g.typ) % u64_mod)
                rw [hmax]
              · show (h.names.getD p default).id < h.namelist_num_entries
                exact hidnn
              · show h.namelist.getD ((h.names.getD p default).id) []
                  = g.name
                exact hidname
        an_from := by
          intro i hi
          rcases hinv.an_from i hi with ⟨c', hc', hn'⟩
          refine ⟨c', ?_, hn'⟩
          rcases List.mem_append.mp hc' with h1 | h1
          · exact List.mem_append.mpr (Or.inl h1)
          · exact List.mem_append.mpr
              (Or.inr (List.mem_append.mpr (Or.inl h1)))
        stg_an := by
          intro i h1 h2
          rcases hinv.stg_an i h1 h2 with ⟨c', hc', hn'⟩
          exact ⟨c', List.mem_append.mpr (Or.inl hc'), hn'⟩ }
    · rw [wcCore_snd_set _ _ _ _ _ _ _ hnap]
      exact hrw
    · rw [wcCore_snd_set _ _ _ _ _ _ _ hnap]
  · -- a fresh name: a new id is appended
    have hq' : ∀ i, i < h.namelist_written_entries →
        nameAt h i ≠ g.name := fun i hi heq => hq ⟨i, hi, heq⟩
    have hfind := SInv_get_id_none fs h com stg hinv g.name hq' hwcompat
    have hu16 : u16_mod = 65536 := by norm_num [u16_mod]
    have hnl65 : GSD_INITIAL_NAMELIST_SIZE = 65535 := rfl
    have hnlal := hinv.nlal_eq
    have hcap : h.namelist_num_entries
        ≠ h.header.namelist_allocated_entries := by
      rw [hnlal]
      omega
    have hid16 : h.namelist_num_entries < u16_mod - 1 := by omega
    have hw := gsd_write_chunk_new fs h g.name g.typ g.N g.M g.bytes
      hN hM htyp hro hfind hcap hid16 hroom
    have htrunc : truncName63 g.name = g.name := by
      unfold truncName63
      exact List.take_of_length_le hwok.name_le
    have htknn : h.names.take h.namelist_num_entries = h.names :=
      List.take_of_length_le (le_of_eq hnleln)
    have hnl_lt : h.namelist_num_entries < h.namelist.length := by
      have := hinv.hnl_len
      omega
    have hnocom : ∀ c' ∈ com, c'.g.name ≠ g.name := by
      intro c' hc' heq
      rcases SInv_com_window fs h com stg hinv c' hc' with ⟨p, hp, hpn⟩
      exact hq' p hp (hpn.trans heq)
    refine ⟨(wcCore fs (appendNameState h g.name) g.typ g.N g.M g.bytes
        h.namelist_num_entries).1,
      (wcCore fs (appendNameState h g.name) g.typ g.N g.M g.bytes
        h.namelist_num_entries).2,
      ⟨⟨h.cur_frame, g.N, h.file_size, g.M, h.namelist_num_entries,
        g.typ % 256, 0⟩, g⟩, hw, ?_, rfl, ?_, ?_⟩
    · rw [wcCore_fst, wcCore_snd_set _ _ _ _ _ _ _
        (show ¬ (appendNameState h g.name).open_flags = .append from hnap)]
      simp only [appendNameState]
      rw [htrunc, htknn]
      have hmax : max fs.size (h.file_size
          + (g.N * g.M * gsd_sizeof_type g.typ) % u64_mod)
          = fs.size + (g.N * g.M * gsd_sizeof_type g.typ) % u64_mod := by
        rw [hfsz]
        exact max_eq_right (Nat.le_add_right _ _)
      refine {
        hdr_eq := hinv.hdr_eq, magic_eq := hinv.magic_eq,
        ver_eq := hinv.ver_eq, nlal_eq := hinv.nlal_eq, al_ge := hinv.al_ge,
        nn_chunks := by
          show h.namelist_num_entries + 1
            ≤ com.length + (stg ++ [_]).length
          have := hinv.nn_chunks
          simp only [List.length_append, List.length_cons, List.length_nil]
          omega
        iblk_len := hinv.iblk_len, nlblk_len := hinv.nlblk_len,
        hnl_len := by
          show (h.namelist.set h.namelist_num_entries g.name).length
            = h.header.namelist_allocated_entries
          rw [List.length_set]
          exact hinv.hnl_len
        iw_eq := hinv.iw_eq,
        inum_eq := by
          show h.index_num_entries + 1 = com.length + (stg ++ [_]).length
          have := hinv.inum_eq
          simp only [List.length_append, List.length_cons, List.length_nil]
          omega
        inum_le := by
          show h.index_num_entries + 1 ≤ h.header.index_allocated_entries
          omega
        nn_le := by
          show h.namelist_num_entries + 1
            ≤ h.header.namelist_allocated_entries
          rw [hnlal]
          omega
        nw_le := by
          show h.namelist_written_entries ≤ h.namelist_num_entries + 1
          omega
        fsz_eq := by
          show h.file_size + (g.N * g.M * gsd_sizeof_type g.typ) % u64_mod
            = max fs.size (h.file_size
              + (g.N * g.M * gsd_sizeof_type g.typ) % u64_mod)
          rw [hmax, hfsz]
        size_lb := by
          show gsd_header_size ≤ max fs.size _
          exact le_trans hinv.size_lb (le_max_left _ _)
        ibound := by
          show h.header.index_location + gsd_index_entry_size
            * h.header.index_allocated_entries ≤ max fs.size _
          exact le_trans hinv.ibound (le_max_left _ _)
        nbound := by
          show h.header.namelist_location + gsd_namelist_entry_size
            * h.header.namelist_allocated_entries ≤ max fs.size _
          exact le_trans hinv.nbound (le_max_left _ _)
        disk_com := hinv.disk_com,
        disk_zero := by
          intro e he
          have he' : e ∈ fs.indexBlock.drop (h.index_num_entries + 1) := he
          have hdd : fs.indexBlock.drop (h.index_num_entries + 1)
              = (fs.indexBlock.drop h.index_num_entries).drop 1 := by
            rw [List.drop_drop]
          rw [hdd] at he'
          exact hinv.disk_zero e (List.mem_of_mem_drop he')
        mem_rw := by
          intro _
          refine ⟨?_, ?_, ?_⟩
          · show (h.index.set h.index_num_entries _).length
              = h.header.index_allocated_entries
            rw [List.length_set]
            exact hilen
          · show (h.index.set h.index_num_entries _).take
                (h.index_num_entries + 1)
              = com.map (·.e) ++ (stg
                ++ [(⟨⟨h.cur_frame, g.N, h.file_size, g.M,
                  h.namelist_num_entries, g.typ % 256, 0⟩, g⟩
                  : CChunk)]).map (·.e)
            rw [take_set_succ _ _ _ (by rw [hilen]; exact hroom), hmtake]
            rw [List.map_append, ← List.append_assoc]
            rfl
          · intro e he
            have he' : e ∈ (h.index.set h.index_num_entries
                (⟨h.cur_frame, g.N, h.file_size, g.M,
                  h.namelist_num_entries, g.typ % 256, 0⟩
                  : GsdIndexEntry)).drop (h.index_num_entries + 1) := he
            rw [drop_set_of_lt _ _ _ _ (Nat.lt_succ_self _)] at he'
            have hdd2 : h.index.drop (h.index_num_entries + 1)
                = (h.index.drop h.index_num_entries).drop 1 := by
              rw [List.drop_drop]
            rw [hdd2] at he'
            exact hmzero e (List.mem_of_mem_drop he')
        mem_ap := by
          intro hap
          have hap' : h.open_flags = .append := hap
          exact absurd hap' hnap
        nl_disk := by
          show fs.namelistBlock.take h.namelist_written_entries
            = (h.namelist.set h.namelist_num_entries g.name).take
              h.namelist_written_entries
          rw [take_set_of_le _ _ _ _ hnwle]
          exact hinv.nl_disk
        nl_disk_zero := hinv.nl_disk_zero,
        nl_tail_zero := by
          intro nm hnm
          have hnm' : nm ∈ (h.namelist.set h.namelist_num_entries
              g.name).drop (h.namelist_num_entries + 1) := hnm
          rw [drop_set_of_lt _ _ _ _ (Nat.lt_succ_self _)] at hnm'
          have hdd : h.namelist.drop (h.namelist_num_entries + 1)
              = (h.namelist.drop h.namelist_num_entries).drop 1 := by
            rw [List.drop_drop]
          rw [hdd] at hnm'
          exact hinv.nl_tail_zero nm (List.mem_of_mem_drop hnm')
        an_wf := by
          intro i hi
          have hi' : i < h.namelist_num_entries + 1 := hi
          show 0 < ((h.namelist.set h.namelist_num_entries g.name).getD
              i []).length
            ∧ ((h.namelist.set h.namelist_num_entries g.name).getD
              i []).length ≤ 63
          by_cases hic : i = h.namelist_num_entries
          · subst hic
            rw [getD_set_eq _ _ _ _ hnl_lt]
            exact ⟨hwok.name_pos, hwok.name_le⟩
          · rw [getD_set_ne _ _ _ _ _ (fun hh => hic hh.symm)]
            exact hinv.an_wf i (by omega)
        an_inj := by
          intro i j hi hj hij
          have hi' : i < h.namelist_num_entries + 1 := hi
          have hj' : j < h.namelist_num_entries + 1 := hj
          show ¬ ((h.namelist.set h.namelist_num_entries g.name).getD i []
            <+: (h.namelist.set h.namelist_num_entries g.name).getD j [])
          by_cases hic : i = h.namelist_num_entries
          · subst hic
            rw [getD_set_eq _ _ _ _ hnl_lt,
              getD_set_ne _ _ _ _ _ hij]
            intro hpre
            have hjn : j < h.namelist_num_entries := by omega
            rcases hinv.an_from j hjn with ⟨c', hc', hn'⟩
            rw [← hn'] at hpre
            have heq := (hcompat c' hc').2.1 hpre
            rcases List.mem_append.mp hc' with h1 | h1
            · exact hnocom c' h1 heq
            · exact hnostg c' h1 heq
          · by_cases hjc : j = h.namelist_num_entries
            · subst hjc
              rw [getD_set_eq _ _ _ _ hnl_lt,
                getD_set_ne _ _ _ _ _ (fun hh => hic hh.symm)]
              intro hpre
              have hin : i < h.namelist_num_entries := by omega
              rcases hinv.an_from i hin with ⟨c', hc', hn'⟩
              rw [← hn'] at hpre
              have heq := (hcompat c' hc').1 hpre
              rcases List.mem_append.mp hc' with h1 | h1
              · exact hnocom c' h1 heq
              · exact hnostg c' h1 heq
            · rw [getD_set_ne _ _ _ _ _ (fun hh => hic hh.symm),
                getD_set_ne _ _ _ _ _ (fun hh => hjc hh.symm)]
              exact hinv.an_inj i j (by omega) (by omega) hij
        names_len := by
          show (h.names ++ [_]).length = h.namelist_num_entries + 1
          simp only [List.length_append, List.length_cons, List.length_nil]
          omega
        names_srt := by
          intro i j hij hj
          have hj' : j < h.namelist_written_entries := hj
          have hgi : (h.names ++ [(⟨g.name, h.namelist_num_entries⟩
              : GsdNameIdPair)]).getD i default = h.names.getD i default :=
            getD_append_left _ _ _ _ (by omega)
          have hgj : (h.names ++ [(⟨g.name, h.namelist_num_entries⟩
              : GsdNameIdPair)]).getD j default = h.names.getD j default :=
            getD_append_left _ _ _ _ (by omega)
          show strcmpList ((h.names
              ++ [(⟨g.name, h.namelist_num_entries⟩
                : GsdNameIdPair)]).getD i default).name
            ((h.names ++ [(⟨g.name, h.namelist_num_entries⟩
              : GsdNameIdPair)]).getD j default).name = .lt
          rw [hgi, hgj]
          exact hinv.names_srt i j hij hj'
        names_permw := by
          show ((h.names ++ [(⟨g.name, h.namelist_num_entries⟩
              : GsdNameIdPair)]).take h.namelist_written_entries).Perm
            ((List.range h.namelist_written_entries).map _)
          rw [List.take_append_eq_append_take,
            show h.namelist_written_entries - h.names.length = 0 by omega,
            List.take_zero, List.append_nil]
          refine hinv.names_permw.trans (List.Perm.of_eq
            (List.map_congr_left ?_))
          intro i hi
          have hilt : i < h.namelist_written_entries := List.mem_range.mp hi
          show (⟨h.namelist.getD i [], i⟩ : GsdNameIdPair)
            = ⟨(h.namelist.set h.namelist_num_entries g.name).getD i [], i⟩
          rw [getD_set_ne _ _ _ _ _ (by omega)]
        names_tail := by
          show (h.names ++ [(⟨g.name, h.namelist_num_entries⟩
              : GsdNameIdPair)]).drop h.namelist_written_entries
            = (List.range' h.namelist_written_entries
                (h.namelist_num_entries + 1
                  - h.namelist_written_entries)).map _
          rw [List.drop_append_eq_append_drop,
            show h.namelist_written_entries - h.names.length = 0 by omega,
            List.drop_zero]
          rw [show h.namelist_num_entries + 1 - h.namelist_written_entries
            = (h.namelist_num_entries - h.namelist_written_entries) + 1
            by omega]
          rw [range'_split h.namelist_written_entries
            (h.namelist_num_entries - h.namelist_written_entries) 1]
          rw [List.map_append]
          rw [hinv.names_tail]
          congr 1
          · apply List.map_congr_left
            intro i hi
            have hi2 := List.mem_range'_1.mp hi
            show (⟨h.namelist.getD i [], i⟩ : GsdNameIdPair)
              = ⟨(h.namelist.set h.namelist_num_entries g.name).getD
                  i [], i⟩
            rw [getD_set_ne _ _ _ _ _ (by omega)]
          · show [(⟨g.name, h.namelist_num_entries⟩ : GsdNameIdPair)]
              = [nlPair _ (h.namelist_written_entries
                + (h.namelist_num_entries - h.namelist_written_entries))]
            rw [show h.namelist_written_entries
              + (h.namelist_num_entries - h.namelist_written_entries)
              = h.namelist_num_entries by omega]
            show [(⟨g.name, h.namelist_num_entries⟩ : GsdNameIdPair)]
              = [⟨(h.namelist.set h.namelist_num_entries g.name).getD
                  h.namelist_num_entries [], h.namelist_num_entries⟩]
            rw [getD_set_eq _ _ _ _ hnl_lt]
        com_frames := hinv.com_frames, com_lt := hinv.com_lt,
        stg_frame := by
          intro c' hc'
          show c'.e.frame = h.cur_frame
          rcases List.mem_append.mp hc' with hc1 | hc1
          · exact hinv.stg_frame c' hc1
          · rw [List.mem_singleton] at hc1
            subst hc1
            rfl
        com_id_w := hinv.com_id_w,
        chunk_wf := by
          intro c' hc'
          have hnamekeep : ∀ cx ∈ com ++ stg,
              (h.namelist.set h.namelist_num_entries g.name).getD
                cx.e.id [] = h.namelist.getD cx.e.id [] := by
            intro cx hcx
            have := (hinv.chunk_wf cx hcx).id_lt
            exact getD_set_ne _ _ _ _ _ (by omega)
          rcases List.mem_append.mp hc' with hc1 | hc1
          · have hmem : c' ∈ com ++ stg := List.mem_append.mpr (Or.inl hc1)
            exact CWf_congr fs _ h _ c' (hinv.chunk_wf c' hmem)
              (hdata_old c' hmem) (le_max_left _ _)
              (by
                have := (hinv.chunk_wf c' hmem).id_lt
                show c'.e.id < h.namelist_num_entries + 1
                omega)
              (hnamekeep c' hmem)
          · rcases List.mem_append.mp hc1 with hc2 | hc2
            · have hmem : c' ∈ com ++ stg :=
                List.mem_append.mpr (Or.inr hc2)
              exact CWf_congr fs _ h _ c' (hinv.chunk_wf c' hmem)
                (hdata_old c' hmem) (le_max_left _ _)
                (by
                  have := (hinv.chunk_wf c' hmem).id_lt
                  show c'.e.id < h.namelist_num_entries + 1
                  omega)
                (hnamekeep c' hmem)
            · rw [List.mem_singleton] at hc2
              subst hc2
              refine hE_wf _ _ _ rfl ?_ ?_ ?_
              · show fs.size
                  + (g.N * g.M * gsd_sizeof_type g.typ) % u64_mod
                  ≤ max fs.size (h.file_size
                    + (g.N * g.M * gsd_sizeof_type g.typ) % u64_mod)
                rw [hmax]
              · show h.namelist_num_entries < h.namelist_num_entries + 1
                exact Nat.lt_succ_self _
              · show (h.namelist.set h.namelist_num_entries g.name).getD
                  h.namelist_num_entries [] = g.name
                rw [getD_set_eq _ _ _ _ hnl_lt]
        an_from := by
          intro i hi
          have hi' : i < h.namelist_num_entries + 1 := hi
          by_cases hic : i = h.namelist_num_entries
          · subst hic
            refine ⟨⟨⟨h.cur_frame, g.N, h.file_size, g.M,
              h.namelist_num_entries, g.typ % 256, 0⟩, g⟩, ?_, ?_⟩
            · exact List.mem_append.mpr (Or.inr
                (List.mem_append.mpr (Or.inr (List.mem_singleton.mpr rfl))))
            · show g.name = (h.namelist.set h.namelist_num_entries
                g.name).getD h.namelist_num_entries []
              rw [getD_set_eq _ _ _ _ hnl_lt]
          · rcases hinv.an_from i (by omega) with ⟨c', hc', hn'⟩
            refine ⟨c', ?_, ?_⟩
            · rcases List.mem_append.mp hc' with h1 | h1
              · exact List.mem_append.mpr (Or.inl h1)
              · exact List.mem_append.mpr
                  (Or.inr (List.mem_append.mpr (Or.inl h1)))
            · show c'.g.name = (h.namelist.set h.namelist_num_entries
                g.name).getD i []
              rw [getD_set_ne _ _ _ _ _ (fun hh => hic hh.symm)]
              exact hn'
        stg_an := by
          intro i h1 h2
          have h1' : h.namelist_written_entries ≤ i := h1
          have h2' : i < h.namelist_num_entries + 1 := h2
          by_cases hic : i = h.namelist_num_entries
          · subst hic
            refine ⟨⟨⟨h.cur_frame, g.N, h.file_size, g.M,
              h.namelist_num_entries, g.typ % 256, 0⟩, g⟩, ?_, ?_⟩
            · exact List.mem_append.mpr (Or.inr (List.mem_singleton.mpr rfl))
            · show g.name = (h.namelist.set h.namelist_num_entries
                g.name).getD h.namelist_num_entries []
              rw [getD_set_eq _ _ _ _ hnl_lt]
          · rcases hinv.stg_an i h1' (by omega) with ⟨c', hc', hn'⟩
            refine ⟨c', List.mem_append.mpr (Or.inl hc'), ?_⟩
            show c'.g.name = (h.namelist.set h.namelist_num_entries
              g.name).getD i []
            rw [getD_set_ne _ _ _ _ _ (fun hh => hic hh.symm)]
            exact hn' }
    · rw [wcCore_snd_set _ _ _ _ _ _ _
        (show ¬ (appendNameState h g.name).open_flags = .append from hnap)]
      exact hrw
    · rw [wcCore_snd_set _ _ _ _ _ _ _
        (show ¬ (appendNameState h g.name).open_flags = .append from hnap)]
      exact rfl

/-! The write step of the session invariant, when the index block is full
and gsd_write_chunk expands it. -/

theorem gsd_write_chunk_sinv_full (fs : GsdFile) (h : GsdHandle)
    (com stg : List CChunk) (hinv : SInv fs h com stg)
    (hrw : h.open_flags = .readwrite)
    (g : GChunk) (hgf : g.frame = h.cur_frame) (hwok : WOk g)
    (hnn_cap : h.namelist_num_entries < GSD_INITIAL_NAMELIST_SIZE)
    (hcompat : ∀ c ∈ com ++ stg, nameFrameOk c.g g)
    (hfull : h.header.index_allocated_entries ≤ h.index_num_entries) :
    ∃ fs' h' c, gsd_write_chunk fs h g.name g.typ g.N g.M 0 (some g.bytes)
        = .ok (fs', h') ∧
      SInv fs' h' com (stg ++ [c]) ∧ c.g = g ∧
      h'.open_flags = .readwrite ∧ h'.cur_frame = h.cur_frame := by
  have hro : ¬ h.open_flags = .readonly := by
    rw [hrw]
    intro hbad
    cases hbad
  have hnap : ¬ h.open_flags = .append := by
    rw [hrw]
    intro hbad
    cases hbad
  obtain ⟨hilen, hmtake, hmzero⟩ := hinv.mem_rw hnap
  have hN : g.N ≠ 0 := by
    have := hwok.N_pos
    omega
  have hM : g.M ≠ 0 := by
    have := hwok.M_pos
    omega
  have htyp := hwok.typ_ok
  have hszeq : (g.N * g.M * gsd_sizeof_type g.typ) % u64_mod
      = g.N * g.M * gsd_sizeof_type g.typ := Nat.mod_eq_of_lt hwok.no_wrap
  have htypmod : g.typ % 256 = g.typ := Nat.mod_eq_of_lt hwok.typ_lt
  have hfsz : h.file_size = fs.size := hinv.fsz_eq
  have hnleln := hinv.names_len
  have hnwle := hinv.nw_le
  have hal := hinv.al_ge
  have hI : GSD_INITIAL_INDEX_SIZE = 128 := rfl
  have hfulleq : h.index_num_entries = h.header.index_allocated_entries :=
    le_antisymm hinv.inum_le hfull
  have hiwc := hinv.iw_eq
  have hinumeq := hinv.inum_eq
  have hiwin : h.index_written_entries ≤ h.index_num_entries := by omega
  have hmax : max fs.size (h.file_size + (g.N * g.M * gsd_sizeof_type g.typ) % u64_mod)
      = fs.size + (g.N * g.M * gsd_sizeof_type g.typ) % u64_mod := by
    rw [hfsz]
    exact max_eq_right (Nat.le_add_right _ _)
  have hwcompat : ∀ i, i < h.namelist_written_entries →
      g.name <+: nameAt h i → g.name = nameAt h i := by
    intro i hi hpre
    rcases SInv_pair_mem fs h com stg hinv _ (getD_mem h.names i default
      (by omega)) with ⟨ip, hip, hpi⟩
    rcases hinv.an_from ip hip with ⟨c', hc', hn'⟩
    have hni : nameAt h i = c'.g.name := by
      unfold nameAt
      rw [hpi]
      show h.namelist.getD ip [] = c'.g.name
      exact hn'.symm
    rw [hni] at hpre ⊢
    exact ((hcompat c' hc').2.1 hpre).symm
  have hnostg : ∀ c' ∈ stg, c'.g.name ≠ g.name := by
    intro c' hc' heq
    have h3 := (hcompat c' (List.mem_append.mpr (Or.inr hc'))).2.2
    apply h3
    refine ⟨?_, heq⟩
    have hfr := (hinv.chunk_wf c' (List.mem_append.mpr (Or.inr hc'))).fr_eq
    rw [← hfr, hinv.stg_frame c' hc', hgf]
  have hdata_old : ∀ c' ∈ com ++ stg, ∀ j, j < c'.g.bytes.length →
      writeBytes fs.data h.file_size
        ((List.range ((g.N * g.M * gsd_sizeof_type g.typ) % u64_mod)).map
          (fun j => g.bytes.getD j 0)) (c'.e.location + j)
      = fs.data (c'.e.location + j) := by
    intro c' hc' j hj
    have hw' := hinv.chunk_wf c' hc'
    apply writeBytes_below
    calc c'.e.location + j
        < c'.e.location + c'.g.bytes.length := Nat.add_lt_add_left hj _
      _ = c'.e.location
          + c'.e.N * c'.e.M * gsd_sizeof_type c'.e.typ := by
          rw [hw'.bytes_len]
      _ ≤ fs.size := hw'.in_file
      _ = h.file_size := hfsz.symm
  have hE_wf : ∀ (idv : Nat) (fsx : GsdFile) (hx : GsdHandle),
      fsx.data = writeBytes fs.data h.file_size
        ((List.range ((g.N * g.M * gsd_sizeof_type g.typ) % u64_mod)).map
          (fun j => g.bytes.getD j 0)) →
      fs.size + (g.N * g.M * gsd_sizeof_type g.typ) % u64_mod ≤ fsx.size →
      idv < hx.namelist_num_entries →
      hx.namelist.getD idv [] = g.name →
      CWf fsx hx ⟨⟨h.cur_frame, g.N, h.file_size, g.M, idv,
        g.typ % 256, 0⟩, g⟩ := by
    intro idv fsx hx hxdata hxsize hxid hxname
    refine {
      flags0 := rfl
      typ_ok := by
        show gsd_sizeof_type (g.typ % 256) ≠ 0
        rw [htypmod]
        exact htyp
      no_wrap := by
        show g.N * g.M * gsd_sizeof_type (g.typ % 256) < u64_mod
        rw [htypmod]
        exact hwok.no_wrap
      size_pos := by
        show 0 < g.N * g.M * gsd_sizeof_type (g.typ % 256)
        rw [htypmod]
        exact Nat.mul_pos (Nat.mul_pos hwok.N_pos hwok.M_pos)
          (Nat.pos_of_ne_zero hwok.typ_ok)
      bytes_len := by
        show g.bytes.length = g.N * g.M * gsd_sizeof_type (g.typ % 256)
        rw [htypmod]
        exact hwok.bytes_len
      loc_lb := by
        show gsd_header_size ≤ h.file_size
        rw [hfsz]
        exact hinv.size_lb
      in_file := by
        show h.file_size + g.N * g.M * gsd_sizeof_type (g.typ % 256)
          ≤ fsx.size
        rw [htypmod, hfsz, ← hszeq]
        exact hxsize
      data_eq := by
        intro j hj
        have hj' : j < g.bytes.length := hj
        show fsx.data (h.file_size + j) = g.bytes.getD j 0
        rw [hxdata]
        have hjlt : j < (g.N * g.M * gsd_sizeof_type g.typ) % u64_mod := by
          rw [hszeq]
          exact lt_of_lt_of_eq hj' hwok.bytes_len
        rw [writeBytes_in _ _ _ _ (Nat.le_add_right _ _) (by
          rw [List.length_map, List.length_range]
          exact Nat.add_lt_add_left hjlt _)]
        rw [show h.file_size + j - h.file_size = j by omega]
        rw [getD_map_range _ _ _ _ hjlt]
      id_lt := hxid
      id_name := hxname
      fr_eq := hgf.symm
      N_eq := rfl
      M_eq := rfl
      typ_eq := htypmod }
  have hMIlen : ((h.index ++ List.replicate (h.header.index_allocated_entries * 2 - h.header.index_allocated_entries) zeroEntry)).length = h.header.index_allocated_entries * 2 := by
    rw [List.length_append, List.length_replicate, hilen]
    omega
  have hMItake_iw : ((h.index ++ List.replicate (h.header.index_allocated_entries * 2 - h.header.index_allocated_entries) zeroEntry)).take h.index_written_entries = com.map (·.e) := by
    rw [List.take_append_eq_append_take,
      show h.index_written_entries - h.index.length = 0 by omega,
      List.take_zero, List.append_nil]
    have h1 : h.index.take h.index_written_entries
        = (h.index.take h.index_num_entries).take h.index_written_entries := by
      rw [List.take_take, min_eq_left hiwin]
    rw [h1, hmtake, List.take_append_eq_append_take,
      show h.index_written_entries - (com.map (·.e)).length = 0 by
        rw [List.length_map]; omega,
      List.take_zero, List.append_nil,
      List.take_of_length_le (by rw [List.length_map]; omega)]
  have hMIdropz : ∀ e ∈ ((h.index ++ List.replicate (h.header.index_allocated_entries * 2 - h.header.index_allocated_entries) zeroEntry)).drop h.index_num_entries, e = zeroEntry := by
    intro e he
    rw [List.drop_append_eq_append_drop] at he
    rcases List.mem_append.mp he with h1 | h1
    · exact hmzero e h1
    · exact List.eq_of_mem_replicate (List.mem_of_mem_drop h1)
  have hMIset_take : ∀ e0 : GsdIndexEntry,
      (((h.index ++ List.replicate (h.header.index_allocated_entries * 2 - h.header.index_allocated_entries) zeroEntry)).set h.index_num_entries e0).take (h.index_num_entries + 1)
      = (com.map (·.e) ++ stg.map (·.e)) ++ [e0] := by
    intro e0
    rw [take_set_succ _ _ _ (by rw [hMIlen]; omega),
      List.take_append_eq_append_take,
      show h.index_num_entries - h.index.length = 0 by omega,
      List.take_zero, List.append_nil, hmtake]
  have hMIset_drop : ∀ (e0 e : GsdIndexEntry),
      e ∈ (((h.index ++ List.replicate (h.header.index_allocated_entries * 2 - h.header.index_allocated_entries) zeroEntry)).set h.index_num_entries e0).drop
        (h.index_num_entries + 1) → e = zeroEntry := by
    intro e0 e he
    rw [drop_set_of_lt _ _ _ _ (Nat.lt_succ_self _)] at he
    have hdd : ((h.index ++ List.replicate (h.header.index_allocated_entries * 2 - h.header.index_allocated_entries) zeroEntry)).drop (h.index_num_entries + 1)
        = (((h.index ++ List.replicate (h.header.index_allocated_entries * 2 - h.header.index_allocated_entries) zeroEntry)).drop h.index_num_entries).drop 1 := by
      rw [List.drop_drop]
    rw [hdd] at he
    exact hMIdropz e (List.mem_of_mem_drop he)
  have hMIset_len : ∀ e0 : GsdIndexEntry,
      (((h.index ++ List.replicate (h.header.index_allocated_entries * 2 - h.header.index_allocated_entries) zeroEntry)).set h.index_num_entries e0).length
      = h.header.index_allocated_entries * 2 := by
    intro e0
    rw [List.length_set]
    exact hMIlen
  by_cases hq : ∃ p, p < h.namelist_written_entries ∧ nameAt h p = g.name
  · -- the name is committed: the id is reused
    rcases hq with ⟨p, hp, hpname⟩
    obtain ⟨hfind, hidnn, hidname⟩ := SInv_get_id_found fs h com stg hinv
      g.name p hp hpname hwcompat
    have hw := gsd_write_chunk_reuse_full fs h g.name g.typ g.N g.M g.bytes
      ((h.names.getD p default).id) hN hM htyp hrw hfind hfull
    refine ⟨_, _, ⟨⟨h.cur_frame, g.N, h.file_size, g.M, (h.names.getD p default).id, g.typ % 256, 0⟩, g⟩, hw, ?_, rfl, hrw, rfl⟩
    refine {
      hdr_eq := rfl, magic_eq := hinv.magic_eq,
      ver_eq := hinv.ver_eq, nlal_eq := hinv.nlal_eq,
      al_ge := by
        show GSD_INITIAL_INDEX_SIZE ≤ h.header.index_allocated_entries * 2
        omega
      nn_chunks := by
        show h.namelist_num_entries ≤ com.length + (stg ++ [_]).length
        have := hinv.nn_chunks
        simp only [List.length_append, List.length_cons, List.length_nil]
        omega
      iblk_len := hMIlen, nlblk_len := hinv.nlblk_len,
      hnl_len := hinv.hnl_len, iw_eq := hinv.iw_eq,
      inum_eq := by
        show h.index_num_entries + 1 = com.length + (stg ++ [_]).length
        have := hinv.inum_eq
        simp only [List.length_append, List.length_cons, List.length_nil]
        omega
      inum_le := by
        show h.index_num_entries + 1
          ≤ h.header.index_allocated_entries * 2
        omega
      nn_le := hinv.nn_le, nw_le := hinv.nw_le,
      fsz_eq := rfl,
      size_lb := by
        show gsd_header_size ≤ (max fs.size (h.file_size + (g.N * g.M * gsd_sizeof_type g.typ) % u64_mod))
          + gsd_index_entry_size * (h.header.index_allocated_entries * 2)
        exact le_trans hinv.size_lb
          (le_trans (le_max_left _ _) (Nat.le_add_right _ _))
      ibound := le_refl _,
      nbound := by
        show h.header.namelist_location + gsd_namelist_entry_size
            * h.header.namelist_allocated_entries
          ≤ (max fs.size (h.file_size + (g.N * g.M * gsd_sizeof_type g.typ) % u64_mod))
            + gsd_index_entry_size * (h.header.index_allocated_entries * 2)
        exact le_trans hinv.nbound
          (le_trans (le_max_left _ _) (Nat.le_add_right _ _))
      disk_com := hMItake_iw,
      disk_zero := by
        intro e he
        have he' : e ∈ ((h.index ++ List.replicate (h.header.index_allocated_entries * 2 - h.header.index_allocated_entries) zeroEntry)).drop (h.index_num_entries + 1) := he
        have hdd : ((h.index ++ List.replicate (h.header.index_allocated_entries * 2 - h.header.index_allocated_entries) zeroEntry)).drop (h.index_num_entries + 1)
            = (((h.index ++ List.replicate (h.header.index_allocated_entries * 2 - h.header.index_allocated_entries) zeroEntry)).drop h.index_num_entries).drop 1 := by
          rw [List.drop_drop]
        rw [hdd] at he'
        exact hMIdropz e (List.mem_of_mem_drop he')
      mem_rw := by
        intro _
        refine ⟨?_, ?_, ?_⟩
        · exact hMIset_len _
        · show (((h.index ++ List.replicate (h.header.index_allocated_entries * 2 - h.header.index_allocated_entries) zeroEntry)).set h.index_num_entries _).take
              (h.index_num_entries + 1)
            = com.map (·.e) ++ (stg
              ++ [(⟨⟨h.cur_frame, g.N, h.file_size, g.M, (h.names.getD p default).id, g.typ % 256, 0⟩, g⟩ : CChunk)]).map (·.e)
          rw [hMIset_take]
          rw [List.map_append, ← List.append_assoc]
          rfl
        · intro e he
          exact hMIset_drop _ e he
      mem_ap := by
        intro hap
        have hap' : h.open_flags = .append := hap
        exact absurd hap' hnap
      nl_disk := hinv.nl_disk, nl_disk_zero := hinv.nl_disk_zero,
      nl_tail_zero := hinv.nl_tail_zero, an_wf := hinv.an_wf,
      an_inj := hinv.an_inj, names_len := hinv.names_len,
      names_srt := hinv.names_srt, names_permw := hinv.names_permw,
      names_tail := hinv.names_tail, com_frames := hinv.com_frames,
      com_lt := hinv.com_lt,
      stg_frame := by
        intro c' hc'
        show c'.e.frame = h.cur_frame
        rcases List.mem_append.mp hc' with hc1 | hc1
        · exact hinv.stg_frame c' hc1
        · rw [List.mem_singleton] at hc1
          subst hc1
          rfl
      com_id_w := hinv.com_id_w,
      chunk_wf := by
        intro c' hc'
        rcases List.mem_append.mp hc' with hc1 | hc1
        · have hmem : c' ∈ com ++ stg := List.mem_append.mpr (Or.inl hc1)
          exact CWf_congr fs _ h _ c' (hinv.chunk_wf c' hmem)
            (hdata_old c' hmem)
            (le_trans (le_max_left _ _) (Nat.le_add_right _ _))
            (hinv.chunk_wf c' hmem).id_lt rfl
        · rcases List.mem_append.mp hc1 with hc2 | hc2
          · have hmem : c' ∈ com ++ stg :=
              List.mem_append.mpr (Or.inr hc2)
            exact CWf_congr fs _ h _ c' (hinv.chunk_wf c' hmem)
              (hdata_old c' hmem)
              (le_trans (le_max_left _ _) (Nat.le_add_right _ _))
              (hinv.chunk_wf c' hmem).id_lt rfl
          · rw [List.mem_singleton] at hc2
            subst hc2
            refine hE_wf _ _ _ rfl
              (le_trans (le_of_eq hmax.symm) (Nat.le_add_right _ _))
              ?_ ?_
            · show (h.names.getD p default).id < h.namelist_num_entries
              exact hidnn
            · show h.namelist.getD ((h.names.getD p default).id) []
                = g.name
              exact hidname
      an_from := by
        intro i hi
        rcases hinv.an_from i hi with ⟨c', hc', hn'⟩
        refine ⟨c', ?_, hn'⟩
        rcases List.mem_append.mp hc' with h1 | h1
        · exact List.mem_append.mpr (Or.inl h1)
        · exact List.mem_append.mpr
            (Or.inr (List.mem_append.mpr (Or.inl h1)))
      stg_an := by
        intro i h1 h2
        rcases hinv.stg_an i h1 h2 with ⟨c', hc', hn'⟩
        exact ⟨c', List.mem_append.mpr (Or.inl hc'), hn'⟩ }
  · -- a fresh name: a new id is appended
    have hq' : ∀ i, i < h.namelist_written_entries →
        nameAt h i ≠ g.name := fun i hi heq => hq ⟨i, hi, heq⟩
    have hfind := SInv_get_id_none fs h com stg hinv g.name hq' hwcompat
    have hu16 : u16_mod = 65536 := by norm_num [u16_mod]
    have hnl65 : GSD_INITIAL_NAMELIST_SIZE = 65535 := rfl
    have hnlal := hinv.nlal_eq
    have hcap : h.namelist_num_entries
        ≠ h.header.namelist_allocated_entries := by
      rw [hnlal]
      omega
    have hid16 : h.namelist_num_entries < u16_mod - 1 := by omega
    have hw := gsd_write_chunk_new_full fs h g.name g.typ g.N g.M g.bytes
      hN hM htyp hrw hfind hcap hid16 hfull
    have htrunc : truncName63 g.name = g.name := by
      unfold truncName63
      exact List.take_of_length_le hwok.name_le
    have htknn : h.names.take h.namelist_num_entries = h.names :=
      List.take_of_length_le (le_of_eq hnleln)
    have hnl_lt : h.namelist_num_entries < h.namelist.length := by
      have := hinv.hnl_len
      omega
    have hnocom : ∀ c' ∈ com, c'.g.name ≠ g.name := by
      intro c' hc' heq
      rcases SInv_com_window fs h com stg hinv c' hc' with ⟨p, hp, hpn⟩
      exact hq' p hp (hpn.trans heq)
    refine ⟨_, _, ⟨⟨h.cur_frame, g.N, h.file_size, g.M, h.namelist_num_entries, g.typ % 256, 0⟩, g⟩, hw, ?_, rfl, hrw, rfl⟩
    rw [htrunc, htknn]
    refine {
      hdr_eq := rfl, magic_eq := hinv.magic_eq,
      ver_eq := hinv.ver_eq, nlal_eq := hinv.nlal_eq,
      al_ge := by
        show GSD_INITIAL_INDEX_SIZE ≤ h.header.index_allocated_entries * 2
        omega
      nn_chunks := by
        show h.namelist_num_entries + 1
          ≤ com.length + (stg ++ [_]).length
        have := hinv.nn_chunks
        simp only [List.length_append, List.length_cons, List.length_nil]
        omega
      iblk_len := hMIlen, nlblk_len := hinv.nlblk_len,
      hnl_len := by
        show (h.namelist.set h.namelist_num_entries g.name).length
          = h.header.namelist_allocated_entries
        rw [List.length_set]
        exact hinv.hnl_len
      iw_eq := hinv.iw_eq,
      inum_eq := by
        show h.index_num_entries + 1 = com.length + (stg ++ [_]).length
        have := hinv.inum_eq
        simp only [List.length_append, List.length_cons, List.length_nil]
        omega
      inum_le := by
        show h.index_num_entries + 1
          ≤ h.header.index_allocated_entries * 2
        omega
      nn_le := by
        show h.namelist_num_entries + 1
          ≤ h.header.namelist_allocated_entries
        rw [hnlal]
        omega
      nw_le := by
        show h.namelist_written_entries ≤ h.namelist_num_entries + 1
        omega
      fsz_eq := rfl,
      size_lb := by
        show gsd_header_size ≤ (max fs.size (h.file_size + (g.N * g.M * gsd_sizeof_type g.typ) % u64_mod))
          + gsd_index_entry_size * (h.header.index_allocated_entries * 2)
        exact le_trans hinv.size_lb
          (le_trans (le_max_left _ _) (Nat.le_add_right _ _))
      ibound := le_refl _,
      nbound := by
        show h.header.namelist_location + gsd_namelist_entry_size
            * h.header.namelist_allocated_entries
          ≤ (max fs.size (h.file_size + (g.N * g.M * gsd_sizeof_type g.typ) % u64_mod))
            + gsd_index_entry_size * (h.header.index_allocated_entries * 2)
        exact le_trans hinv.nbound
          (le_trans (le_max_left _ _) (Nat.le_add_right _ _))
      disk_com := hMItake_iw,
      disk_zero := by
        intro e he
        have he' : e ∈ ((h.index ++ List.replicate (h.header.index_allocated_entries * 2 - h.header.index_allocated_entries) zeroEntry)).drop (h.index_num_entries + 1) := he
        have hdd : ((h.index ++ List.replicate (h.header.index_allocated_entries * 2 - h.header.index_allocated_entries) zeroEntry)).drop (h.index_num_entries + 1)
            = (((h.index ++ List.replicate (h.header.index_allocated_entries * 2 - h.header.index_allocated_entries) zeroEntry)).drop h.index_num_entries).drop 1 := by
          rw [List.drop_drop]
        rw [hdd] at he'
        exact hMIdropz e (List.mem_of_mem_drop he')
      mem_rw := by
        intro _
        refine ⟨?_, ?_, ?_⟩
        · exact hMIset_len _
        · show (((h.index ++ List.replicate (h.header.index_allocated_entries * 2 - h.header.index_allocated_entries) zeroEntry)).set h.index_num_entries _).take
              (h.index_num_entries + 1)
            = com.map (·.e) ++ (stg
              ++ [(⟨⟨h.cur_frame, g.N, h.file_size, g.M, h.namelist_num_entries, g.typ % 256, 0⟩, g⟩ : CChunk)]).map (·.e)
          rw [hMIset_take]
          rw [List.map_append, ← List.append_assoc]
          rfl
        · intro e he
          exact hMIset_drop _ e he
      mem_ap := by
        intro hap
        have hap' : h.open_flags = .append := hap
        exact absurd hap' hnap
      nl_disk := by
        show fs.namelistBlock.take h.namelist_written_entries
          = (h.namelist.set h.namelist_num_entries g.name).take
            h.namelist_written_entries
        rw [take_set_of_le _ _ _ _ hnwle]
        exact hinv.nl_disk
      nl_disk_zero := hinv.nl_disk_zero,
      nl_tail_zero := by
        intro nm hnm
        have hnm' : nm ∈ (h.namelist.set h.namelist_num_entries
            g.name).drop (h.namelist_num_entries + 1) := hnm
        rw [drop_set_of_lt _ _ _ _ (Nat.lt_succ_self _)] at hnm'
        have hdd : h.namelist.drop (h.namelist_num_entries + 1)
            = (h.namelist.drop h.namelist_num_entries).drop 1 := by
          rw [List.drop_drop]
        rw [hdd] at hnm'
        exact hinv.nl_tail_zero nm (List.mem_of_mem_drop hnm')
      an_wf := by
        intro i hi
        have hi' : i < h.namelist_num_entries + 1 := hi
        show 0 < ((h.namelist.set h.namelist_num_entries g.name).getD
            i []).length
          ∧ ((h.namelist.set h.namelist_num_entries g.name).getD
            i []).length ≤ 63
        by_cases hic : i = h.namelist_num_entries
        · subst hic
          rw [getD_set_eq _ _ _ _ hnl_lt]
          exact ⟨hwok.name_pos, hwok.name_le⟩
        · rw [getD_set_ne _ _ _ _ _ (fun hh => hic hh.symm)]
          exact hinv.an_wf i (by omega)
      an_inj := by
        intro i j hi hj hij
        have hi' : i < h.namelist_num_entries + 1 := hi
        have hj' : j < h.namelist_num_entries + 1 := hj
        show ¬ ((h.namelist.set h.namelist_num_entries g.name).getD i []
          <+: (h.namelist.set h.namelist_num_entries g.name).getD j [])
        by_cases hic : i = h.namelist_num_entries
        · subst hic
          rw [getD_set_eq _ _ _ _ hnl_lt,
            getD_set_ne _ _ _ _ _ hij]
          intro hpre
          have hjn : j < h.namelist_num_entries := by omega
          rcases hinv.an_from j hjn with ⟨c', hc', hn'⟩
          rw [← hn'] at hpre
          have heq := (hcompat c' hc').2.1 hpre
          rcases List.mem_append.mp hc' with h1 | h1
          · exact hnocom c' h1 heq
          · exact hnostg c' h1 heq
        · by_cases hjc : j = h.namelist_num_entries
          · subst hjc
            rw [getD_set_eq _ _ _ _ hnl_lt,
              getD_set_ne _ _ _ _ _ (fun hh => hic hh.symm)]
            intro hpre
            have hin : i < h.namelist_num_entries := by omega
            rcases hinv.an_from i hin with ⟨c', hc', hn'⟩
            rw [← hn'] at hpre
            have heq := (hcompat c' hc').1 hpre
            rcases List.mem_append.mp hc' with h1 | h1
            · exact hnocom c' h1 heq
            · exact hnostg c' h1 heq
          · rw [getD_set_ne _ _ _ _ _ (fun hh => hic hh.symm),
              getD_set_ne _ _ _ _ _ (fun hh => hjc hh.symm)]
            exact hinv.an_inj i j (by omega) (by omega) hij
      names_len := by
        show (h.names ++ [_]).length = h.namelist_num_entries + 1
        simp only [List.length_append, List.length_cons, List.length_nil]
        omega
      names_srt := by
        intro i j hij hj
        have hj' : j < h.namelist_written_entries := hj
        have hgi : (h.names ++ [(⟨g.name, h.namelist_num_entries⟩
            : GsdNameIdPair)]).getD i default = h.names.getD i default :=
          getD_append_left _ _ _ _ (by omega)
        have hgj : (h.names ++ [(⟨g.name, h.namelist_num_entries⟩
            : GsdNameIdPair)]).getD j default = h.names.getD j default :=
          getD_append_left _ _ _ _ (by omega)
        show strcmpList ((h.names
            ++ [(⟨g.name, h.namelist_num_entries⟩
              : GsdNameIdPair)]).getD i default).name
          ((h.names ++ [(⟨g.name, h.namelist_num_entries⟩
            : GsdNameIdPair)]).getD j default).name = .lt
        rw [hgi, hgj]
        exact hinv.names_srt i j hij hj'
      names_permw := by
        show ((h.names ++ [(⟨g.name, h.namelist_num_entries⟩
            : GsdNameIdPair)]).take h.namelist_written_entries).Perm
          ((List.range h.namelist_written_entries).map _)
        rw [List.take_append_eq_append_take,
          show h.namelist_written_entries - h.names.length = 0 by omega,
          List.take_zero, List.append_nil]
        refine hinv.names_permw.trans (List.Perm.of_eq
          (List.map_congr_left ?_))
        intro i hi
        have hilt : i < h.namelist_written_entries := List.mem_range.mp hi
        show (⟨h.namelist.getD i [], i⟩ : GsdNameIdPair)
          = ⟨(h.namelist.set h.namelist_num_entries g.name).getD i [], i⟩
        rw [getD_set_ne _ _ _ _ _ (by omega)]
      names_tail := by
        show (h.names ++ [(⟨g.name, h.namelist_num_entries⟩
            : GsdNameIdPair)]).drop h.namelist_written_entries
          = (List.range' h.namelist_written_entries
              (h.namelist_num_entries + 1
                - h.namelist_written_entries)).map _
        rw [List.drop_append_eq_append_drop,
          show h.namelist_written_entries - h.names.length = 0 by omega,
          List.drop_zero]
        rw [show h.namelist_num_entries + 1 - h.namelist_written_entries
          = (h.namelist_num_entries - h.namelist_written_entries) + 1
          by omega]
        rw [range'_split h.namelist_written_entries
          (h.namelist_num_entries - h.namelist_written_entries) 1]
        rw [List.map_append]
        rw [hinv.names_tail]
        congr 1
        · apply List.map_congr_left
          intro i hi
          have hi2 := List.mem_range'_1.mp hi
          show (⟨h.namelist.getD i [], i⟩ : GsdNameIdPair)
            = ⟨(h.namelist.set h.namelist_num_entries g.name).getD
                i [], i⟩
          rw [getD_set_ne _ _ _ _ _ (by omega)]
        · show [(⟨g.name, h.namelist_num_entries⟩ : GsdNameIdPair)]
            = [nlPair _ (h.namelist_written_entries
              + (h.namelist_num_entries - h.namelist_written_entries))]
          rw [show h.namelist_written_entries
            + (h.namelist_num_entries - h.namelist_written_entries)
            = h.namelist_num_entries by omega]
          show [(⟨g.name, h.namelist_num_entries⟩ : GsdNameIdPair)]
            = [⟨(h.namelist.set h.namelist_num_entries g.name).getD
                h.namelist_num_entries [], h.namelist_num_entries⟩]
          rw [getD_set_eq _ _ _ _ hnl_lt]
      com_frames := hinv.com_frames, com_lt := hinv.com_lt,
      stg_frame := by
        intro c' hc'
        show c'.e.frame = h.cur_frame
        rcases List.mem_append.mp hc' with hc1 | hc1
        · exact hinv.stg_frame c' hc1
        · rw [List.mem_singleton] at hc1
          subst hc1
          rfl
      com_id_w := hinv.com_id_w,
      chunk_wf := by
        intro c' hc'
        have hnamekeep : ∀ cx ∈ com ++ stg,
            (h.namelist.set h.namelist_num_entries g.name).getD
              cx.e.id [] = h.namelist.getD cx.e.id [] := by
          intro cx hcx
          have := (hinv.chunk_wf cx hcx).id_lt
          exact getD_set_ne _ _ _ _ _ (by omega)
        rcases List.mem_append.mp hc' with hc1 | hc1
        · have hmem : c' ∈ com ++ stg := List.mem_append.mpr (Or.inl hc1)
          exact CWf_congr fs _ h _ c' (hinv.chunk_wf c' hmem)
            (hdata_old c' hmem)
            (le_trans (le_max_left _ _) (Nat.le_add_right _ _))
            (by
              have := (hinv.chunk_wf c' hmem).id_lt
              show c'.e.id < h.namelist_num_entries + 1
              omega)
            (hnamekeep c' hmem)
        · rcases List.mem_append.mp hc1 with hc2 | hc2
          · have hmem : c' ∈ com ++ stg :=
              List.mem_append.mpr (Or.inr hc2)
            exact CWf_congr fs _ h _ c' (hinv.chunk_wf c' hmem)
              (hdata_old c' hmem)
              (le_trans (le_max_left _ _) (Nat.le_add_right _ _))
              (by
                have := (hinv.chunk_wf c' hmem).id_lt
                show c'.e.id < h.namelist_num_entries + 1
                omega)
              (hnamekeep c' hmem)
          · rw [List.mem_singleton] at hc2
            subst hc2
            refine hE_wf _ _ _ rfl
              (le_trans (le_of_eq hmax.symm) (Nat.le_add_right _ _))
              ?_ ?_
            · show h.namelist_num_entries < h.namelist_num_entries + 1
              exact Nat.lt_succ_self _
            · show (h.namelist.set h.namelist_num_entries g.name).getD
                h.namelist_num_entries [] = g.name
              rw [getD_set_eq _ _ _ _ hnl_lt]
      an_from := by
        intro i hi
        have hi' : i < h.namelist_num_entries + 1 := hi
        by_cases hic : i = h.namelist_num_entries
        · subst hic
          refine ⟨⟨⟨h.cur_frame, g.N, h.file_size, g.M, h.namelist_num_entries, g.typ % 256, 0⟩, g⟩, ?_, ?_⟩
          · exact List.mem_append.mpr (Or.inr
              (List.mem_append.mpr (Or.inr (List.mem_singleton.mpr rfl))))
          · show g.name = (h.namelist.set h.namelist_num_entries
              g.name).getD h.namelist_num_entries []
            rw [getD_set_eq _ _ _ _ hnl_lt]
        · rcases hinv.an_from i (by omega) with ⟨c', hc', hn'⟩
          refine ⟨c', ?_, ?_⟩
          · rcases List.mem_append.mp hc' with h1 | h1
            · exact List.mem_append.mpr (Or.inl h1)
            · exact List.mem_append.mpr
                (Or.inr (List.mem_append.mpr (Or.inl h1)))
          · show c'.g.name = (h.namelist.set h.namelist_num_entries
              g.name).getD i []
            rw [getD_set_ne _ _ _ _ _ (fun hh => hic hh.symm)]
            exact hn'
      stg_an := by
        intro i h1 h2
        have h1' : h.namelist_written_entries ≤ i := h1
        have h2' : i < h.namelist_num_entries + 1 := h2
        by_cases hic : i = h.namelist_num_entries
        · subst hic
          refine ⟨⟨⟨h.cur_frame, g.N, h.file_size, g.M, h.namelist_num_entries, g.typ % 256, 0⟩, g⟩, ?_, ?_⟩
          · exact List.mem_append.mpr (Or.inr (List.mem_singleton.mpr rfl))
          · show g.name = (h.namelist.set h.namelist_num_entries
              g.name).getD h.namelist_num_entries []
            rw [getD_set_eq _ _ _ _ hnl_lt]
        · rcases hinv.stg_an i h1' (by omega) with ⟨c', hc', hn'⟩
          refine ⟨c', List.mem_append.mpr (Or.inl hc'), ?_⟩
          show c'.g.name = (h.namelist.set h.namelist_num_entries
            g.name).getD i []
          rw [getD_set_ne _ _ _ _ _ (fun hh => hic hh.symm)]
          exact hn' }

/-! Invariance of the length of the ghost-chunk list in the base frame. -/

theorem ghostChunks_length (ops : List GsdOp) : ∀ f f' : Nat,
    (ghostChunks f ops).length = (ghostChunks f' ops).length := by
  induction ops with
  | nil =>
    intro f f'
    rfl
  | cons op ops ih =>
    intro f f'
    cases op with
    | write n t N M b =>
      show (ghostChunks f ops).length + 1 = (ghostChunks f' ops).length + 1
      rw [ih f f']
    | endFrame =>
      show (ghostChunks (f + 1) ops).length
        = (ghostChunks (f' + 1) ops).length
      exact ih (f + 1) (f' + 1)

/-! The session invariant carried through a whole list of write and endFrame
operations. -/

theorem runOps_sinv (ops : List GsdOp) :
    ∀ (fs : GsdFile) (h : GsdHandle) (com stg : List CChunk),
    SInv fs h com stg →
    h.open_flags = .readwrite →
    TraceOk ((com ++ stg).map (·.g)) h.cur_frame ops →
    (com ++ stg).length + (ghostChunks h.cur_frame ops).length
      ≤ GSD_INITIAL_NAMELIST_SIZE →
    ∃ fs' h' com' stg', runOps (fs, h) ops = .ok (fs', h') ∧
      SInv fs' h' com' stg' ∧
      com'.map (·.g) ++ stg'.map (·.g)
        = (com ++ stg).map (·.g) ++ ghostChunks h.cur_frame ops ∧
      h'.open_flags = .readwrite ∧
      h'.cur_frame = h.cur_frame + endCount ops := by
  induction ops with
  | nil =>
    intro fs h com stg hinv hrw htr hcnt
    exact ⟨fs, h, com, stg, rfl, hinv, by
      show com.map (·.g) ++ stg.map (·.g)
        = (com ++ stg).map (·.g) ++ []
      rw [List.map_append, List.append_nil], hrw, rfl⟩
  | cons op ops ih =>
    intro fs h com stg hinv hrw htr hcnt
    cases op with
    | endFrame =>
      obtain ⟨fs1, h1, heq1, hinv1, hrw1, hcur1⟩ :=
        gsd_end_frame_sinv fs h com stg hinv hrw
      have htr' : TraceOk (((com ++ stg) ++ []).map (fun c : CChunk => c.g))
          h1.cur_frame ops := by
        rw [List.append_nil, hcur1]
        exact htr
      have hcnt' : ((com ++ stg) ++ []).length
          + (ghostChunks h1.cur_frame ops).length
          ≤ GSD_INITIAL_NAMELIST_SIZE := by
        rw [List.append_nil, hcur1]
        exact hcnt
      obtain ⟨fs', h', com', stg', heq2, hinv2, hmap2, hrw2, hcur2⟩ :=
        ih fs1 h1 (com ++ stg) [] hinv1 hrw1 htr' hcnt'
      refine ⟨fs', h', com', stg', ?_, hinv2, ?_, hrw2, ?_⟩
      · show (gsd_end_frame fs h).bind (fun s' => runOps s' ops)
          = .ok (fs', h')
        rw [heq1, except_bind_ok]
        exact heq2
      · rw [hmap2, List.append_nil, hcur1]
        rfl
      · rw [hcur2, hcur1]
        show h.cur_frame + 1 + endCount ops
          = h.cur_frame + (endCount ops + 1)
        omega
    | write n t N M b =>
      have hghost : ghostChunks h.cur_frame (.write n t N M b :: ops)
          = ⟨h.cur_frame, n, t, N, M, b⟩
            :: ghostChunks h.cur_frame ops := rfl
      obtain ⟨htrW, htrP⟩ := htr
      have hwok : WOk ⟨h.cur_frame, n, t, N, M, b⟩ := by
        apply htrW
        rw [hghost]
        exact List.mem_cons_self _ _
      have hcompat : ∀ c ∈ com ++ stg,
          nameFrameOk c.g ⟨h.cur_frame, n, t, N, M, b⟩ := by
        intro c hc
        have hpair := (List.pairwise_append.mp htrP).2.2
        apply hpair
        · exact List.mem_map_of_mem _ hc
        · rw [hghost]
          exact List.mem_cons_self _ _
      have hnn_cap : h.namelist_num_entries < GSD_INITIAL_NAMELIST_SIZE := by
        have h1 := hinv.nn_chunks
        have h2 : 1 ≤ (ghostChunks h.cur_frame
            (.write n t N M b :: ops)).length := by
          rw [hghost]
          simp
        have h3 : (com ++ stg).length = com.length + stg.length :=
          List.length_append _ _
        omega
      have hstep : ∃ fs1 h1 c,
          gsd_write_chunk fs h n t N M 0 (some b) = .ok (fs1, h1) ∧
          SInv fs1 h1 com (stg ++ [c])
          ∧ c.g = ⟨h.cur_frame, n, t, N, M, b⟩
          ∧ h1.open_flags = .readwrite ∧ h1.cur_frame = h.cur_frame := by
        by_cases hroom : h.index_num_entries
            < h.header.index_allocated_entries
        · exact gsd_write_chunk_sinv_room fs h com stg hinv hrw
            ⟨h.cur_frame, n, t, N, M, b⟩ rfl hwok hnn_cap hcompat hroom
        · exact gsd_write_chunk_sinv_full fs h com stg hinv hrw
            ⟨h.cur_frame, n, t, N, M, b⟩ rfl hwok hnn_cap hcompat
            (by omega)
      obtain ⟨fs1, h1, c, heqw, hinv1, hcg, hrw1, hcur1⟩ := hstep
      have hmapc : (com ++ (stg ++ [c])).map (·.g)
          = (com ++ stg).map (·.g)
            ++ [(⟨h.cur_frame, n, t, N, M, b⟩ : GChunk)] := by
        rw [← List.append_assoc, List.map_append]
        congr 1
        show [c.g] = [(⟨h.cur_frame, n, t, N, M, b⟩ : GChunk)]
        rw [hcg]
      have htr2 : TraceOk ((com ++ (stg ++ [c])).map (·.g))
          h1.cur_frame ops := by
        rw [hcur1, hmapc]
        refine ⟨?_, ?_⟩
        · intro d hd
          exact htrW d (by
            rw [hghost]
            exact List.mem_cons_of_mem _ hd)
        · have h2 := htrP
          rw [hghost] at h2
          rw [List.append_assoc]
          exact h2
      have hcnt2 : (com ++ (stg ++ [c])).length
          + (ghostChunks h1.cur_frame ops).length
          ≤ GSD_INITIAL_NAMELIST_SIZE := by
        rw [hcur1]
        have h4 : (ghostChunks h.cur_frame
            ((GsdOp.write n t N M b) :: ops)).length
            = (ghostChunks h.cur_frame ops).length + 1 := by
          rw [hghost, List.length_cons]
        simp only [List.length_append, List.length_cons,
          List.length_nil] at hcnt ⊢
        omega
      obtain ⟨fs', h', com', stg', heq2, hinv2, hmap2, hrw2, hcur2⟩ :=
        ih fs1 h1 com (stg ++ [c]) hinv1 hrw1 htr2 hcnt2
      refine ⟨fs', h', com', stg', ?_, hinv2, ?_, hrw2, ?_⟩
      · show (gsd_write_chunk fs h n t N M 0 (some b)).bind
            (fun s' => runOps s' ops) = .ok (fs', h')
        rw [heqw, except_bind_ok]
        exact heq2
      · rw [hmap2, hmapc, hcur1, hghost, List.append_assoc]
        rfl
      · rw [hcur2, hcur1]
        show h.cur_frame + endCount ops
          = h.cur_frame + endCount (.write n t N M b :: ops)
        rfl

/-! Reopening a fully committed session file read-only: gsd_open succeeds and
the resulting handle satisfies the session invariant for the same committed
chunks. -/

theorem SInv_reopen (fs : GsdFile) (h : GsdHandle) (com : List CChunk)
    (hinv : SInv fs h com [])
    (hfr : ∀ c ∈ com, c.e.frame < h.header.index_allocated_entries) :
    gsd_open fs .readonly
      = .ok (gsd_mk_handle fs .readonly com.length
          h.namelist_num_entries) ∧
    SInv fs (gsd_mk_handle fs .readonly com.length h.namelist_num_entries)
      com [] := by
  have hhd : fs.header = h.header := hinv.hdr_eq
  have hnwle := hinv.nw_le
  have hnwnn : h.namelist_written_entries = h.namelist_num_entries := by
    by_contra hne
    have hlt : h.namelist_written_entries < h.namelist_num_entries :=
      lt_of_le_of_ne hnwle hne
    rcases hinv.stg_an h.namelist_written_entries (le_refl _) hlt with
      ⟨c, hc, _⟩
    exact absurd hc (List.not_mem_nil c)
  have hnil : ([] : List CChunk).length = 0 := rfl
  have hieq : h.index_num_entries = com.length := by
    have := hinv.inum_eq
    omega
  have hiw : h.index_written_entries = com.length := hinv.iw_eq
  have hkal : com.length ≤ h.header.index_allocated_entries := by
    have := hinv.inum_le
    omega
  have hgi : ∀ i, i < com.length →
      fs.indexBlock.getD i zeroEntry = (com.getD i default).e := by
    intro i hi
    rw [← getD_take fs.indexBlock h.index_written_entries i zeroEntry
      (by omega), hinv.disk_com, getD_map_e com i hi]
  have hcw : ∀ c ∈ com, CWf fs h c := fun c hc =>
    hinv.chunk_wf c (List.mem_append.mpr (Or.inl hc))
  have hdisk_nn : fs.namelistBlock.take h.namelist_num_entries
      = h.namelist.take h.namelist_num_entries := by
    rw [← hnwnn]
    exact hinv.nl_disk
  have hnlgetD : ∀ i, i < h.namelist_num_entries →
      fs.namelistBlock.getD i [] = h.namelist.getD i [] := by
    intro i hi
    rw [← getD_take fs.namelistBlock h.namelist_num_entries i [] hi,
      hdisk_nn, getD_take _ _ _ _ hi]
  have hnlb : ∀ i, i < h.namelist_num_entries →
      fs.namelistBlock.getD i [] ≠ [] := by
    intro i hi
    rw [hnlgetD i hi]
    intro heq
    have h1 := (hinv.an_wf i hi).1
    rw [heq] at h1
    exact absurd h1 (lt_irrefl 0)
  have hnlat : h.namelist_num_entries
      = fs.header.namelist_allocated_entries ∨
      fs.namelistBlock.getD h.namelist_num_entries [] = [] := by
    by_cases hc : h.namelist_num_entries
        = h.header.namelist_allocated_entries
    · left
      rw [hhd]
      exact hc
    · right
      have hlen : h.namelist_num_entries < fs.namelistBlock.length := by
        have := hinv.nlblk_len
        have := hinv.nn_le
        omega
      have h0 : fs.namelistBlock.getD h.namelist_num_entries []
          = (fs.namelistBlock.drop h.namelist_num_entries).getD 0 [] := by
        rw [List.getD_eq_getElem?_getD, List.getD_eq_getElem?_getD,
          List.getElem?_drop, Nat.add_zero]
      rw [h0]
      apply hinv.nl_disk_zero
      rw [hnwnn]
      apply getD_mem
      rw [List.length_drop]
      omega
  have hnz : ∀ i, i < com.length →
      (fs.indexBlock.getD i zeroEntry).location ≠ 0 := by
    intro i hi
    rw [hgi i hi]
    have hcwi := hcw (com.getD i default) (getD_mem com i default hi)
    have h1 := hcwi.loc_lb
    have hgs : gsd_header_size = 256 := rfl
    omega
  have hzero : ∀ i, i < fs.header.index_allocated_entries →
      com.length ≤ i → (fs.indexBlock.getD i zeroEntry).location = 0 := by
    intro i hilt hge
    rw [hhd] at hilt
    have h0 : fs.indexBlock.getD i zeroEntry
        = (fs.indexBlock.drop h.index_num_entries).getD
          (i - h.index_num_entries) zeroEntry := by
      rw [List.getD_eq_getElem?_getD, List.getD_eq_getElem?_getD,
        List.getElem?_drop,
        show h.index_num_entries + (i - h.index_num_entries) = i by omega]
    rw [h0]
    have hmem := getD_mem (fs.indexBlock.drop h.index_num_entries)
      (i - h.index_num_entries) zeroEntry (by
        rw [List.length_drop, hinv.iblk_len]
        omega)
    rw [hinv.disk_zero _ hmem]
    rfl
  have hval : ∀ i, i < com.length →
      gsd_sizeof_type (fs.indexBlock.getD i zeroEntry).typ ≠ 0 ∧
      (fs.indexBlock.getD i zeroEntry).location
        + chunk_size (fs.indexBlock.getD i zeroEntry) ≤ fs.size ∧
      (fs.indexBlock.getD i zeroEntry).frame
        < fs.header.index_allocated_entries ∧
      (fs.indexBlock.getD i zeroEntry).id < h.namelist_num_entries ∧
      (fs.indexBlock.getD i zeroEntry).flags = 0 := by
    intro i hi
    rw [hgi i hi]
    have hcwi := hcw (com.getD i default) (getD_mem com i default hi)
    refine ⟨hcwi.typ_ok, ?_, ?_, hcwi.id_lt, hcwi.flags0⟩
    · have h2 : chunk_size (com.getD i default).e
          = (com.getD i default).e.N * (com.getD i default).e.M
            * gsd_sizeof_type (com.getD i default).e.typ := by
        unfold chunk_size
        exact Nat.mod_eq_of_lt hcwi.no_wrap
      rw [h2]
      exact hcwi.in_file
    · rw [hhd]
      exact hfr (com.getD i default) (getD_mem com i default hi)
  have hmono : ∀ j, j < com.length → ∀ i, i < j + 1 →
      (fs.indexBlock.getD i zeroEntry).frame
      ≤ (fs.indexBlock.getD j zeroEntry).frame := by
    intro j hj i hi
    rw [hgi j hj, hgi i (by omega)]
    rcases Nat.lt_or_ge i j with hlt | hge
    · exact hinv.com_frames i j hlt hj
    · have hij : i = j := by omega
      subst hij
      exact le_refl _
  have hspec := gsd_read_header_spec fs .readonly com.length
    h.namelist_num_entries hinv.size_lb
    (by rw [hhd]; exact hinv.magic_eq)
    (by rw [hhd]; exact hinv.ver_eq)
    (by rw [hhd]; exact hinv.ibound)
    (by rw [hhd]; exact hinv.nbound)
    (by rw [hhd]; exact hinv.iblk_len)
    (by rw [hhd]; exact hinv.nlblk_len)
    (by rw [hhd]; exact hkal)
    (by rw [hhd]; exact hinv.nn_le)
    hnlb hnlat hnz hzero hval hmono
  have hl0nd : (((List.range h.namelist_num_entries).map fun i => (⟨fs.namelistBlock.getD i [], i⟩ : GsdNameIdPair))).Nodup := by
    refine List.Nodup.map ?_ (List.nodup_range _)
    intro a b heq
    exact congrArg GsdNameIdPair.id heq
  have hdist : ∀ p q, p ∈ ((List.range h.namelist_num_entries).map fun i => (⟨fs.namelistBlock.getD i [], i⟩ : GsdNameIdPair)) → q ∈ ((List.range h.namelist_num_entries).map fun i => (⟨fs.namelistBlock.getD i [], i⟩ : GsdNameIdPair)) → p ≠ q → p.name ≠ q.name := by
    intro p q hp hq hne heqn
    rcases List.mem_map.mp hp with ⟨ip, hipr, hpe⟩
    rcases List.mem_map.mp hq with ⟨iq, hiqr, hqe⟩
    have hip := List.mem_range.mp hipr
    have hiq := List.mem_range.mp hiqr
    subst hpe
    subst hqe
    by_cases hii : ip = iq
    · subst hii
      exact hne rfl
    · have heqn' : fs.namelistBlock.getD ip []
          = fs.namelistBlock.getD iq [] := heqn
      apply hinv.an_inj ip iq hip hiq hii
      rw [← hnlgetD ip hip, ← hnlgetD iq hiq, heqn']
  have hslen : (gsd_sort_name_id_pairs (((List.range h.namelist_num_entries).map fun i => (⟨fs.namelistBlock.getD i [], i⟩ : GsdNameIdPair)))).length
      = h.namelist_num_entries := by
    show (insertionSort gsd_cmp_name_id_pair (((List.range h.namelist_num_entries).map fun i => (⟨fs.namelistBlock.getD i [], i⟩ : GsdNameIdPair)))).length = _
    rw [(insertionSort_perm gsd_cmp_name_id_pair _).length_eq,
      List.length_map, List.length_range]
  refine ⟨hspec, ?_⟩
  refine {
    hdr_eq := rfl,
    magic_eq := by
      show fs.header.magic = GSD_MAGIC_ID
      rw [hhd]
      exact hinv.magic_eq
    ver_eq := by
      show fs.header.gsd_version = gsd_make_version 1 0
      rw [hhd]
      exact hinv.ver_eq
    nlal_eq := by
      show fs.header.namelist_allocated_entries = GSD_INITIAL_NAMELIST_SIZE
      rw [hhd]
      exact hinv.nlal_eq
    al_ge := by
      show GSD_INITIAL_INDEX_SIZE ≤ fs.header.index_allocated_entries
      rw [hhd]
      exact hinv.al_ge
    nn_chunks := hinv.nn_chunks,
    iblk_len := by
      show fs.indexBlock.length = fs.header.index_allocated_entries
      rw [hhd]
      exact hinv.iblk_len
    nlblk_len := by
      show fs.namelistBlock.length = fs.header.namelist_allocated_entries
      rw [hhd]
      exact hinv.nlblk_len
    hnl_len := by
      show fs.namelistBlock.length = fs.header.namelist_allocated_entries
      rw [hhd]
      exact hinv.nlblk_len
    iw_eq := rfl,
    inum_eq := rfl,
    inum_le := by
      show com.length ≤ fs.header.index_allocated_entries
      rw [hhd]
      exact hkal
    nn_le := by
      show h.namelist_num_entries ≤ fs.header.namelist_allocated_entries
      rw [hhd]
      exact hinv.nn_le
    nw_le := le_refl _,
    fsz_eq := rfl,
    size_lb := hinv.size_lb,
    ibound := by
      show fs.header.index_location + gsd_index_entry_size
        * fs.header.index_allocated_entries ≤ fs.size
      rw [hhd]
      exact hinv.ibound
    nbound := by
      show fs.header.namelist_location + gsd_namelist_entry_size
        * fs.header.namelist_allocated_entries ≤ fs.size
      rw [hhd]
      exact hinv.nbound
    disk_com := by
      show fs.indexBlock.take com.length = com.map (·.e)
      rw [← hiw]
      exact hinv.disk_com
    disk_zero := by
      show ∀ e ∈ fs.indexBlock.drop com.length, e = zeroEntry
      rw [← hieq]
      exact hinv.disk_zero
    mem_rw := by
      intro _
      refine ⟨?_, ?_, ?_⟩
      · show fs.indexBlock.length = fs.header.index_allocated_entries
        rw [hhd]
        exact hinv.iblk_len
      · show fs.indexBlock.take com.length
          = com.map (·.e) ++ ([] : List CChunk).map (·.e)
        simp only [List.map_nil, List.append_nil]
        rw [← hiw]
        exact hinv.disk_com
      · show ∀ e ∈ fs.indexBlock.drop com.length, e = zeroEntry
        rw [← hieq]
        exact hinv.disk_zero
    mem_ap := by
      intro hap
      have hap' : GsdOpenFlag.readonly = GsdOpenFlag.append := hap
      exact absurd hap' (by decide)
    nl_disk := rfl,
    nl_disk_zero := by
      show ∀ nm ∈ fs.namelistBlock.drop h.namelist_num_entries, nm = []
      rw [← hnwnn]
      exact hinv.nl_disk_zero
    nl_tail_zero := by
      show ∀ nm ∈ fs.namelistBlock.drop h.namelist_num_entries, nm = []
      rw [← hnwnn]
      exact hinv.nl_disk_zero
    an_wf := by
      intro i hi
      have hi' : i < h.namelist_num_entries := hi
      show 0 < (fs.namelistBlock.getD i []).length
        ∧ (fs.namelistBlock.getD i []).length ≤ 63
      rw [hnlgetD i hi']
      exact hinv.an_wf i hi'
    an_inj := by
      intro i j hi hj hij
      have hi' : i < h.namelist_num_entries := hi
      have hj' : j < h.namelist_num_entries := hj
      show ¬ (fs.namelistBlock.getD i [] <+: fs.namelistBlock.getD j [])
      rw [hnlgetD i hi', hnlgetD j hj']
      exact hinv.an_inj i j hi' hj' hij
    names_len := hslen,
    names_srt := by
      intro i j hij hj
      have hj' : j < h.namelist_num_entries := hj
      show strcmpList
        ((gsd_sort_name_id_pairs (((List.range h.namelist_num_entries).map fun i => (⟨fs.namelistBlock.getD i [], i⟩ : GsdNameIdPair)))).getD i default).name
        ((gsd_sort_name_id_pairs (((List.range h.namelist_num_entries).map fun i => (⟨fs.namelistBlock.getD i [], i⟩ : GsdNameIdPair)))).getD j default).name = .lt
      exact gsd_sort_srt (((List.range h.namelist_num_entries).map fun i => (⟨fs.namelistBlock.getD i [], i⟩ : GsdNameIdPair))) hl0nd hdist i j hij (by
        rw [hslen]
        exact hj')
    names_permw := by
      show ((gsd_sort_name_id_pairs (((List.range h.namelist_num_entries).map fun i => (⟨fs.namelistBlock.getD i [], i⟩ : GsdNameIdPair)))).take
          h.namelist_num_entries).Perm
        ((List.range h.namelist_num_entries).map _)
      rw [List.take_of_length_le (le_of_eq hslen)]
      exact insertionSort_perm gsd_cmp_name_id_pair (((List.range h.namelist_num_entries).map fun i => (⟨fs.namelistBlock.getD i [], i⟩ : GsdNameIdPair)))
    names_tail := by
      show (gsd_sort_name_id_pairs (((List.range h.namelist_num_entries).map fun i => (⟨fs.namelistBlock.getD i [], i⟩ : GsdNameIdPair)))).drop h.namelist_num_entries
        = (List.range' h.namelist_num_entries
            (h.namelist_num_entries - h.namelist_num_entries)).map _
      rw [List.drop_of_length_le (le_of_eq hslen),
        show h.namelist_num_entries - h.namelist_num_entries = 0 by omega]
      rfl
    com_frames := hinv.com_frames,
    com_lt := by
      intro c hc
      rcases List.getElem_of_mem hc with ⟨q, hq, hget⟩
      have hk0 : ¬ com.length = 0 := by omega
      show c.e.frame < if com.length = 0 then 0
        else (fs.indexBlock.getD (com.length - 1) zeroEntry).frame + 1
      rw [if_neg hk0, hgi (com.length - 1) (by omega)]
      have hle : (com.getD q default).e.frame
          ≤ (com.getD (com.length - 1) default).e.frame := by
        rcases Nat.lt_or_ge q (com.length - 1) with hlt | hge
        · exact hinv.com_frames q (com.length - 1) hlt (by omega)
        · have hqq : q = com.length - 1 := by omega
          subst hqq
          exact le_refl _
      have hcq : com.getD q default = c := by
        rw [getD_eq_get _ _ _ hq]
        exact hget
      rw [hcq] at hle
      omega
    stg_frame := fun c hc => absurd hc (List.not_mem_nil c),
    com_id_w := fun c hc => (hcw c hc).id_lt,
    chunk_wf := by
      intro c hc
      have hc' : c ∈ com := by
        rcases List.mem_append.mp hc with h1 | h1
        · exact h1
        · exact absurd h1 (List.not_mem_nil c)
      have hw := hcw c hc'
      exact CWf_congr fs fs h _ c hw (fun j hj => rfl) (le_refl _)
        hw.id_lt (hnlgetD c.e.id hw.id_lt)
    an_from := by
      intro i hi
      have hi' : i < h.namelist_num_entries := hi
      rcases hinv.an_from i hi' with ⟨c, hc, hn⟩
      refine ⟨c, hc, ?_⟩
      show c.g.name = fs.namelistBlock.getD i []
      rw [hnlgetD i hi']
      exact hn
    stg_an := by
      intro i h1 h2
      have h1' : h.namelist_num_entries ≤ i := h1
      have h2' : i < h.namelist_num_entries := h2
      exact absurd h2' (by omega) }

/-! Committed chunks are found again by gsd_find_chunk, and read back intact
by gsd_read_chunk, under the session invariant. -/

theorem gsd_find_chunk_sinv (fs : GsdFile) (h : GsdHandle)
    (com : List CChunk) (hinv : SInv fs h com [])
    (hnap : ¬ h.open_flags = .append)
    (hpw : List.Pairwise nameFrameOk (com.map (·.g)))
    (c : CChunk) (hc : c ∈ com) :
    gsd_find_chunk (some h) c.g.frame (some c.g.name) = some c.e := by
  have hcwc := hinv.chunk_wf c (List.mem_append.mpr (Or.inl hc))
  have hfrlt : c.g.frame < h.cur_frame := by
    have h1 := hinv.com_lt c hc
    have h2 := hcwc.fr_eq
    omega
  have hnfr : ¬ gsd_get_nframes h ≤ c.g.frame := by
    show ¬ h.cur_frame ≤ c.g.frame
    omega
  have hQ : ∀ d ∈ com.map (·.g), ∀ d' ∈ com.map (·.g),
      d.name <+: d'.name → d.name = d'.name := by
    intro d hd d' hd' hpre
    by_cases hdd : d = d'
    · rw [hdd]
    · have hpw' : List.Pairwise (fun a b : GChunk =>
          (a.name <+: b.name → a.name = b.name)
          ∧ (b.name <+: a.name → b.name = a.name)) (com.map (·.g)) := by
        refine hpw.imp ?_
        intro a b hab
        exact ⟨hab.1, fun hp => (hab.2.1 hp).symm⟩
      have hsym : Symmetric (fun a b : GChunk =>
          (a.name <+: b.name → a.name = b.name)
          ∧ (b.name <+: a.name → b.name = a.name)) := by
        intro a b hab
        exact ⟨hab.2, hab.1⟩
      exact (hpw'.forall hsym hd hd' hdd).1 hpre
  have hwcompat : ∀ i, i < h.namelist_written_entries →
      c.g.name <+: nameAt h i → c.g.name = nameAt h i := by
    intro i hi hpre
    rcases SInv_pair_mem fs h com [] hinv _ (getD_mem h.names i default
      (by
        have := hinv.names_len
        have := hinv.nw_le
        omega)) with ⟨ip, hip, hpi⟩
    rcases hinv.an_from ip hip with ⟨c', hc', hn'⟩
    have hc'' : c' ∈ com := by
      rcases List.mem_append.mp hc' with h1 | h1
      · exact h1
      · exact absurd h1 (List.not_mem_nil c')
    have hni : nameAt h i = c'.g.name := by
      unfold nameAt
      rw [hpi]
      show h.namelist.getD ip [] = c'.g.name
      exact hn'.symm
    rw [hni] at hpre ⊢
    exact hQ c.g (List.mem_map_of_mem _ hc) c'.g
      (List.mem_map_of_mem _ hc'') hpre
  rcases SInv_com_window fs h com [] hinv c hc with ⟨p, hp, hpn⟩
  obtain ⟨hfind, hidnn, hidname⟩ := SInv_get_id_found fs h com [] hinv
    c.g.name p hp hpn hwcompat
  have hideq : (h.names.getD p default).id = c.e.id := by
    by_contra hne
    apply hinv.an_inj _ _ hidnn hcwc.id_lt hne
    rw [hidname, hcwc.id_name]
  obtain ⟨hilen, hmtake, hmzero⟩ := hinv.mem_rw hnap
  have hieq : h.index_num_entries = com.length := by
    have h0 : ([] : List CChunk).length = 0 := rfl
    have := hinv.inum_eq
    omega
  have hmtake' : h.index.take h.index_num_entries = com.map (·.e) := by
    rw [hmtake]
    simp only [List.map_nil, List.append_nil]
  have hgi : ∀ i, i < com.length →
      h.index.getD i zeroEntry = (com.getD i default).e := by
    intro i hi
    rw [← getD_take h.index h.index_num_entries i zeroEntry (by omega),
      hmtake', getD_map_e com i hi]
  rcases List.getElem_of_mem hc with ⟨q, hq, hgetq⟩
  have hcq : com.getD q default = c := by
    rw [getD_eq_get _ _ _ hq]
    exact hgetq
  have hfq : (h.index.getD q zeroEntry).frame = c.g.frame := by
    rw [hgi q hq, hcq]
    exact hcwc.fr_eq
  have hmono' : ∀ i j, i ≤ j → j < h.index_num_entries →
      (h.index.getD i zeroEntry).frame
      ≤ (h.index.getD j zeroEntry).frame := by
    intro i j hij hj
    have hj' : j < com.length := by omega
    rw [hgi i (by omega), hgi j hj']
    rcases Nat.lt_or_ge i j with hlt | hge
    · exact hinv.com_frames i j hlt hj'
    · have hij2 : i = j := by omega
      subst hij2
      exact le_refl _
  set b := Nat.findGreatest
    (fun i => (h.index.getD i zeroEntry).frame = c.g.frame)
    (h.index_num_entries - 1) with hbdef
  have hq1 : q ≤ h.index_num_entries - 1 := by omega
  have hPq : (fun i => (h.index.getD i zeroEntry).frame = c.g.frame) q := hfq
  have hPb' : (h.index.getD b zeroEntry).frame = c.g.frame :=
    Nat.findGreatest_spec
      (P := fun i => (h.index.getD i zeroEntry).frame = c.g.frame) hq1 hPq
  have hble : b ≤ h.index_num_entries - 1 :=
    Nat.findGreatest_le
      (P := fun i => (h.index.getD i zeroEntry).frame = c.g.frame) _
  have hqle : q ≤ b :=
    Nat.le_findGreatest
      (P := fun i => (h.index.getD i zeroEntry).frame = c.g.frame) hq1 hPq
  have hbN : b < h.index_num_entries := by omega
  have habove : ∀ i, b < i → i < h.index_num_entries →
      c.g.frame < (h.index.getD i zeroEntry).frame := by
    intro i hbi hiN
    have hgg : Nat.findGreatest
        (fun i => (h.index.getD i zeroEntry).frame = c.g.frame)
        (h.index_num_entries - 1) < i := by
      rw [← hbdef]
      exact hbi
    have hne : ¬ (h.index.getD i zeroEntry).frame = c.g.frame :=
      Nat.findGreatest_is_greatest
        (P := fun i => (h.index.getD i zeroEntry).frame = c.g.frame)
        hgg (by omega)
    have hge : (h.index.getD b zeroEntry).frame
        ≤ (h.index.getD i zeroEntry).frame := hmono' b i (by omega) hiN
    omega
  have hloop := gsd_find_chunk_loop_finds h c.g.frame b h.index_num_entries
    hbN hPb' habove hmono' (h.index_num_entries + 1) 0 h.index_num_entries
    (by omega) (by omega) hbN (le_refl _)
  have hblockqb : ∀ i, q ≤ i → i ≤ b →
      (h.index.getD i zeroEntry).frame = c.g.frame := by
    intro i hqi hib
    have h1 := hmono' q i hqi (by omega)
    have h2 := hmono' i b hib (by omega)
    rw [hfq] at h1
    rw [hPb'] at h2
    omega
  have hexist : ∃ j, q ≤ j ∧ j ≤ b ∧ (h.index.getD j zeroEntry).id
      = (h.names.getD p default).id := by
    refine ⟨q, le_refl q, hqle, ?_⟩
    rw [hgi q hq, hcq, hideq]
  rcases gsd_find_chunk_scan_finds h c.g.frame ((h.names.getD p default).id)
    q b hqle hblockqb hexist with ⟨e, j0, hscaneq, hqj0, hj0b, hej0⟩
  rcases gsd_find_chunk_scan_some h c.g.frame ((h.names.getD p default).id)
    b e hscaneq with ⟨j', hj'b, hee, hef, heid⟩
  have hj'N : j' < com.length := by omega
  have hc2 : h.index.getD j' zeroEntry = (com.getD j' default).e :=
    hgi j' hj'N
  have hcwj := hinv.chunk_wf (com.getD j' default)
    (List.mem_append.mpr (Or.inl (getD_mem com j' default hj'N)))
  have hidj : (com.getD j' default).e.id = c.e.id := by
    rw [← hc2, ← hee, heid, hideq]
  have hnamej : (com.getD j' default).g.name = c.g.name := by
    have h1 := hcwj.id_name
    have h2 := hcwc.id_name
    rw [← h2, ← hidj, h1]
  have hframej : (com.getD j' default).g.frame = c.g.frame := by
    have hfrj := hcwj.fr_eq
    rw [← hfrj, ← hc2, ← hee, hef]
  have hRapp : ∀ i j, i < j → j < com.length →
      nameFrameOk (com.getD i default).g (com.getD j default).g := by
    intro i j hij hj
    have hi : i < com.length := by omega
    have h1 := List.pairwise_iff_getElem.mp hpw i j
      (by rw [List.length_map]; exact hi)
      (by rw [List.length_map]; exact hj) hij
    rw [List.getElem_map, List.getElem_map] at h1
    rw [getD_eq_get _ _ _ hi, getD_eq_get _ _ _ hj]
    exact h1
  have hjq : j' = q := by
    by_contra hne
    have hfreq : (com.getD j' default).g.frame
        = (com.getD q default).g.frame := by
      rw [hcq, hframej]
    have hnmeq : (com.getD j' default).g.name
        = (com.getD q default).g.name := by
      rw [hcq, hnamej]
    rcases Nat.lt_or_ge j' q with hlt | hge2
    · exact (hRapp j' q hlt hq).2.2 ⟨hfreq, hnmeq⟩
    · have hlt2 : q < j' := by omega
      exact (hRapp q j' hlt2 hj'N).2.2 ⟨hfreq.symm, hnmeq.symm⟩
  subst hjq
  simp only [gsd_find_chunk]
  rw [if_neg hnfr, if_neg hnap]
  simp only [hfind]
  rw [hloop, hscaneq, hee, hc2, hcq]

theorem gsd_read_chunk_sinv (fs : GsdFile) (h : GsdHandle)
    (com stg : List CChunk) (hinv : SInv fs h com stg)
    (hnap : ¬ h.open_flags = .append)
    (c : CChunk) (hc : c ∈ com ++ stg) :
    gsd_read_chunk fs (some h) true (some c.e) = .ok c.g.bytes := by
  have hw := hinv.chunk_wf c hc
  have hsz : chunk_size c.e = c.e.N * c.e.M * gsd_sizeof_type c.e.typ := by
    unfold chunk_size
    exact Nat.mod_eq_of_lt hw.no_wrap
  have hsz0 : ¬ chunk_size c.e = 0 := by
    rw [hsz]
    exact Nat.pos_iff_ne_zero.mp hw.size_pos
  have hloc0 : ¬ c.e.location = 0 := by
    have h1 := hw.loc_lb
    have h2 : gsd_header_size = 256 := rfl
    omega
  have hfile : ¬ h.file_size < c.e.location + chunk_size c.e := by
    rw [hsz, hinv.fsz_eq]
    exact not_lt.mpr hw.in_file
  simp only [gsd_read_chunk]
  rw [if_neg (show ¬ (true : Bool) = false by decide), if_neg hnap,
    if_neg hsz0, if_neg hloc0, if_neg hfile]
  rw [readBytes_eq fs.data c.e.location (chunk_size c.e) c.g.bytes
    (by rw [hsz]; exact hw.bytes_len)
    (fun j hj => hw.data_eq j (by rw [hw.bytes_len, ← hsz]; exact hj))]

theorem runOps_append (l1 l2 : List GsdOp) : ∀ s : GsdFile × GsdHandle,
    runOps s (l1 ++ l2) = (runOps s l1).bind fun s' => runOps s' l2 := by
  induction l1 with
  | nil =>
    intro s
    rfl
  | cons op l1 ih =>
    intro s
    show (runOp s op).bind (fun s' => runOps s' (l1 ++ l2))
      = ((runOp s op).bind fun s' => runOps s' l1).bind
          fun s' => runOps s' l2
    cases hop : runOp s op with
    | error e => rfl
    | ok s1 =>
      rw [except_bind_ok, except_bind_ok]
      exact ih s1

theorem ghostChunks_append_end (ops : List GsdOp) : ∀ f : Nat,
    ghostChunks f (ops ++ [.endFrame]) = ghostChunks f ops := by
  induction ops with
  | nil =>
    intro f
    rfl
  | cons op ops ih =>
    intro f
    cases op with
    | write n t N M b =>
      show (⟨f, n, t, N, M, b⟩ : GChunk)
          :: ghostChunks f (ops ++ [.endFrame])
        = (⟨f, n, t, N, M, b⟩ : GChunk) :: ghostChunks f ops
      rw [ih f]
    | endFrame =>
      show ghostChunks (f + 1) (ops ++ [.endFrame])
        = ghostChunks (f + 1) ops
      exact ih (f + 1)

/-- C1 (amended): for a fresh read-write file, any sequence of valid
gsd_write_chunk calls interleaved with gsd_end_frame and closed by a final
gsd_end_frame — with pairwise prefix-free names, no (frame, name) written
twice, fewer than GSD_INITIAL_NAMELIST_SIZE writes, and every frame index
below GSD_INITIAL_INDEX_SIZE — can be reopened read-only, and for every chunk
so committed gsd_find_chunk with the same frame and name yields an index
entry with the same N, M and type, and gsd_read_chunk on that entry returns
exactly the payload bytes that were passed to gsd_write_chunk. -/
theorem claim_C1_amended (a s : List Nat) (v : Nat) (ops : List GsdOp)
    (g : GChunk)
    (htr : TraceOk [] 0 (ops ++ [.endFrame]))
    (hcnt : (ghostChunks 0 (ops ++ [.endFrame])).length
      ≤ GSD_INITIAL_NAMELIST_SIZE)
    (hfrb : ∀ d ∈ ghostChunks 0 (ops ++ [.endFrame]),
      d.frame < GSD_INITIAL_INDEX_SIZE)
    (hg : g ∈ ghostChunks 0 (ops ++ [.endFrame])) :
    ∃ st st' h' e,
      gsd_create_and_open a s v .readwrite = .ok st ∧
      runOps st (ops ++ [.endFrame]) = .ok st' ∧
      gsd_open st'.1 .readonly = .ok h' ∧
      gsd_find_chunk (some h') g.frame (some g.name) = some e ∧
      e.N = g.N ∧ e.M = g.M ∧ e.typ = g.typ ∧
      gsd_read_chunk st'.1 (some h') true (some e) = .ok g.bytes := by
  have hcreate : gsd_create_and_open a s v .readwrite
      = .ok (gsd_initialize_file a s v, gsd_init_handle a s v .readwrite) := by
    unfold gsd_create_and_open
    rw [if_neg (by intro hbad; cases hbad)]
    show Except.map (fun h => (gsd_initialize_file a s v, h))
      (gsd_read_header (gsd_initialize_file a s v) .readwrite)
      = .ok (gsd_initialize_file a s v, gsd_init_handle a s v .readwrite)
    rw [gsd_read_header_init]
    rfl
  have hinv0 := SInv_init a s v
  have hflags0 : (gsd_init_handle a s v .readwrite).open_flags
      = .readwrite := rfl
  have hge := ghostChunks_append_end ops 0
  have htr' : TraceOk ((([] : List CChunk) ++ []).map
      (fun c : CChunk => c.g))
      (gsd_init_handle a s v .readwrite).cur_frame ops := by
    obtain ⟨h1, h2⟩ := htr
    refine ⟨?_, ?_⟩
    · intro d hd
      apply h1
      show d ∈ ghostChunks 0 (ops ++ [.endFrame])
      rw [hge]
      exact hd
    · show List.Pairwise nameFrameOk (ghostChunks 0 ops)
      rw [← hge]
      exact h2
  have hcnt' : (([] : List CChunk) ++ []).length
      + (ghostChunks (gsd_init_handle a s v .readwrite).cur_frame
          ops).length
      ≤ GSD_INITIAL_NAMELIST_SIZE := by
    show 0 + (ghostChunks 0 ops).length ≤ GSD_INITIAL_NAMELIST_SIZE
    rw [← hge]
    omega
  obtain ⟨fs1, h1, com1, stg1, heqrun, hinv1, hmap1, hrw1, hcur1⟩ :=
    runOps_sinv ops (gsd_initialize_file a s v)
      (gsd_init_handle a s v .readwrite) [] [] hinv0 hflags0 htr' hcnt'
  obtain ⟨fs2, h2, heqend, hinv2, hrw2, hcur2⟩ :=
    gsd_end_frame_sinv fs1 h1 com1 stg1 hinv1 hrw1
  have heqrun2 : runOps (gsd_initialize_file a s v,
      gsd_init_handle a s v .readwrite) (ops ++ [.endFrame])
      = .ok (fs2, h2) := by
    rw [runOps_append ops [.endFrame] _, heqrun, except_bind_ok]
    show (gsd_end_frame fs1 h1).bind (fun s' => runOps s' []) = .ok (fs2, h2)
    rw [heqend, except_bind_ok]
    rfl
  have hmapAll : (com1 ++ stg1).map (fun c : CChunk => c.g)
      = ghostChunks 0 (ops ++ [.endFrame]) := by
    rw [hge, List.map_append, hmap1]
    rfl
  have hfr2 : ∀ c ∈ com1 ++ stg1,
      c.e.frame < h2.header.index_allocated_entries := by
    intro c hcm
    have hcw := hinv2.chunk_wf c (List.mem_append.mpr (Or.inl hcm))
    have h1f := hcw.fr_eq
    have hgm : c.g ∈ ghostChunks 0 (ops ++ [.endFrame]) := by
      rw [← hmapAll]
      exact List.mem_map_of_mem _ hcm
    have h2f := hfrb c.g hgm
    have hI : GSD_INITIAL_INDEX_SIZE = 128 := rfl
    have h3f := hinv2.al_ge
    omega
  obtain ⟨hopen, hinv3⟩ := SInv_reopen fs2 h2 (com1 ++ stg1) hinv2 hfr2
  have hgmem : g ∈ (com1 ++ stg1).map (fun c : CChunk => c.g) := by
    rw [hmapAll]
    exact hg
  rcases List.mem_map.mp hgmem with ⟨c, hcmem, hcg⟩
  have hpw2 : List.Pairwise nameFrameOk
      ((com1 ++ stg1).map (fun c : CChunk => c.g)) := by
    rw [hmapAll]
    exact htr.2
  have hnap3 : ¬ (gsd_mk_handle fs2 .readonly (com1 ++ stg1).length
      h2.namelist_num_entries).open_flags = .append := by
    intro hap
    exact absurd (show GsdOpenFlag.readonly = .append from hap) (by decide)
  have hfindc := gsd_find_chunk_sinv fs2
    (gsd_mk_handle fs2 .readonly (com1 ++ stg1).length
      h2.namelist_num_entries)
    (com1 ++ stg1) hinv3 hnap3 hpw2 c hcmem
  have hreadc := gsd_read_chunk_sinv fs2
    (gsd_mk_handle fs2 .readonly (com1 ++ stg1).length
      h2.namelist_num_entries)
    (com1 ++ stg1) [] hinv3 hnap3 c (List.mem_append.mpr (Or.inl hcmem))
  have hcwf := hinv3.chunk_wf c (List.mem_append.mpr (Or.inl hcmem))
  refine ⟨(gsd_initialize_file a s v, gsd_init_handle a s v .readwrite),
    (fs2, h2),
    gsd_mk_handle fs2 .readonly (com1 ++ stg1).length
      h2.namelist_num_entries,
    c.e, hcreate, heqrun2, hopen, ?_, ?_, ?_, ?_, ?_⟩
  · rw [← hcg]
    exact hfindc
  · rw [← hcg]
    exact hcwf.N_eq
  · rw [← hcg]
    exact hcwf.M_eq
  · rw [← hcg]
    exact hcwf.typ_eq
  · rw [← hcg]
    exact hreadc

theorem claim_C1_amended_witness :
    ∃ st st' h' e,
      gsd_create_and_open [] [] 0 .readwrite = .ok st ∧
      runOps st ([GsdOp.write [120] 1 1 1 [7]] ++ [.endFrame]) = .ok st' ∧
      gsd_open st'.1 .readonly = .ok h' ∧
      gsd_find_chunk (some h') 0 (some [120]) = some e ∧
      e.N = 1 ∧ e.M = 1 ∧ e.typ = 1 ∧
      gsd_read_chunk st'.1 (some h') true (some e) = .ok [7] :=
  claim_C1_amended [] [] 0 [GsdOp.write [120] 1 1 1 [7]]
    ⟨0, [120], 1, 1, 1, [7]⟩
    ⟨by
      intro d hd
      have hd' : d ∈ [(⟨0, [120], 1, 1, 1, [7]⟩ : GChunk)] := hd
      rw [List.mem_singleton] at hd'
      subst hd'
      exact ⟨by decide, by decide, by decide, by decide, by decide,
        by decide, by decide, by decide, by decide, by decide⟩,
      List.Pairwise.cons (fun y hy => absurd hy (List.not_mem_nil y))
        List.Pairwise.nil⟩
    (by decide) (by decide) (by decide)

end Gsd